import Mathlib

/-
Verification development for the document classification-and-extraction core
(src/classifier.py and src/extractor.py).

Embedding conventions:
- Python str is modelled as Lean String; most functions work on List Char.
- str.lower()/str.upper() are modelled on the ASCII letters (the scripts that
  occur in the keyword tables are ASCII and Devanagari; Devanagari has no case,
  as in Python).
- Python regular expressions are modelled by hand-written scanners, one per
  concrete pattern of the source, replicating leftmost search, greedy or lazy
  quantifiers and word boundaries.  A regex word character is modelled as an
  ASCII letter or digit, an underscore, or a character of the Devanagari block
  U+0900..U+097F.
- Python float arithmetic on the classifier confidence is modelled over the
  rationals; the values involved are small integer quotients capped at 1.
- Python dicts of extracted fields are modelled as association lists where a
  later assignment is consed in front; List.lookup therefore returns the value
  of the latest assignment, like a dict read.
-/

namespace FormAssist

/-! ### Character helpers -/

def isUpperL (c : Char) : Bool := 'A' ≤ c && c ≤ 'Z'

def isLowerL (c : Char) : Bool := 'a' ≤ c && c ≤ 'z'

def isLetterC (c : Char) : Bool := isUpperL c || isLowerL c

def isDigitC (c : Char) : Bool := '0' ≤ c && c ≤ '9'

/-- The Devanagari block U+0900..U+097F, as used by extractor.py's
`'ऀ' <= c <= 'ॿ'` checks. -/
def isDev (c : Char) : Bool := 0x900 ≤ c.toNat && c.toNat ≤ 0x97F

/-- Whitespace, the ASCII part of Python's str.split / \s class. -/
def isWs (c : Char) : Bool :=
  c = ' ' || c = '\t' || c = '\n' || c = '\r' || c = Char.ofNat 11 || c = Char.ofNat 12

/-- A regex word character (\w): ASCII alphanumeric, underscore, or a
Devanagari-block character. -/
def isWordC (c : Char) : Bool := isLetterC c || isDigitC c || c = '_' || isDev c

def lowC (c : Char) : Char :=
  if isUpperL c then Char.ofNat (c.toNat + 32) else c

def upC (c : Char) : Char :=
  if isLowerL c then Char.ofNat (c.toNat - 32) else c

def lowL (cs : List Char) : List Char := cs.map lowC

def upL (cs : List Char) : List Char := cs.map upC

/-- The apostrophe character (U+0027). -/
def apoC : Char := Char.ofNat 39

/-- Python str.isalpha restricted to the scripts of interest: ASCII letters and
Devanagari-block characters other than the Devanagari digits U+0966..U+096F. -/
def isAlphaPy (c : Char) : Bool :=
  isLetterC c || (isDev c && !(0x966 ≤ c.toNat && c.toNat ≤ 0x96F))

/-- Substring containment, Python's `needle in hay`. -/
def containsSub (hay needle : List Char) : Bool :=
  match hay with
  | [] => needle.isEmpty
  | c :: rest => needle.isPrefixOf (c :: rest) || containsSub rest needle

/-- Python str.strip(). -/
def stripWs (cs : List Char) : List Char :=
  ((cs.dropWhile isWs).reverse.dropWhile isWs).reverse

/-- Python str.strip(' ,'). -/
def stripSpComma (cs : List Char) : List Char :=
  let p := fun c => c = ' ' || c = ','
  ((cs.dropWhile p).reverse.dropWhile p).reverse

/-- Python str.split(), written as a structurally recursive accumulator state
machine: whitespace-separated words, no empty words. -/
def wordsGo (acc : List Char) : List Char → List (List Char)
  | [] => if acc.isEmpty then [] else [acc.reverse]
  | c :: rest =>
    if isWs c then
      if acc.isEmpty then wordsGo [] rest else acc.reverse :: wordsGo [] rest
    else wordsGo (c :: acc) rest

def wordsOf (cs : List Char) : List (List Char) := wordsGo [] cs

/-- ' '.join(ws) for word lists. -/
def joinSp (ws : List (List Char)) : List Char :=
  match ws with
  | [] => []
  | [w] => w
  | w :: rest => w ++ ' ' :: joinSp rest

/-- ', '.join(ws). -/
def joinCommaSp (ws : List (List Char)) : List Char :=
  match ws with
  | [] => []
  | [w] => w
  | w :: rest => w ++ ',' :: ' ' :: joinCommaSp rest

/-- re.sub(r'\s+', ' ', s): collapse every whitespace run to one space,
without stripping the ends; the Boolean state records whether the previous
character was whitespace (already emitted as one space). -/
def collapseGo (prevWs : Bool) : List Char → List Char
  | [] => []
  | c :: rest =>
    if isWs c then
      if prevWs then collapseGo true rest else ' ' :: collapseGo true rest
    else c :: collapseGo false rest

def collapseWs (cs : List Char) : List Char := collapseGo false cs

/-- Python str.split('\n'). -/
def splitNl (cs : List Char) : List (List Char) :=
  match cs with
  | [] => [[]]
  | c :: rest =>
    if c = '\n' then [] :: splitNl rest
    else
      match splitNl rest with
      | [] => [[c]]
      | w :: ws => (c :: w) :: ws

/-- Python str.replace(' ', ''). -/
def delSpaces (cs : List Char) : List Char := cs.filter (fun c => c ≠ ' ')

/-- extractor.py extract_english_only: drop Devanagari-block characters, then
normalize spaces via ' '.join(split()). -/
def extractEnglishOnly (cs : List Char) : List Char :=
  joinSp (wordsOf (cs.filter (fun c => !isDev c)))

/-- extractor.py extract_hindi_only: keep Devanagari-block characters and
whitespace, then normalize spaces. -/
def extractHindiOnly (cs : List Char) : List Char :=
  joinSp (wordsOf (cs.filter (fun c => isDev c || isWs c)))

/-- Python str.title() for ASCII letters: a letter is uppercased when the
preceding character is not an ASCII letter, lowercased otherwise. -/
def titleAux : Bool → List Char → List Char
  | _, [] => []
  | prevAlpha, c :: rest =>
    if isLetterC c then
      (if prevAlpha then lowC c else upC c) :: titleAux true rest
    else c :: titleAux false rest

def titleL (cs : List Char) : List Char := titleAux false cs

/-! ### Classifier keyword tables (classifier.py lines 10-50) -/

def AADHAAR_KEYWORDS : List String :=
  ["aadhaar", "आधार", "uidai", "unique identification",
   "enrolment no", "enrollment no", "your aadhaar no",
   "आपला आधार", "भारतीय विशिष्ट", "vtc:", "pin code",
   "vid", "नोंदणी क्रमांक", "माझे आधार", "मार्जी ओळख",
   "generation date", "download date"]

/-- PAN keywords; the sixth keyword is "father's name" with an apostrophe,
built here from apoC. -/
def PAN_KEYWORDS : List String :=
  ["permanent account number", "income tax department",
   "आयकर विभाग", "pan card", "govt. of india",
   String.mk ('f' :: 'a' :: 't' :: 'h' :: 'e' :: 'r' :: apoC :: 's' :: " name".toList),
   "पिता का नाम"]

def VOTER_ID_KEYWORDS : List String :=
  ["election commission", "voter", "elector", "epic",
   "निर्वाचन", "मतदाता", "elector photo identity",
   "भारत निर्वाचन आयोग", "फोटो पहचान पत्र"]

def DRIVING_LICENSE_KEYWORDS : List String :=
  ["driving licence", "driving license", "transport",
   "motor vehicle", "dl no", "licence no", "dl_no",
   "valid till", "class of vehicle", "authorisation to drive",
   "issuing authority", "state motor", "rto", "mcwg", "lmv",
   "tal:", "dist:", "dld", "form 7"]

/-- Handwritten form keywords; two of them carry an apostrophe and are built
from apoC. -/
def HANDWRITTEN_KEYWORDS : List String :=
  ["first name", "middle name", "surname", "last name",
   "father name",
   String.mk ('f' :: 'a' :: 't' :: 'h' :: 'e' :: 'r' :: apoC :: 's' :: " name".toList),
   "mother name",
   String.mk ('m' :: 'o' :: 't' :: 'h' :: 'e' :: 'r' :: apoC :: 's' :: " name".toList),
   "date of birth", "dob", "d.o.b", "birth date",
   "address", "city", "state", "pin code", "pincode", "postal code",
   "gender", "sex", "male", "female",
   "mobile", "phone", "contact", "email",
   "signature", "applicant", "full name",
   "age", "occupation", "qualification", "education",
   "marital status", "nationality", "religion",
   "blood group", "place of birth"]

/-! ### Generic regex scanning machinery -/

/-- Leftmost regex search: try the single-position matcher at every position,
carrying the previous character for word-boundary tests. -/
def scanP {α : Type} (f : Option Char → List Char → Option α) :
    Option Char → List Char → Option α
  | prev, [] => f prev []
  | prev, c :: rest =>
    match f prev (c :: rest) with
    | some a => some a
    | none => scanP f (some c) rest

/-- No-boundary-on-left test for \b when the next character is a word
character: the previous character must be absent or not a word character. -/
def bdyB (prev : Option Char) : Bool :=
  match prev with
  | none => true
  | some c => !isWordC c

/-- Word boundary after a word character: end of input or a non-word char. -/
def bdyA (cs : List Char) : Bool :=
  match cs with
  | [] => true
  | c :: _ => !isWordC c

/-- Exactly n characters satisfying p; returns (taken, rest). -/
def pCount (p : Char → Bool) : Nat → List Char → Option (List Char × List Char)
  | 0, cs => some ([], cs)
  | _ + 1, [] => none
  | n + 1, c :: rest =>
    if p c then
      match pCount p n rest with
      | some (t, r) => some (c :: t, r)
      | none => none
    else none

/-- Greedy run of characters satisfying p (star); always succeeds. -/
def pStar (p : Char → Bool) (cs : List Char) : List Char × List Char :=
  (cs.takeWhile p, cs.dropWhile p)

/-- Greedy optional single character (e.g. \s? or \.?); safe to be greedy
wherever the following pattern cannot start with such a character. -/
def pOpt (p : Char → Bool) (cs : List Char) : List Char × List Char :=
  match cs with
  | [] => ([], [])
  | c :: rest => if p c then ([c], rest) else ([], c :: rest)

/-- Case-insensitive literal; returns the rest. -/
def pLitCI : List Char → List Char → Option (List Char)
  | [], cs => some cs
  | _ :: _, [] => none
  | l :: ls, c :: cs => if lowC c = lowC l then pLitCI ls cs else none

/-- Case-sensitive literal. -/
def pLit : List Char → List Char → Option (List Char)
  | [], cs => some cs
  | _ :: _, [] => none
  | l :: ls, c :: cs => if c = l then pLit ls cs else none

/-! ### Classifier ID patterns (classifier.py lines 55-61) -/

/-- PAN_PATTERN r"[A-Z]{5}[0-9]{4}[A-Z]" with \b on both sides, at one
position. -/
def clPanAt (prev : Option Char) (cs : List Char) : Option Unit := do
  guard (bdyB prev)
  let (_, r1) ← pCount isUpperL 5 cs
  let (_, r2) ← pCount isDigitC 4 r1
  let (_, r3) ← pCount isUpperL 1 r2
  guard (bdyA r3)
  pure ()

def clPanSearch (cs : List Char) : Bool := (scanP clPanAt none cs).isSome

/-- The 12-digit group r"\d{4}\s?\d{4}\s?\d{4}": three blocks of four digits
with optional single whitespace between blocks.  The optional whitespace is
deterministic because a digit is never whitespace.  Returns the matched
characters (as they appear, spaces included) and the rest. -/
def pAad12 (cs : List Char) : Option (List Char × List Char) := do
  let (a, r1) ← pCount isDigitC 4 cs
  let (s1, r2) := pOpt isWs r1
  let (b, r3) ← pCount isDigitC 4 r2
  let (s2, r4) := pOpt isWs r3
  let (c, r5) ← pCount isDigitC 4 r4
  pure (a ++ s1 ++ b ++ s2 ++ c, r5)

/-- AADHAAR_PATTERN r"\b\d{4}\s?\d{4}\s?\d{4}\b" at one position. -/
def clAadAt (prev : Option Char) (cs : List Char) : Option Unit := do
  guard (bdyB prev)
  let (_, r) ← pAad12 cs
  guard (bdyA r)
  pure ()

def clAadSearch (cs : List Char) : Bool := (scanP clAadAt none cs).isSome

/-- VOTER_ID_PATTERN r"\b[A-Z]{3}[0-9]{7}\b" at one position. -/
def clVoterAt (prev : Option Char) (cs : List Char) : Option Unit := do
  guard (bdyB prev)
  let (_, r1) ← pCount isUpperL 3 cs
  let (_, r2) ← pCount isDigitC 7 r1
  guard (bdyA r2)
  pure ()

def clVoterSearch (cs : List Char) : Bool := (scanP clVoterAt none cs).isSome

/-- Tail of the classifier DL pattern: \s*\d{2}\s*\d{8,11}\b after the two
letters.  A digit run followed by the trailing \b forces the quantifier to
consume a whole maximal run (any shorter prefix is followed by a digit, a word
character), so \d{8,11}\b succeeds exactly when the full run length is within
range and a word boundary follows the run. -/
def clDlTail (cs : List Char) : Option Unit := do
  let (_, r1) := pStar isWs cs
  let (d1, r2) := pStar isDigitC r1
  if d1.length = 2 then
    -- exactly two digits, then \s* and a separate run of 8..11 digits
    let (_, r3) := pStar isWs r2
    let (d2, r4) := pStar isDigitC r3
    guard (8 ≤ d2.length && d2.length ≤ 11 && bdyA r4)
    pure ()
  else
    -- one merged run: \d{2} takes two, \s* matches empty, \d{8,11}\b needs
    -- the remaining run of length 8..11 ending at a boundary
    guard (10 ≤ d1.length && d1.length ≤ 13 && bdyA r2)
    pure ()

/-- DL_PATTERN r"\b[A-Z]{2}\s*\d{2}\s*\d{8,11}\b" at one position. -/
def clDlAt (prev : Option Char) (cs : List Char) : Option Unit := do
  guard (bdyB prev)
  let (_, r1) ← pCount isUpperL 2 cs
  clDlTail r1

def clDlSearch (cs : List Char) : Bool := (scanP clDlAt none cs).isSome

/-! ### Classifier (classifier.py classify_document, lines 64-156) -/

/-- Number of keywords whose lowercase form occurs in the lowercased text
(one point per keyword, classifier.py lines 86-104). -/
def kwScore (kws : List String) (textLower : List Char) : Int :=
  ((kws.filter (fun k => containsSub textLower (lowL k.toList))).length : Int)

def scoreAadhaar (t : List Char) : Int :=
  kwScore AADHAAR_KEYWORDS (lowL t) + (if clAadSearch t then 2 else 0)

def scorePan (t : List Char) : Int :=
  kwScore PAN_KEYWORDS (lowL t) + (if clPanSearch (upL t) then 3 else 0)

def scoreVoter (t : List Char) : Int :=
  kwScore VOTER_ID_KEYWORDS (lowL t) + (if clVoterSearch (upL t) then 3 else 0)

def scoreDl (t : List Char) : Int :=
  kwScore DRIVING_LICENSE_KEYWORDS (lowL t)
    + (if clDlSearch (delSpaces (upL t)) then 3 else 0)

/-- classifier.py lines 122-133: the handwritten score is the keyword count,
then if it reaches 3 it is increased by 2 when no official ID pattern occurs
in the text and decreased by 2 when one does. -/
def scoreHand (t : List Char) : Int :=
  let base : Int := kwScore HANDWRITTEN_KEYWORDS (lowL t)
  if base ≥ 3 then
    let hasOfficial :=
      clPanSearch (upL t) || clAadSearch t || clVoterSearch (upL t)
        || clDlSearch (delSpaces (upL t))
    if hasOfficial then base - 2 else base + 2
  else base

def maxScore (t : List Char) : Int :=
  max (max (max (max (scoreAadhaar t) (scorePan t)) (scoreVoter t)) (scoreDl t))
    (scoreHand t)

/-- Python max(scores, key=scores.get): the first key in insertion order
attaining the maximum. -/
def winningType (t : List Char) : String :=
  if scoreAadhaar t = maxScore t then "AADHAAR"
  else if scorePan t = maxScore t then "PAN"
  else if scoreVoter t = maxScore t then "VOTER_ID"
  else if scoreDl t = maxScore t then "DRIVING_LICENSE"
  else "HANDWRITTEN"

/-- classifier.py lines 146-152: per-type maximum possible score. -/
def maxPossible (dt : String) : ℚ :=
  if dt = "AADHAAR" then (AADHAAR_KEYWORDS.length : ℚ) + 2
  else if dt = "PAN" then (PAN_KEYWORDS.length : ℚ) + 3
  else if dt = "VOTER_ID" then (VOTER_ID_KEYWORDS.length : ℚ) + 3
  else if dt = "DRIVING_LICENSE" then (DRIVING_LICENSE_KEYWORDS.length : ℚ) + 3
  else if dt = "HANDWRITTEN" then (HANDWRITTEN_KEYWORDS.length : ℚ) + 2
  else 5

/-- classify_document(text) -> (document_type, confidence). -/
def classify_document (text : String) : String × ℚ :=
  let t := text.toList
  let m := maxScore t
  if m = 0 then ("UNKNOWN", 0)
  else
    let dt := winningType t
    (dt, min ((m : ℚ) / maxPossible dt) 1)

/-- extractor.py HINDI_TO_ARABIC plus convert_hindi_numerals.  The source
applies ten str.replace calls in sequence; since each maps a distinct
Devanagari digit to an ASCII digit (never itself a replacement source), this
equals a single character-wise map. -/
def h2a (c : Char) : Char :=
  if c = '०' then '0' else if c = '१' then '1' else if c = '२' then '2'
  else if c = '३' then '3' else if c = '४' then '4' else if c = '५' then '5'
  else if c = '६' then '6' else if c = '७' then '7' else if c = '८' then '8'
  else if c = '९' then '9' else c

def convert_hindi_numerals (cs : List Char) : List Char := cs.map h2a

/-- extractor.py clean_text_for_matching. -/
def cleanText (cs : List Char) : List Char := collapseWs (convert_hindi_numerals cs)

/-- extractor.py is_hindi_text: hindi_chars / alpha_chars > 0.5, i.e.
2 * hindi_chars > alpha_chars with a nonzero alpha count. -/
def is_hindi_text (cs : List Char) : Bool :=
  let hindi := (cs.filter isDev).length
  let alpha := (cs.filter isAlphaPy).length
  if alpha = 0 then false else decide (2 * hindi > alpha)

/-- extractor.py looks_like_hindi_name. -/
def looks_like_hindi_name (cs : List Char) : Bool :=
  let t := stripWs (extractHindiOnly cs)
  if t.isEmpty || t.length < 2 then false
  else
    let n := (wordsOf t).length
    decide (1 ≤ n ∧ n ≤ 6)

/-- extractor.py looks_like_name: english-only text of 1..6 words, length at
least 3, alphabetic-or-space ratio above 0.85 (modelled as
20 * count > 17 * length). -/
def looks_like_name (cs : List Char) : Bool :=
  let t := stripWs (extractEnglishOnly cs)
  if t.isEmpty || t.length < 3 then false
  else
    let n := (wordsOf t).length
    if !(decide (1 ≤ n ∧ n ≤ 6)) then false
    else
      let alpha := (t.filter (fun c => isAlphaPy c || isWs c)).length
      decide (20 * alpha > 17 * t.length)

/-- Word-boundary assertion \b between an optional previous character and the
head of the remaining input (used where the following pattern element is not
necessarily a word character). -/
def isWordOpt : Option Char → Bool
  | none => false
  | some c => isWordC c

def wordBdy (prev : Option Char) (cs : List Char) : Bool :=
  xor (isWordOpt prev) (match cs with | [] => false | c :: _ => isWordC c)

/-- clean_name_from_numbers, step 1: re.sub(r"\b\d+\b", "", s).  A maximal
digit run is removed when word boundaries hold on both of its sides; because
any shorter prefix of the run is followed by a digit (a word character), the
greedy \d+ with trailing \b matches exactly the word-bounded maximal runs.
After a kept or removed run the previous character is a digit; any digit
serves for later boundary tests, so the last run character is carried. -/
def rmNumsGo : Nat → Option Char → List Char → List Char
  | 0, _, cs => cs
  | _ + 1, _, [] => []
  | fuel + 1, prev, c :: rest =>
    if isDigitC c && bdyB prev then
      let run := (c :: rest).takeWhile isDigitC
      let r2 := rest.dropWhile isDigitC
      if bdyA r2 then rmNumsGo fuel (some (run.getLastD c)) r2
      else run ++ rmNumsGo fuel (some (run.getLastD c)) r2
    else c :: rmNumsGo fuel (some c) rest

/-- extractor.py clean_name_from_numbers (the source returns a falsy input
unchanged, which for strings coincides with processing the empty string). -/
def clean_name_from_numbers (cs : List Char) : List Char :=
  stripWs (collapseWs (rmNumsGo (cs.length + 1) none cs))

/-! ### Extractor regex patterns (extractor.py lines 95-116) -/

/-- DATE_PATTERN: word-bounded (\d{1,2}), then optional whitespace, a
separator character (hyphen, slash or dot), optional whitespace, (\d{1,2}),
separator again, and a word-bounded (\d{4}).  Each \d{1,2} must take a whole
maximal digit run of length 1 or 2 (a longer run leaves a digit in front of
the separator for every split), and the final \d{4}\b forces a maximal run of
exactly 4. -/
def isSep (c : Char) : Bool := c = '-' || c = '/' || c = '.'

def dateAt (prev : Option Char) (cs : List Char) :
    Option (List Char × List Char × List Char) := do
  guard (bdyB prev)
  let (d1, r1) := pStar isDigitC cs
  guard (1 ≤ d1.length && d1.length ≤ 2)
  let (_, r2) := pStar isWs r1
  let (s1, r3) ← pCount isSep 1 r2
  guard (s1.length = 1)
  let (_, r4) := pStar isWs r3
  let (d2, r5) := pStar isDigitC r4
  guard (1 ≤ d2.length && d2.length ≤ 2)
  let (_, r6) := pStar isWs r5
  let (s2, r7) ← pCount isSep 1 r6
  guard (s2.length = 1)
  let (_, r8) := pStar isWs r7
  let (y, r9) := pStar isDigitC r8
  guard (y.length = 4 && bdyA r9)
  pure (d1, d2, y)

/-- extract_date: clean the text, search the date pattern, and format the
groups as "D/M/YYYY". -/
def extract_date (cs : List Char) : Option (List Char) :=
  match scanP dateAt none (cleanText cs) with
  | some (d1, d2, y) => some (d1 ++ '/' :: d2 ++ '/' :: y)
  | none => none

/-- The 16-digit VID group r"\d{4}\s?\d{4}\s?\d{4}\s?\d{4}". -/
def pVid16 (cs : List Char) : Option (List Char × List Char) := do
  let (a, r1) ← pCount isDigitC 4 cs
  let (s1, r2) := pOpt isWs r1
  let (b, r3) ← pCount isDigitC 4 r2
  let (s2, r4) := pOpt isWs r3
  let (c, r5) ← pCount isDigitC 4 r4
  let (s3, r6) := pOpt isWs r5
  let (d, r7) ← pCount isDigitC 4 r6
  pure (a ++ s1 ++ b ++ s2 ++ c ++ s3 ++ d, r7)

/-- AADHAAR_PATTERN of the extractor, with the matched group. -/
def aadG (prev : Option Char) (cs : List Char) : Option (List Char × List Char) := do
  guard (bdyB prev)
  let (g, r) ← pAad12 cs
  guard (bdyA r)
  pure (g, r)

/-- VID_PATTERN of the extractor, with the matched group. -/
def vidG (prev : Option Char) (cs : List Char) : Option (List Char × List Char) := do
  guard (bdyB prev)
  let (g, r) ← pVid16 cs
  guard (bdyA r)
  pure (g, r)

/-- PAN_PATTERN of the extractor, with the matched group. -/
def panG (prev : Option Char) (cs : List Char) : Option (List Char) := do
  guard (bdyB prev)
  let (a, r1) ← pCount isUpperL 5 cs
  let (b, r2) ← pCount isDigitC 4 r1
  let (c, r3) ← pCount isUpperL 1 r2
  guard (bdyA r3)
  pure (a ++ b ++ c)

def panSearch (cs : List Char) : Option (List Char) := scanP panG none cs

/-- VOTER_ID_PATTERN of the extractor, with the matched group. -/
def voterG (prev : Option Char) (cs : List Char) : Option (List Char) := do
  guard (bdyB prev)
  let (a, r1) ← pCount isUpperL 3 cs
  let (b, r2) ← pCount isDigitC 7 r1
  guard (bdyA r2)
  pure (a ++ b)

def voterSearch (cs : List Char) : Option (List Char) := scanP voterG none cs

/-- PIN_PATTERN r"\b(\d{6})\b": a maximal digit run of exactly 6. -/
def pinG (prev : Option Char) (cs : List Char) : Option (List Char) := do
  guard (bdyB prev)
  let (g, r) ← pCount isDigitC 6 cs
  guard (bdyA r)
  pure g

def pinSearch (cs : List Char) : Option (List Char) := scanP pinG none cs

/-- MOBILE_PATTERN r"\b([6-9]\d{9})\b". -/
def mobileG (prev : Option Char) (cs : List Char) : Option (List Char × List Char) := do
  guard (bdyB prev)
  let (a, r1) ← pCount (fun c => '6' ≤ c && c ≤ '9') 1 cs
  let (b, r2) ← pCount isDigitC 9 r1
  guard (bdyA r2)
  pure (a ++ b, r2)

def mobileSearch (cs : List Char) : Option (List Char) :=
  (scanP mobileG none cs).map Prod.fst

/-- ENROLLMENT-style group r"\d{4}/\d{5}/\d{5}". -/
def pEnroll (cs : List Char) : Option (List Char × List Char) := do
  let (a, r1) ← pCount isDigitC 4 cs
  let r2 ← pLit ['/'] r1
  let (b, r3) ← pCount isDigitC 5 r2
  let r4 ← pLit ['/'] r3
  let (c, r5) ← pCount isDigitC 5 r4
  pure (a ++ '/' :: b ++ '/' :: c, r5)

/-- DRIVING_LICENSE_PATTERN r"\b([A-Z]{2}\s*\d{2}\s*\d{4,11})\b"
(extractor.py line 778), with the matched group.  Run analysis as for the
classifier pattern: either the first digit run is exactly the two RTO digits
and a second run of 4..11 digits follows optional whitespace, or a single
merged run of 6..13 digits serves both quantifiers, in each case ending at a
word boundary. -/
def dlExtG (prev : Option Char) (cs : List Char) : Option (List Char) := do
  guard (bdyB prev)
  let (ltrs, r1) ← pCount isUpperL 2 cs
  let (w1, r2) := pStar isWs r1
  let (d1, r3) := pStar isDigitC r2
  if d1.length = 2 then
    let (w2, r4) := pStar isWs r3
    let (d2, r5) := pStar isDigitC r4
    guard (4 ≤ d2.length && d2.length ≤ 11 && bdyA r5)
    pure (ltrs ++ w1 ++ d1 ++ w2 ++ d2)
  else do
    guard (6 ≤ d1.length && d1.length ≤ 13 && bdyA r3)
    pure (ltrs ++ w1 ++ d1)

def dlExtSearch (cs : List Char) : Option (List Char) := scanP dlExtG none cs

/-! ### Extracted-fields mapping -/

/-- The extraction result dict: an association list, latest assignment first;
List.lookup reads like a dict. -/
abbrev Info : Type := List (String × String)

def setF (info : Info) (k : String) (v : List Char) : Info :=
  (k, String.mk v) :: info

def lookupF (info : Info) (k : String) : Option String := List.lookup k info

/-- Python truthiness of an optional string. -/
def truthy : Option (List Char) → Bool
  | none => false
  | some s => !s.isEmpty

/-- Value of an optional string, for use under a truthy guard. -/
def getS : Option (List Char) → List Char
  | none => []
  | some s => s

/-- Conditional field write: when the optional match succeeded, store the
projected group; Python's `if m: info[k] = f(m.group(1))`. -/
def setOpt {α : Type} (info : Info) (k : String) (X : Option α)
    (f : α → List Char) : Info :=
  match X with
  | some a => setF info k (f a)
  | none => info

/-- The same value stored under two keys (document_id plus the typed key). -/
def setOpt2 {α : Type} (info : Info) (k1 k2 : String) (X : Option α)
    (f : α → List Char) : Info :=
  match X with
  | some a => setF (setF info k1 (f a)) k2 (f a)
  | none => info

/-- Truthiness-guarded write of a processed value: Python's
`if v: info[k] = f(v)`. -/
def setOptNE (info : Info) (k : String) (X : Option (List Char))
    (f : List Char → List Char) : Info :=
  match X with
  | some v => if v.isEmpty then info else setF info k (f v)
  | none => info

/-- Truthiness-guarded write of the same value under two keys. -/
def setOpt2NE (info : Info) (k1 k2 : String) (X : Option (List Char)) : Info :=
  match X with
  | some v => if v.isEmpty then info else setF (setF info k1 v) k2 v
  | none => info

/-- The paired gender / gender_hindi write of the Aadhaar extractor. -/
def setGender (info : Info) (X : Option (String × String)) : Info :=
  match X with
  | some (g, gh) => setF (setF info "gender" g.toList) "gender_hindi" gh.toList
  | none => info

/-- Write of a processed group only when an extra check on the processed
value passes (the address-style `if addr and len(addr) > 2` guards). -/
def setOptOK (info : Info) (k : String) (X : Option (List Char))
    (f : List Char → List Char) (ok : List Char → Bool) : Info :=
  match X with
  | some g => if ok (f g) then setF info k (f g) else info
  | none => info

/-! ### Aadhaar extraction (extractor.py extract_aadhaar, lines 130-419) -/

/-- Non-overlapping findall with a fuel bound: on a match, continue after the
consumed text, carrying its last character for later boundary tests;
otherwise advance one character. -/
def scanAllP {α : Type} (f : Option Char → List Char → Option (α × List Char))
    (lastC : α → Option Char) : Nat → Option Char → List Char → List α
  | 0, _, _ => []
  | fuel + 1, prev, cs =>
    match f prev cs with
    | some (a, rest) => a :: scanAllP f lastC fuel (lastC a) rest
    | none =>
      match cs with
      | [] => []
      | c :: r => scanAllP f lastC fuel (some c) r

/-- Python str.find: index of the first occurrence of needle. -/
def strFindGo (needle : List Char) : List Char → Nat → Option Nat
  | [], i => if needle.isEmpty then some i else none
  | c :: r, i =>
    if needle.isPrefixOf (c :: r) then some i else strFindGo needle r (i + 1)

def strFind (hay needle : List Char) : Option Nat := strFindGo needle hay 0

/-- MOBILE_PATTERN.sub('', s): delete every non-overlapping mobile match. -/
def mobileSub : Nat → Option Char → List Char → List Char
  | 0, _, cs => cs
  | fuel + 1, prev, cs =>
    match mobileG prev cs with
    | some (g, rest) => mobileSub fuel g.getLast? rest
    | none =>
      match cs with
      | [] => []
      | c :: r => c :: mobileSub fuel (some c) r

/-- Tail \.?\s*:?\s* of the first two Aadhaar-number label patterns, then the
12-digit group. -/
def aadDotColonGroup (r : List Char) : Option (List Char) :=
  let (_, r1) := pOpt (fun c => c = '.') r
  let (_, r2) := pStar isWs r1
  let (_, r3) := pOpt (fun c => c = ':') r2
  let (_, r4) := pStar isWs r3
  (pAad12 r4).map Prod.fst

/-- Tail \s*:?\s* of the Hindi label patterns, then the 12-digit group. -/
def aadColonGroup (r : List Char) : Option (List Char) :=
  let (_, r1) := pStar isWs r
  let (_, r2) := pOpt (fun c => c = ':') r1
  let (_, r3) := pStar isWs r2
  (pAad12 r3).map Prod.fst

/-- Label r"your\s+aadhaar\s+no\.?\s*:?\s*" followed by the captured
12-digit group. -/
def aadLbl1At (_ : Option Char) (cs : List Char) : Option (List Char) := do
  let r1 ← pLitCI "your".toList cs
  let (w1, r2) := pStar isWs r1
  guard (!w1.isEmpty)
  let r3 ← pLitCI "aadhaar".toList r2
  let (w2, r4) := pStar isWs r3
  guard (!w2.isEmpty)
  let r5 ← pLitCI "no".toList r4
  aadDotColonGroup r5

/-- Label r"aadhaar\s+no\.?\s*:?\s*". -/
def aadLbl2At (_ : Option Char) (cs : List Char) : Option (List Char) := do
  let r1 ← pLitCI "aadhaar".toList cs
  let (w1, r2) := pStar isWs r1
  guard (!w1.isEmpty)
  let r3 ← pLitCI "no".toList r2
  aadDotColonGroup r3

/-- Label "आधार क्रमांक" with \s+ between the words and \s*:?\s* after. -/
def aadLbl3At (_ : Option Char) (cs : List Char) : Option (List Char) := do
  let r1 ← pLitCI "आधार".toList cs
  let (w1, r2) := pStar isWs r1
  guard (!w1.isEmpty)
  let r3 ← pLitCI "क्रमांक".toList r2
  aadColonGroup r3

/-- Label "आपला आधार क्रमांक". -/
def aadLbl4At (_ : Option Char) (cs : List Char) : Option (List Char) := do
  let r1 ← pLitCI "आपला".toList cs
  let (w1, r2) := pStar isWs r1
  guard (!w1.isEmpty)
  let r3 ← pLitCI "आधार".toList r2
  let (w2, r4) := pStar isWs r3
  guard (!w2.isEmpty)
  let r5 ← pLitCI "क्रमांक".toList r4
  aadColonGroup r5

/-- extractor.py lines 150-162: try the four labelled Aadhaar-number patterns
in order, first match wins. -/
def aadhaarFromLabels (textClean : List Char) : Option (List Char) :=
  (scanP aadLbl1At none textClean).orElse fun _ =>
  (scanP aadLbl2At none textClean).orElse fun _ =>
  (scanP aadLbl3At none textClean).orElse fun _ =>
  scanP aadLbl4At none textClean

/-- extractor.py lines 172-182: pick the first 12-digit candidate whose
preceding ~20 characters of context do not contain "vid".  The computed set
of 16-digit VID tokens (line 170) is unused in the source. -/
def aadFallbackPick (textClean : List Char) : List (List Char) → Option (List Char)
  | [] => none
  | num :: rest =>
    let cleanNum := delSpaces num
    if cleanNum.length = 12 then
      match strFind textClean num with
      | some pos =>
        let ctx := lowL ((textClean.take pos).drop (pos - 20))
        if containsSub ctx "vid".toList then aadFallbackPick textClean rest
        else some cleanNum
      | none => aadFallbackPick textClean rest
    else aadFallbackPick textClean rest

def findAll12 (cs : List Char) : List (List Char) :=
  scanAllP aadG (fun g => g.getLast?) (cs.length + 1) none cs

def findAll16 (cs : List Char) : List (List Char) :=
  scanAllP vidG (fun g => g.getLast?) (cs.length + 1) none cs

/-- The document-id part of extract_aadhaar (lines 148-186). -/
def aadhaarNumberOf (textClean : List Char) : Option (List Char) :=
  match aadhaarFromLabels textClean with
  | some g => some (delSpaces g)
  | none =>
    -- Priority 2: the 12-digit fallback.  all_16digit / vid_numbers are
    -- computed by the source (lines 169-170) but never used afterwards.
    let all12 := findAll12 textClean
    let _vids := (findAll16 textClean).map delSpaces
    aadFallbackPick textClean all12

/-- VID label pattern r"vid\s*:?\s*(\d{4}\s?\d{4}\s?\d{4}\s?\d{4})". -/
def vidLblAt (_ : Option Char) (cs : List Char) : Option (List Char) := do
  let r1 ← pLitCI "vid".toList cs
  let (_, r2) := pStar isWs r1
  let (_, r3) := pOpt (fun c => c = ':') r2
  let (_, r4) := pStar isWs r3
  (pVid16 r4).map Prod.fst

/-- Enrollment label r"enrol(?:ment)?\s+no\.?\s*:?\s*" then the group; the
optional "ment" is tried greedily first. -/
def enrollTail (r : List Char) : Option (List Char) := do
  let (w, r2) := pStar isWs r
  guard (!w.isEmpty)
  let r3 ← pLitCI "no".toList r2
  let (_, r4) := pOpt (fun c => c = '.') r3
  let (_, r5) := pStar isWs r4
  let (_, r6) := pOpt (fun c => c = ':') r5
  let (_, r7) := pStar isWs r6
  (pEnroll r7).map Prod.fst

def enrollLbl1At (_ : Option Char) (cs : List Char) : Option (List Char) := do
  let r1 ← pLitCI "enrol".toList cs
  match pLitCI "ment".toList r1 with
  | some rm => (enrollTail rm).orElse fun _ => enrollTail r1
  | none => enrollTail r1

def enrollLbl2At (_ : Option Char) (cs : List Char) : Option (List Char) := do
  let r1 ← pLitCI "नोंदणी".toList cs
  let (w, r2) := pStar isWs r1
  guard (!w.isEmpty)
  let r3 ← pLitCI "क्रमांक".toList r2
  let (_, r4) := pStar isWs r3
  let (_, r5) := pOpt (fun c => c = ':') r4
  let (_, r6) := pStar isWs r5
  (pEnroll r6).map Prod.fst

/-- Aadhaar name pattern (?:name|नाम)\s*[visarga-or-colon]?\s*(letters), with
group ([A-Za-z][A-Za-z\s]+) of at least two characters (case-insensitive). -/
def letterGroup1Plus (cs : List Char) : Option (List Char) := do
  let (h, r1) ← pCount isLetterC 1 cs
  let (t, _) := pStar (fun c => isLetterC c || isWs c) r1
  guard (!t.isEmpty)
  pure (h ++ t)

def aadNameAt (_ : Option Char) (cs : List Char) : Option (List Char) := do
  let r1 ← (pLitCI "name".toList cs).orElse fun _ => pLitCI "नाम".toList cs
  let (_, r2) := pStar isWs r1
  let (_, r3) := pOpt (fun c => c = ':' || c = 'ः') r2
  let (_, r4) := pStar isWs r3
  letterGroup1Plus r4

/-- Adjacent-duplicate word collapse, case-insensitive comparison, keeping
the first spelling (extractor.py lines 309-314 and 735-740): a word is kept
when the list so far is empty or its lowercase form differs from the
lowercase form of the last kept word, which is always the most recently
emitted one. -/
def dedupCIGo (prev : List Char) : List (List Char) → List (List Char)
  | [] => []
  | w :: ws =>
    if lowL w = lowL prev then dedupCIGo prev ws
    else w :: dedupCIGo w ws

def dedupCI : List (List Char) → List (List Char)
  | [] => []
  | w :: ws => w :: dedupCIGo w ws

/-- Adjacent-duplicate collapse with exact comparison (Hindi names,
extractor.py lines 745-749). -/
def dedupEqGo (prev : List Char) : List (List Char) → List (List Char)
  | [] => []
  | w :: ws =>
    if w = prev then dedupEqGo prev ws
    else w :: dedupEqGo w ws

def dedupEq : List (List Char) → List (List Char)
  | [] => []
  | w :: ws => w :: dedupEqGo w ws

/-- Word-bounded, case-insensitive search for "female" (and "male"),
extractor.py lines 396-410. -/
def wbLitCISearch (lit : List Char) (t : List Char) : Bool :=
  (scanP (fun prev cs => do
    guard (bdyB prev)
    let r ← pLitCI lit cs
    guard (bdyA r)
    pure ()) none t).isSome

def femaleWB (t : List Char) : Bool := wbLitCISearch "female".toList t

def maleWB (t : List Char) : Bool := wbLitCISearch "male".toList t

/-- Pattern \b[/]?\s*WORD\b: a word boundary, an optional slash, optional
whitespace, then the word and a trailing boundary. -/
def slashLitSearch (lit : List Char) (t : List Char) : Bool :=
  (scanP (fun prev cs => do
    guard (wordBdy prev cs)
    let (_, r1) := pOpt (fun c => c = '/') cs
    let (_, r2) := pStar isWs r1
    let r3 ← pLitCI lit r2
    guard (bdyA r3)
    pure ()) none t).isSome

/-- extractor.py lines 396-417: the ordered gender pattern list; a Male match
is only accepted when no word-bounded "female" occurs, otherwise the scan
proceeds to the next pattern. -/
def aadGenderPick (t : List Char) :
    List ((List Char → Bool) × String × String) → Option (String × String)
  | [] => none
  | (f, g, gh) :: rest =>
    if f t then
      if g = "Male" then
        if !femaleWB t then some (g, gh) else aadGenderPick t rest
      else some (g, gh)
    else aadGenderPick t rest

def aadGender (t : List Char) : Option (String × String) :=
  aadGenderPick t
    [(femaleWB, "Female", "महिला"), (maleWB, "Male", "पुरुष"),
     (fun s => containsSub s "पुरुष".toList, "Male", "पुरुष"),
     (fun s => containsSub s "महिला".toList, "Female", "महिला"),
     (slashLitSearch "female".toList, "Female", "महिला"),
     (slashLitSearch "male".toList, "Male", "पुरुष")]

/-- r"\d{4}\s*\d{4}\s*\d{4}" without boundaries (the address stop test,
extractor.py line 353). -/
def d12LooseSearch (t : List Char) : Bool :=
  (scanP (fun _ cs => do
    let (_, r1) ← pCount isDigitC 4 cs
    let (_, r2) := pStar isWs r1
    let (_, r3) ← pCount isDigitC 4 r2
    let (_, r4) := pStar isWs r3
    let (_, _) ← pCount isDigitC 4 r4
    pure ()) none t).isSome

/-- r"^\d*\s*to\b" for the address-block "To" marker (line 237). -/
def toPrefixMatch (cs : List Char) : Bool :=
  let (_, r1) := pStar isDigitC cs
  let (_, r2) := pStar isWs r1
  match pLit "to".toList r2 with
  | some r3 => bdyA r3
  | none => false

def aadM1SkipHindi : List String :=
  ["भारत", "सरकार", "आधार", "क्रमांक", "नोंदणी", "विशिष्ट", "ओळख", "प्राधिकरण"]

def aadM23SkipHindi : List String :=
  ["भारत", "सरकार", "आधार", "क्रमांक", "नोंदणी", "विशिष्ट", "ओळख", "प्राधिकरण",
   "माझे", "माझी"]

def aadM2SkipPatterns : List String :=
  ["download", "issue", "generation", "validity", "aadhaar no",
   "vid", "enrol", "unique", "government", "authority", "qr code",
   "dob", "date of birth", "male", "female"]

def aadM3SkipWords : List String :=
  ["government", "india", "authority", "aadhaar", "unique",
   "identification", "enrolment", "download", "generation",
   "validity", "male", "female", "dob", "date", "birth"]

def aadAddrSkipPatterns : List String :=
  ["download", "issue", "generation", "validity", "aadhaar",
   "vid", "unique", "government", "authority", "qr code",
   "dob", "date of birth", "male", "female", "enrol"]

def aadAddrSkipHindi : List String :=
  ["आधार", "क्रमांक", "माझे", "माझी", "ओळख", "सरकार"]

/-- Method 1 (lines 212-230): explicit name labels, one pass over the lines.
The source also computes line_lower and line_clean here without using them. -/
def aadM1Step (st : Option (List Char) × Option (List Char)) (line : List Char) :
    Option (List Char) × Option (List Char) :=
  let (name, nameH) := st
  let name :=
    match scanP aadNameAt none line with
    | some g =>
      if !truthy name then
        let pot := stripWs g
        if looks_like_name pot then some (titleL pot) else name
      else name
    | none => name
  let hp := extractHindiOnly line
  let nameH :=
    if !hp.isEmpty && looks_like_hindi_name hp && !truthy nameH then
      if !(aadM1SkipHindi.any (fun w => containsSub hp w.toList)) then some hp
      else nameH
    else nameH
  (name, nameH)

/-- Method 2 (lines 233-278): lines following a "To" marker. -/
def aadM2Step (lines : List (List Char))
    (st : Option (List Char) × Option (List Char) × Option (List Char)) (j : Nat) :
    Option (List Char) × Option (List Char) × Option (List Char) :=
  let (name, nameH, mobile) := st
  let line := stripWs (lines.getD j [])
  if line.isEmpty then st
  else
    let isLabel := aadM2SkipPatterns.any (fun p => containsSub (lowL line) p.toList)
    if isLabel then st
    else
      let hasHindi := is_hindi_text line
      let mobileHit := mobileSearch line
      let mobile := match mobileHit with | some m => some m | none => mobile
      let skipAsMobileLine :=
        match mobileHit with | some m => stripWs line == m | none => false
      if skipAsMobileLine then (name, nameH, mobile)
      else
        let nameH :=
          if hasHindi && !truthy nameH then
            let hp := extractHindiOnly line
            if !hp.isEmpty && looks_like_hindi_name hp
                && !(aadM23SkipHindi.any (fun w => containsSub hp w.toList)) then
              some hp
            else nameH
          else nameH
        let eng := extractEnglishOnly line
        let name :=
          if !eng.isEmpty && looks_like_name eng && !truthy name then
            some (titleL eng)
          else name
        (name, nameH, mobile)

/-- Method 3 (lines 281-303): English name near a Hindi name, breaking at the
first line that yields an English name. -/
def aadM3Step (st : Option (List Char) × Option (List Char) × Bool)
    (line : List Char) : Option (List Char) × Option (List Char) × Bool :=
  let (name, nameH, done) := st
  if done then st
  else
    let eng := extractEnglishOnly line
    let hp := extractHindiOnly line
    let name :=
      if !eng.isEmpty && looks_like_name eng
          && !(aadM3SkipWords.any (fun w => containsSub (lowL eng) w.toList)) then
        some (titleL eng)
      else name
    let nameH :=
      if !hp.isEmpty && looks_like_hindi_name hp && !truthy nameH
          && !(aadM23SkipHindi.any (fun w => containsSub hp w.toList)) then
        some hp
      else nameH
    (name, nameH, truthy name)

/-- Address collection (lines 326-370). -/
structure AadAddrState where
  found : Bool
  addrE : List (List Char)
  addrH : List (List Char)
  stopped : Bool

def aadAddrStep (searchName : List Char) (nameH : Option (List Char))
    (st : AadAddrState) (line : List Char) : AadAddrState :=
  if st.stopped then st
  else if !searchName.isEmpty
      && containsSub (lowL (extractEnglishOnly line)) searchName then
    { st with found := true }
  else if truthy nameH && containsSub line (getS nameH) then
    { st with found := true }
  else if st.found then
    if aadAddrSkipPatterns.any (fun p => containsSub (lowL line) p.toList) then st
    else if containsSub (lowL line) "your aadhaar".toList || d12LooseSearch line then
      { st with stopped := true }
    else
      let lineE := stripWs (extractEnglishOnly line)
      let lineH := stripWs (extractHindiOnly line)
      let lineE := stripSpComma (mobileSub (lineE.length + 1) none lineE)
      let addrE :=
        if !lineE.isEmpty && lineE.length > 2 then st.addrE ++ [lineE] else st.addrE
      let addrH :=
        if !lineH.isEmpty && lineH.length > 2
            && !(aadAddrSkipHindi.any (fun p => containsSub lineH p.toList)) then
          st.addrH ++ [lineH]
        else st.addrH
      { st with addrE := addrE, addrH := addrH, stopped := addrE.length ≥ 6 }
  else st

/-- DOB scan (lines 384-393): the first line carrying a birth-related label
and a parsable date. -/
def aadDobStep (st : Option (List Char)) (line : List Char) : Option (List Char) :=
  match st with
  | some _ => st
  | none =>
    let lineClean := cleanText line
    let ll := lowL lineClean
    if containsSub ll "dob".toList || containsSub ll "date of birth".toList
        || containsSub ll "birth".toList || containsSub line "जन्म".toList then
      extract_date lineClean
    else none

def extract_aadhaar (text : List Char) (lines : List (List Char)) : Info :=
  -- text_lower (line 143) is computed by the source but never used
  let textClean := cleanText text
  let info : Info := []
  let aadhaarNumber := aadhaarNumberOf textClean
  let info := setOpt2NE info "document_id" "aadhaar_number" aadhaarNumber
  let info := setOpt info "vid" (scanP vidLblAt none textClean) delSpaces
  let info := setOpt info "enrollment_no"
    ((scanP enrollLbl1At none textClean).orElse
      (fun _ => scanP enrollLbl2At none textClean)) (fun g => g)
  -- names, mobile
  let m1 := lines.foldl aadM1Step (none, none)
  let m2 :=
    if !truthy m1.1 then
      match lines.findIdx? (fun l =>
          let s := lowL (stripWs l)
          s = "to".toList || "to ".toList.isPrefixOf s || toPrefixMatch s) with
      | some toIdx =>
        (List.range' (toIdx + 1) (min (toIdx + 15) lines.length - (toIdx + 1))).foldl
          (aadM2Step lines) (m1.1, m1.2, none)
      | none => (m1.1, m1.2, none)
    else (m1.1, m1.2, none)
  let mobile := m2.2.2
  let m3 :=
    if !truthy m2.1 then
      let r := lines.foldl aadM3Step (m2.1, m2.2.1, false)
      (r.1, r.2.1)
    else (m2.1, m2.2.1)
  let nameH := m3.2
  -- name cleanup and write-back (lines 305-322)
  let name :=
    if truthy m3.1 then
      let n := stripWs (extractEnglishOnly (getS m3.1))
      some (joinSp (dedupCI (wordsOf n)))
    else m3.1
  let info := setOptNE info "name" name (fun n => n)
  let info := setOptNE info "name_hindi" nameH (fun h => h)
  let info := setOptNE info "mobile" mobile (fun m => m)
  -- address (lines 326-380)
  let info :=
    if truthy name || truthy nameH then
      let searchName := if truthy name then lowL (getS name) else []
      let addrSt := lines.foldl (aadAddrStep searchName nameH)
        ⟨false, [], [], false⟩
      let info :=
        if !addrSt.addrE.isEmpty then
          let fullAddress := joinCommaSp addrSt.addrE
          let info := setOpt info "pin_code" (pinSearch fullAddress) (fun p => p)
          setF info "address" fullAddress
        else info
      if !addrSt.addrH.isEmpty then
        setF info "address_hindi" (joinCommaSp addrSt.addrH)
      else info
    else info
  -- DOB (lines 384-393)
  let info := setOpt info "date_of_birth" (lines.foldl aadDobStep none)
    (fun d => d)
  -- gender (lines 396-417)
  let info := setGender info (aadGender text)
  info

/-! ### Voter-ID extraction (extractor.py extract_voter_id, lines 629-771) -/

/-- Optional case-insensitive literal with continuation: try consuming it
first (greedy), fall back to the continuation on the unconsumed input. -/
def pOptLitCIK {α : Type} (lit : List Char) (cs : List Char)
    (k : List Char → Option α) : Option α :=
  match pLitCI lit cs with
  | some r => (k r).orElse fun _ => k cs
  | none => k cs

/-- Hindi name label r"नाम\s*[visarga-or-colon]\s*(.+)" with a required
separator; the group is the whole rest of the line (at least one char). -/
def voterHindiNameAt (_ : Option Char) (cs : List Char) : Option (List Char) := do
  let r1 ← pLit "नाम".toList cs
  let (_, r2) := pStar isWs r1
  let r3 ← (pLit [':'] r2).orElse fun _ => pLit ['ः'] r2
  let (_, r4) := pStar isWs r3
  guard (!r4.isEmpty)
  pure r4

/-- Hindi father label r"पिता\s*(?:का\s*)?नाम\s*[visarga-or-colon]\s*(.+)". -/
def voterHindiFatherAt (_ : Option Char) (cs : List Char) : Option (List Char) := do
  let r1 ← pLit "पिता".toList cs
  let (_, r2) := pStar isWs r1
  let tail := fun (r : List Char) => do
    let r3 ← pLit "नाम".toList r
    let (_, r4) := pStar isWs r3
    let r5 ← (pLit [':'] r4).orElse fun _ => pLit ['ः'] r4
    let (_, r6) := pStar isWs r5
    guard (!r6.isEmpty)
    pure r6
  match pLit "का".toList r2 with
  | some rk =>
    let (_, rk2) := pStar isWs rk
    (tail rk2).orElse fun _ => tail r2
  | none => tail r2

/-- English voter name r"name\s*:\s*([A-Za-z][A-Za-z\s]+)" with a required
colon (case-insensitive). -/
def voterNameAt (_ : Option Char) (cs : List Char) : Option (List Char) := do
  let r1 ← pLitCI "name".toList cs
  let (_, r2) := pStar isWs r1
  let r3 ← pLit [':'] r2
  let (_, r4) := pStar isWs r3
  letterGroup1Plus r4

/-- English voter father r"father'?s?\s*name\s*:\s*([A-Za-z][A-Za-z\s]+)". -/
def voterFatherAt (_ : Option Char) (cs : List Char) : Option (List Char) := do
  let r1 ← pLitCI "father".toList cs
  pOptLitCIK [apoC] r1 fun r2 =>
  pOptLitCIK ['s'] r2 fun r3 => do
    let (_, r4) := pStar isWs r3
    let r5 ← pLitCI "name".toList r4
    let (_, r6) := pStar isWs r5
    let r7 ← pLit [':'] r6
    let (_, r8) := pStar isWs r7
    letterGroup1Plus r8

def voterHeaderSkip (ll : List Char) : Bool :=
  ["election commission", "elector photo", "identity card", "भारत निर्वाचन"].any
    (fun p => containsSub ll p.toList)

/-- First pass (lines 659-688): Hindi name and father name. -/
def voterPass1Step (st : Option (List Char) × Option (List Char))
    (line : List Char) : Option (List Char) × Option (List Char) :=
  let (nameH, fatherH) := st
  let ll := lowL line
  if voterHeaderSkip ll then st
  else
    let nameH :=
      if containsSub line "नाम".toList && !containsSub line "पिता".toList then
        match scanP voterHindiNameAt none line with
        | some afterLabel =>
          if !truthy nameH then
            let hp := extractHindiOnly afterLabel
            if !hp.isEmpty && looks_like_hindi_name hp then some hp else nameH
          else nameH
        | none => nameH
      else nameH
    let fatherH :=
      if containsSub line "पिता".toList && containsSub line "नाम".toList then
        match scanP voterHindiFatherAt none line with
        | some afterLabel =>
          if !truthy fatherH then
            let hp := extractHindiOnly afterLabel
            if !hp.isEmpty && looks_like_hindi_name hp then some hp else fatherH
          else fatherH
        | none => fatherH
      else fatherH
    (nameH, fatherH)

/-- Second pass (lines 691-731): English names, DOB and gender. -/
def voterPass2Step (st : Option (List Char) × Option (List Char) × Info)
    (line : List Char) : Option (List Char) × Option (List Char) × Info :=
  let (name, father, info) := st
  let ll := lowL line
  let lineClean := cleanText line
  if voterHeaderSkip ll then st
  else if containsSub ll "name".toList && !containsSub ll "father".toList then
    let name :=
      match scanP voterNameAt none line with
      | some g =>
        if !truthy name then
          let pot := extractEnglishOnly (stripWs g)
          if !pot.isEmpty && looks_like_name pot then some (titleL pot) else name
        else name
      | none => name
    (name, father, info)
  else if containsSub ll "father".toList && containsSub ll "name".toList then
    let father :=
      match scanP voterFatherAt none line with
      | some g =>
        if !truthy father then
          let pot := extractEnglishOnly (stripWs g)
          if !pot.isEmpty && looks_like_name pot then some (titleL pot) else father
        else father
      | none => father
    (name, father, info)
  else if containsSub ll "date of birth".toList || containsSub ll "dob".toList
      || containsSub ll "birth".toList || containsSub ll "age".toList
      || containsSub line "जन्म".toList then
    (name, father,
      setOpt info "date_of_birth" (extract_date lineClean) (fun d => d))
  else if containsSub ll "gender".toList || containsSub line "लिंग".toList
      || containsSub ll "sex".toList then
    if containsSub ll "female".toList || containsSub line "महिला".toList then
      (name, father, setF (setF info "gender" "Female".toList) "gender_hindi" "महिला".toList)
    else if containsSub ll "male".toList || containsSub line "पुरुष".toList then
      (name, father, setF (setF info "gender" "Male".toList) "gender_hindi" "पुरुष".toList)
    else (name, father, info)
  else (name, father, info)

def extract_voter_id (text : List Char) (lines : List (List Char)) : Info :=
  let textUpper := upL text
  -- text_clean (line 644) is computed by the source but not used directly
  let info : Info := []
  let info := setOpt2 info "document_id" "voter_id" (voterSearch textUpper)
    (fun g => g)
  let (nameH, fatherH) := lines.foldl voterPass1Step (none, none)
  let (name, father, info) := lines.foldl voterPass2Step (none, none, info)
  let info := setOptNE info "name" name (fun n => joinSp (dedupCI (wordsOf n)))
  let info := setOptNE info "name_hindi" nameH
    (fun n => joinSp (dedupEq (wordsOf n)))
  let info := setOptNE info "father_name" father
    (fun n => joinSp (dedupCI (wordsOf n)))
  let info := setOptNE info "father_name_hindi" fatherH
    (fun n => joinSp (dedupEq (wordsOf n)))
  info

/-! ### PAN extraction (extractor.py extract_pan, lines 438-624) -/

/-- PAN inline name pattern
r"(?:नाम\s*\/?\s*)?name\s*[visarga-colon-slash]?\s*([A-Z][A-Z\s]+)"
(case-insensitive); the optional Hindi prefix is tried greedily first.
The second pattern of the source list is the same without the prefix, so a
first-pattern failure implies a second-pattern failure at the same spot;
both are scanned in order all the same. -/
def panNameCore (cs : List Char) : Option (List Char) := do
  let r1 ← pLitCI "name".toList cs
  let (_, r2) := pStar isWs r1
  let (_, r3) := pOpt (fun c => c = ':' || c = 'ः' || c = '/') r2
  let (_, r4) := pStar isWs r3
  letterGroup1Plus r4

def panNameP1At (_ : Option Char) (cs : List Char) : Option (List Char) :=
  (Option.bind (pLit "नाम".toList cs) fun r1 =>
    let (_, r2) := pStar isWs r1
    let (_, r3) := pOpt (fun c => c = '/') r2
    let (_, r4) := pStar isWs r3
    panNameCore r4).orElse fun _ => panNameCore cs

def panNameP2At (_ : Option Char) (cs : List Char) : Option (List Char) :=
  panNameCore cs

/-- PAN father detection regex r"father'?s?\s+name|पिता\s*(का\s*)?नाम" searched
over the lowercased line (with \s+ between father and name). -/
def panFatherEngDetectAt (_ : Option Char) (cs : List Char) : Option Unit := do
  let r1 ← pLitCI "father".toList cs
  pOptLitCIK [apoC] r1 fun r2 =>
  pOptLitCIK ['s'] r2 fun r3 => do
    let (w, r4) := pStar isWs r3
    guard (!w.isEmpty)
    let _ ← pLitCI "name".toList r4
    pure ()

def panFatherHindiDetectAt (_ : Option Char) (cs : List Char) : Option Unit := do
  let r1 ← pLit "पिता".toList cs
  let (_, r2) := pStar isWs r1
  let tail := fun (r : List Char) => (pLit "नाम".toList r).map fun _ => ()
  match pLit "का".toList r2 with
  | some rk =>
    let (_, rk2) := pStar isWs rk
    (tail rk2).orElse fun _ => tail r2
  | none => tail r2

def panFatherDetect (cs : List Char) : Bool :=
  (scanP panFatherEngDetectAt none cs).isSome
    || (scanP panFatherHindiDetectAt none cs).isSome

/-- PAN inline father pattern 1
r"father'?s?\s+name\s*[:\/]?\s*([A-Z][A-Z\s]+)" (case-insensitive). -/
def panFatherP1At (_ : Option Char) (cs : List Char) : Option (List Char) := do
  let r1 ← pLitCI "father".toList cs
  pOptLitCIK [apoC] r1 fun r2 =>
  pOptLitCIK ['s'] r2 fun r3 => do
    let (w, r4) := pStar isWs r3
    guard (!w.isEmpty)
    let r5 ← pLitCI "name".toList r4
    let (_, r6) := pStar isWs r5
    let (_, r7) := pOpt (fun c => c = ':' || c = '/') r6
    let (_, r8) := pStar isWs r7
    letterGroup1Plus r8

/-- PAN inline father pattern 2
r"पिता\s*का\s*नाम[visarga-colon-slash]?\s*([A-Z][A-Z\s]+)". -/
def panFatherP2At (_ : Option Char) (cs : List Char) : Option (List Char) := do
  let r1 ← pLit "पिता".toList cs
  let (_, r2) := pStar isWs r1
  let r3 ← pLit "का".toList r2
  let (_, r4) := pStar isWs r3
  let r5 ← pLit "नाम".toList r4
  let (_, r6) := pOpt (fun c => c = ':' || c = 'ः' || c = '/') r5
  let (_, r7) := pStar isWs r6
  letterGroup1Plus r7

/-- Python word-level filtering
' '.join(w for w in s.split() if w not in skip). -/
def filterWords (skip : List String) (cs : List Char) : List Char :=
  joinSp ((wordsOf cs).filter (fun w => !(skip.any (fun s => s.toList = w))))

/-- re.match(r"^[A-Z][A-Z\s]*$", s): a full string of uppercase letters and
whitespace starting with a letter. -/
def allUpperWsFull (cs : List Char) : Bool :=
  match cs with
  | [] => false
  | c :: _ => isUpperL c && cs.all (fun d => isUpperL d || isWs d)

def panHeaderSkip (ll : List Char) : Bool :=
  ["income tax", "permanent account", "government", "dept", "signature",
   "हस्ताक्षर"].any (fun p => containsSub ll p.toList)

def panNameForbidden : List String :=
  ["father", "signature", "card", "permanent", "account"]

def panFatherForbidden : List String :=
  ["signature", "card", "date", "birth", "s name"]

def panFatherNextStop : List String :=
  ["date", "birth", "जन्म", "signature", "हस्ताक्षर"]

def panNameHindiSkip : List String :=
  ["नाम", "आयकर", "विभाग", "भारत", "सरकार", "स्थायी", "लेखा", "संख्या", "कार्ड"]

def panFatherHindiSkip : List String := ["पिता", "का", "नाम", "भारत", "सरकार"]

def panFatherHindiSkipNext : List String :=
  ["पिता", "का", "नाम", "भारत", "सरकार", "जन्म", "तारीख"]

/-- The inner j-loop of the PAN father next-line fallback (lines 566-598):
collect up to three following lines of uppercase name parts, stopping at a
date/signature label, and pick up a Hindi father name along the way. -/
def panFatherNextLines (lines : List (List Char)) (i : Nat)
    (fatherH0 : Option (List Char)) :
    List (List Char) × Option (List Char) :=
  let step := fun (st : List (List Char) × Option (List Char) × Bool) (j : Nat) =>
    let (parts, fatherH, stopped) := st
    if stopped then st
    else if i + j ≥ lines.length then (parts, fatherH, true)
    else
      let nl := stripWs (lines.getD (i + j) [])
      let nll := lowL nl
      if panFatherNextStop.any (fun p => containsSub nll p.toList) then
        (parts, fatherH, true)
      else
        let ep := clean_name_from_numbers (extractEnglishOnly nl)
        let parts :=
          if !ep.isEmpty && ep.length > 1 && allUpperWsFull (upL ep) then
            parts ++ [upL ep]
          else parts
        let fatherH :=
          if !truthy fatherH then
            let hp := extractHindiOnly nl
            if !hp.isEmpty then
              let cleaned := filterWords panFatherHindiSkipNext hp
              if !cleaned.isEmpty && looks_like_hindi_name cleaned then some cleaned
              else fatherH
            else fatherH
          else fatherH
        (parts, fatherH, false)
  let r := [1, 2, 3].foldl step ([], fatherH0, false)
  (r.1, r.2.1)

structure PanState where
  name : Option (List Char)
  nameH : Option (List Char)
  father : Option (List Char)
  fatherH : Option (List Char)
  dob : Option (List Char)

/-- The name-field update of one PAN line (extractor.py lines 503-535). -/
def panTryName (line : List Char)
    (pat : Option Char → List Char → Option (List Char))
    (cur : Option (List Char)) : Option (List Char) :=
  match cur with
  | some _ => cur
  | none =>
    match scanP pat none line with
    | some g =>
      let pot := stripWs g
      if !pot.isEmpty && pot.length > 2
          && !(panNameForbidden.any (fun w => containsSub (lowL pot) w.toList)) then
        some (clean_name_from_numbers (upL pot))
      else none
    | none => none

def panNameUpdate (lines : List (List Char)) (i : Nat) (line : List Char)
    (name0 nameH0 : Option (List Char)) :
    Option (List Char) × Option (List Char) :=
  let inlineName := panTryName line panNameP2At
    (panTryName line panNameP1At none)
  let name := match inlineName with | some v => some v | none => name0
  let hp := extractHindiOnly line
  let nameH :=
    if !hp.isEmpty && looks_like_hindi_name hp && !truthy nameH0 then
      let cleaned := filterWords panNameHindiSkip hp
      if !cleaned.isEmpty && cleaned.length > 2 then some cleaned else nameH0
    else nameH0
  let name :=
    if !truthy name && i + 1 < lines.length then
      let nl := clean_name_from_numbers (stripWs (extractEnglishOnly (lines.getD (i+1) [])))
      if !nl.isEmpty && looks_like_name nl
          && !containsSub (lowL nl) "father".toList then
        some (upL nl)
      else name
    else name
  (name, nameH)

/-- The father-field update of one PAN line (extractor.py lines 540-598). -/
def panTryFather (line : List Char)
    (pat : Option Char → List Char → Option (List Char))
    (cur : Option (List Char)) : Option (List Char) :=
  match cur with
  | some _ => cur
  | none =>
    match scanP pat none line with
    | some g =>
      let pot := clean_name_from_numbers (stripWs g)
      if !pot.isEmpty && pot.length > 2
          && !(panFatherForbidden.any (fun w => containsSub (lowL pot) w.toList)) then
        some (upL pot)
      else none
    | none => none

def panFatherUpdate (lines : List (List Char)) (i : Nat) (line : List Char)
    (father0 fatherH0 : Option (List Char)) :
    Option (List Char) × Option (List Char) :=
  let inlineFather := panTryFather line panFatherP2At
    (panTryFather line panFatherP1At none)
  let father := match inlineFather with | some v => some v | none => father0
  let hp := extractHindiOnly line
  let fatherH :=
    if !hp.isEmpty && !truthy fatherH0 then
      let cleaned := filterWords panFatherHindiSkip hp
      if !cleaned.isEmpty && looks_like_hindi_name cleaned then some cleaned
      else fatherH0
    else fatherH0
  if !truthy father then
    let pf := panFatherNextLines lines i fatherH
    (if !pf.1.isEmpty then some (joinSp pf.1) else father, pf.2)
  else (father, fatherH)

def panStep (lines : List (List Char)) (st : PanState) (i : Nat) : PanState :=
  let line := lines.getD i []
  let ll := lowL line
  let lineClean := cleanText line
  if panHeaderSkip ll then st
  else if (containsSub ll "name".toList || containsSub line "नाम".toList)
      && !containsSub ll "father".toList && !containsSub line "पिता".toList then
    let nu := panNameUpdate lines i line st.name st.nameH
    { st with name := nu.1, nameH := nu.2 }
  else if panFatherDetect ll then
    let fu := panFatherUpdate lines i line st.father st.fatherH
    { st with father := fu.1, fatherH := fu.2 }
  else if containsSub ll "date of birth".toList || containsSub ll "dob".toList
      || containsSub ll "birth".toList || containsSub line "जन्म".toList then
    match extract_date lineClean with
    | some d => { st with dob := some d }
    | none =>
      if i + 1 < lines.length then
        match extract_date (cleanText (lines.getD (i+1) [])) with
        | some d => { st with dob := some d }
        | none => st
      else st
  else st

def extract_pan (text : List Char) (lines : List (List Char)) : Info :=
  let textUpper := upL text
  -- text_clean (line 452) and the three label indices of the first pass
  -- (lines 467-489) are computed by the source but never used afterwards
  let info : Info := []
  let info := setOpt2 info "document_id" "pan_number" (panSearch textUpper)
    (fun g => g)
  let st := (List.range lines.length).foldl (panStep lines)
    ⟨none, none, none, none, none⟩
  let info := setOptNE info "name" st.name (fun n => stripWs (collapseWs n))
  let info := setOptNE info "name_hindi" st.nameH (fun n => n)
  let info := setOptNE info "father_name" st.father
    (fun n => stripWs (collapseWs n))
  let info := setOptNE info "father_name_hindi" st.fatherH (fun n => n)
  let info := setOptNE info "date_of_birth" st.dob (fun d => d)
  info

/-! ### Driving-licence extraction
(extractor.py extract_driving_license, lines 778-975) -/

/-- Greedy \d{lo,hi} with no trailing boundary: take at most hi digits from
the maximal run, requiring at least lo. -/
def pDigitsUpTo (lo hi : Nat) (cs : List Char) : Option (List Char × List Char) :=
  let (run, rest) := pStar isDigitC cs
  if run.length < lo then none
  else some (run.take hi, run.drop hi ++ rest)

/-- The unbounded DL group ([A-Z]{2}\s*\d{2}\s*\d{4,11}) used by the first
two labelled patterns (no word boundaries). -/
def dlGrpNoBdy (cs : List Char) : Option (List Char) := do
  let (l, r1) ← pCount isUpperL 2 cs
  let (w1, r2) := pStar isWs r1
  let (d1, r3) ← pCount isDigitC 2 r2
  let (w2, r4) := pStar isWs r3
  let (d2, _) ← pDigitsUpTo 4 11 r4
  pure (l ++ w1 ++ d1 ++ w2 ++ d2)

/-- dl pattern 1: r"DL[_\s]*(?:NO|N0)[.\s:]*(group)". -/
def dlXP1At (_ : Option Char) (cs : List Char) : Option (List Char) := do
  let r1 ← pLit "DL".toList cs
  let (_, r2) := pStar (fun c => c = '_' || isWs c) r1
  let r3 ← (pLit "NO".toList r2).orElse fun _ => pLit "N0".toList r2
  let (_, r4) := pStar (fun c => c = '.' || isWs c || c = ':') r3
  dlGrpNoBdy r4

/-- dl pattern 2:
r"(?:DRIVING\s*)?(?:LICENCE|LICENSE)[.\s:]*(?:NO|N0)?[.\s:]*(group)". -/
def dlXP2At (_ : Option Char) (cs : List Char) : Option (List Char) :=
  let tail := fun (r : List Char) => do
    let r2 ← (pLit "LICENCE".toList r).orElse fun _ => pLit "LICENSE".toList r
    let (_, r3) := pStar (fun c => c = '.' || isWs c || c = ':') r2
    let k := fun (r4 : List Char) => do
      let (_, r5) := pStar (fun c => c = '.' || isWs c || c = ':') r4
      dlGrpNoBdy r5
    match (pLit "NO".toList r3).orElse fun _ => pLit "N0".toList r3 with
    | some rn => (k rn).orElse fun _ => k r3
    | none => k r3
  (Option.bind (pLit "DRIVING".toList cs) fun r1 =>
    let (_, r2) := pStar isWs r1
    tail r2).orElse fun _ => tail cs

/-- Tail \d{2}\s*\d{lo,hi}\b after a prefix: either the first maximal digit
run is exactly the two RTO digits with a separate 2nd run of lo..hi digits,
or one merged run serves both quantifiers. -/
def dlDigitsTailWB (lo hi : Nat) (r : List Char) : Option (List Char) :=
  let (d1, r2) := pStar isDigitC r
  if d1.length = 2 then
    let (w2, r3) := pStar isWs r2
    let (d2, r4) := pStar isDigitC r3
    if lo ≤ d2.length && d2.length ≤ hi && bdyA r4 then some (d1 ++ w2 ++ d2)
    else none
  else
    if 2 + lo ≤ d1.length && d1.length ≤ 2 + hi && bdyA r2 then some d1
    else none

/-- dl pattern 3: r"\b([A-Z]{2}\s*\d{2}\s*\d{9,11})\b". -/
def dlXP3At (prev : Option Char) (cs : List Char) : Option (List Char) := do
  guard (bdyB prev)
  let (l, r1) ← pCount isUpperL 2 cs
  let (w1, r2) := pStar isWs r1
  let t ← dlDigitsTailWB 9 11 r2
  pure (l ++ w1 ++ t)

/-- dl patterns 4-6: r"\b(MH\d{2}\s*\d{8,11})\b" and the KA / DL variants. -/
def dlStateAt (st : String) (prev : Option Char) (cs : List Char) :
    Option (List Char) := do
  guard (bdyB prev)
  let r1 ← pLit st.toList cs
  let t ← dlDigitsTailWB 8 11 r1
  pure (st.toList ++ t)

/-- extractor.py lines 802-816: the six DL-number patterns tried in order. -/
def dlNumberOf (textUpper : List Char) : Option (List Char) :=
  ((scanP dlXP1At none textUpper).orElse fun _ =>
   (scanP dlXP2At none textUpper).orElse fun _ =>
   (scanP dlXP3At none textUpper).orElse fun _ =>
   (scanP (dlStateAt "MH") none textUpper).orElse fun _ =>
   (scanP (dlStateAt "KA") none textUpper).orElse fun _ =>
   scanP (dlStateAt "DL") none textUpper).map delSpaces

/-- has_so test r"sdan|s[/\s]*o\b|d[/\s]*o\b|son\s*of|daughter" on the
lowercased line. -/
def hasSoAt (_ : Option Char) (cs : List Char) : Option Unit :=
  (Option.map (fun _ => ()) (pLitCI "sdan".toList cs)).orElse fun _ =>
  ((do
    let r1 ← pLitCI ['s'] cs
    let (_, r2) := pStar (fun c => c = '/' || isWs c) r1
    let r3 ← pLitCI ['o'] r2
    guard (bdyA r3)
    pure ()).orElse fun _ =>
  (do
    let r1 ← pLitCI ['d'] cs
    let (_, r2) := pStar (fun c => c = '/' || isWs c) r1
    let r3 ← pLitCI ['o'] r2
    guard (bdyA r3)
    pure ()).orElse fun _ =>
  (do
    let r1 ← pLitCI "son".toList cs
    let (_, r2) := pStar isWs r1
    let _ ← pLitCI "of".toList r2
    pure ()).orElse fun _ =>
  Option.map (fun _ => ()) (pLitCI "daughter".toList cs))

def hasSoSearch (ll : List Char) : Bool := (scanP hasSoAt none ll).isSome

/-- Anchored S\s*/?\s*O (uppercase, case-sensitive), returning the rest. -/
def sSlashOUp (first second : Char) (cs : List Char) : Option (List Char) := do
  let r1 ← pLit [first] cs
  let (_, r2) := pStar isWs r1
  let (_, r3) := pOpt (fun c => c = '/') r2
  let (_, r4) := pStar isWs r3
  pLit [second] r4

/-- The CASE-1 lookahead (?=SDAN|S\s*/?\s*O|D\s*/?\s*O|SON|DAUGHTER). -/
def dlLookaheadOk (cs : List Char) : Bool :=
  (pLit "SDAN".toList cs).isSome || (sSlashOUp 'S' 'O' cs).isSome
    || (sSlashOUp 'D' 'O' cs).isSome || (pLit "SON".toList cs).isSome
    || (pLit "DAUGHTER".toList cs).isSome

/-- Lazy extension of ([A-Z][A-Z\s]+?) before the lookahead: after at least
two characters, stop at the first point where the lookahead holds. -/
def dlLazyExt : Nat → List Char → List Char → Option (List Char)
  | 0, _, _ => none
  | fuel + 1, accRev, rest =>
    if dlLookaheadOk rest then some accRev.reverse
    else
      match rest with
      | c :: r =>
        if isUpperL c || isWs c then dlLazyExt fuel (c :: accRev) r else none
      | [] => none

/-- CASE-1 name r"NAME\s*[:\s]+([A-Z][A-Z\s]+?)(?=...)": the label, a run of
colons/whitespace of length at least one (\s*[:\s]+ collapses to that since
\s is contained in [:\s]), then the lazy group. -/
def dlC1NameAt (_ : Option Char) (cs : List Char) : Option (List Char) := do
  let r1 ← pLit "NAME".toList cs
  let (w, r2) := pStar (fun c => c = ':' || isWs c) r1
  guard (!w.isEmpty)
  match r2 with
  | c :: r3 =>
    if isUpperL c then
      match r3 with
      | d :: r4 =>
        if isUpperL d || isWs d then dlLazyExt (r4.length + 1) [d, c] r4
        else none
      | [] => none
    else none
  | [] => none

/-- Group ([A-Z][A-Z\s]+), case-sensitive. -/
def upperGroup1Plus (cs : List Char) : Option (List Char) := do
  let (h, r1) ← pCount isUpperL 1 cs
  let (t, _) := pStar (fun c => isUpperL c || isWs c) r1
  guard (!t.isEmpty)
  pure (h ++ t)

/-- Suffix \s*(?:OF)?[:\s]*([A-Z][A-Z\s]+) of the father patterns, with the
optional OF tried greedily first. -/
def dlFatherSuffix (r : List Char) : Option (List Char) :=
  let k := fun (r2 : List Char) =>
    let (_, r3) := pStar (fun c => c = ':' || isWs c) r2
    upperGroup1Plus r3
  let (_, r1) := pStar isWs r
  match pLit "OF".toList r1 with
  | some ro => (k ro).orElse fun _ => k r1
  | none =>
    match pLit "Of".toList r1 with
    | some ro => (k ro).orElse fun _ => k r1
    | none => k r1

/-- CASE-1 father
r"(?:SDAN|S\s*/?\s*O|D\s*/?\s*O|SON|DAUGHTER)\s*(?:OF)?[:\s]*(grp)":
each alternative is tried in order with full fallback to the next when the
suffix fails. -/
def dlC1FatherAt (_ : Option Char) (cs : List Char) : Option (List Char) :=
  (Option.bind (pLit "SDAN".toList cs) dlFatherSuffix).orElse fun _ =>
  (Option.bind (sSlashOUp 'S' 'O' cs) dlFatherSuffix).orElse fun _ =>
  (Option.bind (sSlashOUp 'D' 'O' cs) dlFatherSuffix).orElse fun _ =>
  (Option.bind (pLit "SON".toList cs) dlFatherSuffix).orElse fun _ =>
  Option.bind (pLit "DAUGHTER".toList cs) dlFatherSuffix

/-- CASE-3 father pattern 1 (without SON/DAUGHTER). -/
def dlC3FatherP1At (_ : Option Char) (cs : List Char) : Option (List Char) :=
  (Option.bind (pLit "SDAN".toList cs) dlFatherSuffix).orElse fun _ =>
  (Option.bind (sSlashOUp 'S' 'O' cs) dlFatherSuffix).orElse fun _ =>
  Option.bind (sSlashOUp 'D' 'O' cs) dlFatherSuffix

/-- CASE-3 father pattern 2 (SON/DAUGHTER only). -/
def dlC3FatherP2At (_ : Option Char) (cs : List Char) : Option (List Char) :=
  (Option.bind (pLit "SON".toList cs) dlFatherSuffix).orElse fun _ =>
  Option.bind (pLit "DAUGHTER".toList cs) dlFatherSuffix

/-- CASE-2 name patterns (lines 862-866); the three variants of the source
list, tried in order. -/
def dlC2NameP1At (_ : Option Char) (cs : List Char) : Option (List Char) := do
  let r1 ← pLit "NAME".toList cs
  let (w, r2) := pStar (fun c => c = ':' || isWs c) r1
  guard (!w.isEmpty)
  upperGroup1Plus r2

def dlC2NameP2At (_ : Option Char) (cs : List Char) : Option (List Char) := do
  let r1 ← pLit "NAME".toList cs
  let (_, r2) := pStar isWs r1
  let (col, r3) := pStar (fun c => c = ':') r2
  guard (!col.isEmpty)
  let (_, r4) := pStar isWs r3
  upperGroup1Plus r4

def dlC2NameP3At (_ : Option Char) (cs : List Char) : Option (List Char) := do
  let r1 ← pLit "NAME".toList cs
  let (_, r2) := pStar isWs r1
  let r3 ← pLit [':'] r2
  let (_, r4) := pStar isWs r3
  upperGroup1Plus r4

/-- re.sub(r"...(ALTS).*$", "", s): truncate s at the leftmost position where
one of the anchored alternative matchers succeeds (after an optional leading
whitespace run when withWs is set). -/
def truncAt (withWs : Bool) (altsOk : List Char → Bool) : List Char → List Char
  | [] => []
  | c :: rest =>
    let s2 := if withWs then (c :: rest).dropWhile isWs else c :: rest
    if altsOk s2 then []
    else c :: truncAt withWs altsOk rest

/-- Anchored case-insensitive s\s*/?\s*o. -/
def sSlashOCI (first second : Char) (cs : List Char) : Option (List Char) := do
  let r1 ← pLitCI [first] cs
  let (_, r2) := pStar isWs r1
  let (_, r3) := pOpt (fun c => c = '/') r2
  let (_, r4) := pStar isWs r3
  pLitCI [second] r4

/-- Alternatives of the CASE-2 name truncation
r"(SDAN|S\s*/?\s*O|D\s*/?\s*O|SON|DAUGHTER).*$" (IGNORECASE). -/
def dlSoAltsCI (s : List Char) : Bool :=
  (pLitCI "sdan".toList s).isSome || (sSlashOCI 's' 'o' s).isSome
    || (sSlashOCI 'd' 'o' s).isSome || (pLitCI "son".toList s).isSome
    || (pLitCI "daughter".toList s).isSome

/-- Alternatives of the father truncations (ADD|TAL|DIST|DOB|AP) and the
CASE-3 variant that also lists ADDRESS (matching at the same spots that ADD
already covers). -/
def dlTailAlts (s : List Char) : Bool :=
  ["add", "tal", "dist", "dob", "ap"].any (fun a => (pLitCI a.toList s).isSome)

def dlTailAltsC3 (s : List Char) : Bool :=
  ["add", "tal", "dist", "dob", "ap", "address"].any
    (fun a => (pLitCI a.toList s).isSome)

/-- Anchored next-line check re.search(r"^(SDAN|S\s*/?\s*O|D\s*/?\s*O|SON|
DAUGHTER)", next_upper): only at the start of the string. -/
def dlSoPrefix (cs : List Char) : Bool :=
  (pLit "SDAN".toList cs).isSome || (sSlashOUp 'S' 'O' cs).isSome
    || (sSlashOUp 'D' 'O' cs).isSome || (pLit "SON".toList cs).isSome
    || (pLit "DAUGHTER".toList cs).isSome

/-- Anchored next-line check re.search(r"^(ADD|TAL|DIST|AP)", next_english)
(case-sensitive, on an already-uppercased string). -/
def dlAddrPrefix (cs : List Char) : Bool :=
  ["ADD", "TAL", "DIST", "AP"].any (fun a => (pLit a.toList cs).isSome)

/-- Address label detection r"\b(?:add|address)\b". -/
def dlAddrDetectAt (prev : Option Char) (cs : List Char) : Option Unit := do
  guard (bdyB prev)
  ((do
    let r ← pLitCI "add".toList cs
    guard (bdyA r)
    pure ()).orElse fun _ => do
    let r ← pLitCI "address".toList cs
    guard (bdyA r)
    pure ())

/-- Address value r"(?:add(?:ress)?)[:\s]+(.+)" (IGNORECASE) on the raw
line; the group is the rest of the line. -/
def dlAddrExtractAt (_ : Option Char) (cs : List Char) : Option (List Char) := do
  let r1 ← pLitCI "add".toList cs
  let k := fun (r : List Char) => do
    let (w, r2) := pStar (fun c => c = ':' || isWs c) r
    guard (!w.isEmpty)
    guard (!r2.isEmpty)
    pure r2
  match pLitCI "ress".toList r1 with
  | some rr => (k rr).orElse fun _ => k r1
  | none => k r1

/-- r"\btal\b" and r"tal[:\s]+([A-Za-z]+)". -/
def dlTalDetectAt (prev : Option Char) (cs : List Char) : Option Unit := do
  guard (bdyB prev)
  let r ← pLitCI "tal".toList cs
  guard (bdyA r)
  pure ()

def dlTalExtractAt (_ : Option Char) (cs : List Char) : Option (List Char) := do
  let r1 ← pLitCI "tal".toList cs
  let (w, r2) := pStar (fun c => c = ':' || isWs c) r1
  guard (!w.isEmpty)
  let (g, _) := pStar isLetterC r2
  guard (!g.isEmpty)
  pure g

/-- r"\bdis(?:t|tr)?\b" and r"dis(?:t|tr)?[:\s]+([A-Za-z]+)"; the optional
alternation tries "t", then "tr", then nothing. -/
def dlDistDetectAt (prev : Option Char) (cs : List Char) : Option Unit := do
  guard (bdyB prev)
  let r1 ← pLitCI "dis".toList cs
  let fin := fun (r : List Char) => do
    guard (bdyA r)
    pure ()
  match pLitCI ['t'] r1 with
  | some rt =>
    (fin rt).orElse fun _ =>
      match pLitCI "tr".toList r1 with
      | some rtr => (fin rtr).orElse fun _ => fin r1
      | none => fin r1
  | none => fin r1

def dlDistExtractAt (_ : Option Char) (cs : List Char) : Option (List Char) := do
  let r1 ← pLitCI "dis".toList cs
  let fin := fun (r : List Char) => do
    let (w, r2) := pStar (fun c => c = ':' || isWs c) r
    guard (!w.isEmpty)
    let (g, _) := pStar isLetterC r2
    guard (!g.isEmpty)
    pure g
  match pLitCI ['t'] r1 with
  | some rt =>
    (fin rt).orElse fun _ =>
      match pLitCI "tr".toList r1 with
      | some rtr => (fin rtr).orElse fun _ => fin r1
      | none => fin r1
  | none => fin r1

/-- DOB label r"\b(?:dob|doe|d\.o\.b|date\s*of\s*birth|b\.?c)\b". -/
def dlDobDetectAt (prev : Option Char) (cs : List Char) : Option Unit := do
  guard (bdyB prev)
  let fin := fun (r : List Char) => do
    guard (bdyA r)
    pure ()
  (Option.bind (pLitCI "dob".toList cs) fin).orElse fun _ =>
  (Option.bind (pLitCI "doe".toList cs) fin).orElse fun _ =>
  (Option.bind (do
    let r1 ← pLitCI ['d'] cs
    let r2 ← pLit ['.'] r1
    let r3 ← pLitCI ['o'] r2
    let r4 ← pLit ['.'] r3
    pLitCI ['b'] r4) fin).orElse fun _ =>
  (Option.bind (do
    let r1 ← pLitCI "date".toList cs
    let (_, r2) := pStar isWs r1
    let r3 ← pLitCI "of".toList r2
    let (_, r4) := pStar isWs r3
    pLitCI "birth".toList r4) fin).orElse fun _ =>
  Option.bind (do
    let r1 ← pLitCI ['b'] cs
    let (_, r2) := pOpt (fun c => c = '.') r1
    pLitCI ['c'] r2) fin

/-- Simple word-bounded keyword alternation detector \b(?:w1|w2|...)\b
(case-insensitive), for the valid/issue/handwritten label tests. -/
def wbAnyDetectAt (kws : List String) (prev : Option Char) (cs : List Char) :
    Option Unit := do
  guard (bdyB prev)
  let ok := kws.any (fun k =>
    match pLitCI k.toList cs with
    | some r => bdyA r
    | none => false)
  guard ok
  pure ()

def wbAnySearch (kws : List String) (t : List Char) : Bool :=
  (scanP (wbAnyDetectAt kws) none t).isSome

def dlHeaderWords : List String :=
  ["motor", "driving", "licence", "license", "union of india",
   "maharashtra state", "karnataka"]

structure DlState where
  name : Option (List Char)
  father : Option (List Char)
  info : Info

/-- The address, taluka, district and date fields of one DL line
(extractor.py lines 914-955). -/
def dlInfoStep (line ll : List Char) (info : Info) : Info :=
  let info :=
    if (scanP dlAddrDetectAt none ll).isSome then
      setOptOK info "address" (scanP dlAddrExtractAt none line)
        (fun g => extractEnglishOnly (stripWs g))
        (fun a => !a.isEmpty && a.length > 2)
    else info
  let info :=
    if (scanP dlTalDetectAt none ll).isSome then
      setOpt info "taluka" (scanP dlTalExtractAt none line)
        (fun g => upL (stripWs g))
    else info
  let info :=
    if (scanP dlDistDetectAt none ll).isSome then
      setOpt info "district" (scanP dlDistExtractAt none line)
        (fun g => upL (stripWs g))
    else info
  let info :=
    if (scanP dlDobDetectAt none ll).isSome then
      setOpt info "date_of_birth" (extract_date (cleanText line))
        (fun d => d)
    else info
  let info :=
    if wbAnySearch ["valid", "expir", "till"] ll then
      setOpt info "valid_till" (extract_date (cleanText line)) (fun d => d)
    else info
  let info :=
    if wbAnySearch ["issue", "doi", "dld"] ll then
      setOpt info "date_of_issue" (extract_date (cleanText line))
        (fun d => d)
    else info
  info

/-- The CASE-2 / CASE-3 name and father updates of one DL line
(extractor.py lines 860-912). -/
def dlNF (lines : List (List Char)) (i : Nat) (lineUp : List Char)
    (hasName hasSo : Bool) (name0 father0 : Option (List Char)) :
    Option (List Char) × Option (List Char) :=
  if hasName then
    -- CASE 2 (lines 860-887)
    let tryPat := fun (pat : Option Char → List Char → Option (List Char))
        (cur : Option (List Char)) =>
      if truthy cur then cur
      else
        match scanP pat none lineUp with
        | some g =>
          let pot := clean_name_from_numbers (stripWs g)
          let pot := stripWs (truncAt false dlSoAltsCI pot)
          if !pot.isEmpty && pot.length > 2 then some pot else cur
        | none => cur
    let name := tryPat dlC2NameP3At
      (tryPat dlC2NameP2At (tryPat dlC2NameP1At name0))
    let name :=
      if !truthy name && i + 1 < lines.length then
        let nl := stripWs (lines.getD (i+1) [])
        if !dlSoPrefix (upL nl) then
          let ne := clean_name_from_numbers
            (upL (stripWs (extractEnglishOnly nl)))
          if !ne.isEmpty && ne.length > 2 then some ne else name
        else name
      else name
    (name, father0)
  else if hasSo then
    -- CASE 3 (lines 890-912)
    let tryPat := fun (pat : Option Char → List Char → Option (List Char))
        (cur : Option (List Char)) =>
      if truthy cur then cur
      else
        match scanP pat none lineUp with
        | some g =>
          let pot := clean_name_from_numbers (stripWs g)
          let pot := stripWs (truncAt true dlTailAltsC3 pot)
          if !pot.isEmpty && pot.length > 2 then some pot else cur
        | none => cur
    let father := tryPat dlC3FatherP2At (tryPat dlC3FatherP1At father0)
    let father :=
      if !truthy father && i + 1 < lines.length then
        let nl := stripWs (lines.getD (i+1) [])
        let ne := clean_name_from_numbers
          (upL (stripWs (extractEnglishOnly nl)))
        if !ne.isEmpty && ne.length > 2 && !dlAddrPrefix ne then some ne
        else father
      else father
    (name0, father)
  else (name0, father0)

def dlStep (lines : List (List Char)) (st : DlState) (i : Nat) : DlState :=
  let line := lines.getD i []
  let lineUp := upL (stripWs line)
  let ll := lowL (stripWs line)
  if (dlHeaderWords.any (fun p => containsSub ll p.toList))
      && !containsSub ll "name".toList then st
  else
    let hasName := containsSub ll "name".toList
    let hasSo := hasSoSearch ll
    if hasName && hasSo then
      -- CASE 1 (lines 840-857), ending in continue
      let name :=
        if !truthy st.name then
          match scanP dlC1NameAt none lineUp with
          | some g =>
            let pot := clean_name_from_numbers (stripWs g)
            if !pot.isEmpty && pot.length > 2 then some pot else st.name
          | none => st.name
        else st.name
      let father :=
        if !truthy st.father then
          match scanP dlC1FatherAt none lineUp with
          | some g =>
            let pot := clean_name_from_numbers (stripWs g)
            let pot := stripWs (truncAt true dlTailAlts pot)
            if !pot.isEmpty && pot.length > 2 then some pot else st.father
          | none => st.father
        else st.father
      { st with name := name, father := father }
    else
      let nf := dlNF lines i lineUp hasName hasSo st.name st.father
      -- address, taluka, district and date fields (lines 914-955)
      { name := nf.1, father := nf.2, info := dlInfoStep line ll st.info }

/-- Python truthiness of an info read (None when absent, empty is falsy). -/
def infoTruthy (info : Info) (k : String) : Option String :=
  match lookupF info k with
  | some v => if v.isEmpty then none else some v
  | none => none

def extract_driving_license (text : List Char) (lines : List (List Char)) :
    Info :=
  let textUpper := upL text
  -- text_clean (line 798) is computed by the source but not used
  let info : Info := []
  let info := setOpt2 info "document_id" "dl_number" (dlNumberOf textUpper)
    (fun v => v)
  let st := (List.range lines.length).foldl (dlStep lines) ⟨none, none, info⟩
  let info := st.info
  let info := setOptNE info "name" st.name (fun n => n)
  let info := setOptNE info "father_name" st.father (fun n => n)
  let parts : List (List Char) :=
    (match infoTruthy info "address" with
     | some a => [a.toList]
     | none => [])
    ++ (match infoTruthy info "taluka" with
        | some t => ["Tal: ".toList ++ t.toList]
        | none => [])
    ++ (match infoTruthy info "district" with
        | some d => ["Dist: ".toList ++ d.toList]
        | none => [])
  if parts.length > 1 then setF info "full_address" (joinCommaSp parts)
  else info

/-! ### Handwritten-form extraction
(extractor.py extract_handwritten, lines 980-1341) -/

/-- A scanner that carries the whole reversed prefix, for lookbehind
patterns. -/
def scanPre {α : Type} (f : List Char → List Char → Option α) :
    List Char → List Char → Option α
  | pre, [] => f pre []
  | pre, c :: rest =>
    match f pre (c :: rest) with
    | some a => some a
    | none => scanPre f (c :: pre) rest

/-- A sequence of case-insensitive literal words joined by \s*. -/
def pSeqWsCI : List String → List Char → Option (List Char)
  | [], cs => some cs
  | [w], cs => pLitCI w.toList cs
  | w :: rest, cs =>
    match pLitCI w.toList cs with
    | some r =>
      let (_, r2) := pStar isWs r
      pSeqWsCI rest r2
    | none => none

/-- Word-bounded alternation of \s*-joined word sequences (the handwritten
label detectors). -/
def wbSeqAnyDetectAt (alts : List (List String)) (prev : Option Char)
    (cs : List Char) : Option Unit := do
  guard (bdyB prev)
  let ok := alts.any (fun a =>
    match pSeqWsCI a cs with
    | some r => bdyA r
    | none => false)
  guard ok
  pure ()

def wbSeqAnySearch (alts : List (List String)) (t : List Char) : Bool :=
  (scanP (wbSeqAnyDetectAt alts) none t).isSome

/-- Suffix \s*[:\-]?\s*([A-Za-z]+) of the single-word handwritten
extractors. -/
def hwWordSuffix (r : List Char) : Option (List Char) :=
  let (_, r1) := pStar isWs r
  let (_, r2) := pOpt (fun c => c = ':' || c = '-') r1
  let (_, r3) := pStar isWs r2
  let (g, _) := pStar isLetterC r3
  if g.isEmpty then none else some g

/-- (?:ALTS)\s*[:\-]?\s*([A-Za-z]+), alternatives in source order with full
fallback. -/
def hwWordExtractAt (alts : List (List String)) (_ : Option Char)
    (cs : List Char) : Option (List Char) :=
  alts.foldl (fun acc a =>
    match acc with
    | some g => some g
    | none =>
      match pSeqWsCI a cs with
      | some r => hwWordSuffix r
      | none => none) none

/-- Suffix \s*[:\-]?\s*([A-Za-z][A-Za-z\s]+) of the name-like extractors. -/
def hwNameSuffix (r : List Char) : Option (List Char) :=
  let (_, r1) := pStar isWs r
  let (_, r2) := pOpt (fun c => c = ':' || c = '-') r1
  let (_, r3) := pStar isWs r2
  letterGroup1Plus r3

/-- Father label alternatives father'?s?\s*name | f/?name | father; the last
alternative appears only in the detection regex. -/
def hwFatherAlt1 (word : String) (cs : List Char) : Option (List Char) := do
  let r1 ← pLitCI word.toList cs
  pOptLitCIK [apoC] r1 fun r2 =>
  pOptLitCIK ['s'] r2 fun r3 => do
    let (_, r4) := pStar isWs r3
    pLitCI "name".toList r4

def hwFatherAlt2 (letter : Char) (cs : List Char) : Option (List Char) := do
  let r1 ← pLitCI [letter] cs
  pOptLitCIK ['/'] r1 fun r2 => pLitCI "name".toList r2

def hwParentDetectAt (word : String) (letter : Char) (prev : Option Char)
    (cs : List Char) : Option Unit := do
  guard (bdyB prev)
  let fin := fun (r : List Char) => do
    guard (bdyA r)
    pure ()
  (Option.bind (hwFatherAlt1 word cs) fin).orElse fun _ =>
  (Option.bind (hwFatherAlt2 letter cs) fin).orElse fun _ =>
  Option.bind (pLitCI word.toList cs) fin

def hwParentExtractAt (word : String) (letter : Char) (_ : Option Char)
    (cs : List Char) : Option (List Char) :=
  (Option.bind (hwFatherAlt1 word cs) hwNameSuffix).orElse fun _ =>
  Option.bind (hwFatherAlt2 letter cs) hwNameSuffix

/-- Full-name extractor with the lookbehind-guarded middle alternative:
(?:full\s*name|(?<!first\s)(?<!middle\s)(?<!last\s)name|applicant\s*name)
\s*[:\-]?\s*([A-Za-z][A-Za-z\s]+). -/
def lbBlocked (word : String) (pre : List Char) : Bool :=
  match pre with
  | c :: rest =>
    isWs c && lowL (rest.take word.length) = (lowL word.toList).reverse
  | [] => false

def hwFullNameAt (pre : List Char) (cs : List Char) : Option (List Char) :=
  (Option.bind (pSeqWsCI ["full", "name"] cs) hwNameSuffix).orElse fun _ =>
  ((if lbBlocked "first" pre || lbBlocked "middle" pre || lbBlocked "last" pre
    then none
    else Option.bind (pLitCI "name".toList cs) hwNameSuffix).orElse fun _ =>
  Option.bind (pSeqWsCI ["applicant", "name"] cs) hwNameSuffix)

/-- DOB label \b(?:d\.?o\.?b|date\s*of\s*birth|birth\s*date|dob)\b. -/
def hwDobDetectAt (prev : Option Char) (cs : List Char) : Option Unit := do
  guard (bdyB prev)
  let fin := fun (r : List Char) => do
    guard (bdyA r)
    pure ()
  (Option.bind (do
    let r1 ← pLitCI ['d'] cs
    let (_, r2) := pOpt (fun c => c = '.') r1
    let r3 ← pLitCI ['o'] r2
    let (_, r4) := pOpt (fun c => c = '.') r3
    pLitCI ['b'] r4) fin).orElse fun _ =>
  (Option.bind (pSeqWsCI ["date", "of", "birth"] cs) fin).orElse fun _ =>
  (Option.bind (pSeqWsCI ["birth", "date"] cs) fin).orElse fun _ =>
  Option.bind (pLitCI "dob".toList cs) fin

def digitCh (n : Nat) : Char := Char.ofNat (48 + n)

def digitsToNat (ds : List Char) : Nat :=
  ds.foldl (fun a c => 10 * a + (c.toNat - 48)) 0

/-- Python str(n) for n < 1000. -/
def natToStr (n : Nat) : List Char :=
  if n < 10 then [digitCh n]
  else if n < 100 then [digitCh (n / 10), digitCh (n % 10)]
  else [digitCh (n / 100), digitCh (n / 10 % 10), digitCh (n % 10)]

/-- Age value r"age\s*[:\-]?\s*(\d{1,3})" (greedy, no trailing boundary). -/
def hwAgeAt (_ : Option Char) (cs : List Char) : Option (List Char) := do
  let r1 ← pLitCI "age".toList cs
  let (_, r2) := pStar isWs r1
  let (_, r3) := pOpt (fun c => c = ':' || c = '-') r2
  let (_, r4) := pStar isWs r3
  let (d, _) ← pDigitsUpTo 1 3 r4
  pure d

/-- r"^(\d{1,3})$": the whole line is one to three digits. -/
def hwAgeLine (cs : List Char) : Option (List Char) :=
  if !cs.isEmpty && cs.length ≤ 3 && cs.all isDigitC then some cs else none

/-- City/state/occupation pattern LABEL\s*[:\-]?\s*([A-Za-z\s]+): the source
group may be all-whitespace via backtracking; matched is whether the regex
matches at all, value is the group stripped (empty when only whitespace was
available to the group). -/
def hwSpaceGroupSuffix (r : List Char) : Option (List Char) :=
  let (w1, r1) := pStar isWs r
  let (sep, r2) := pOpt (fun c => c = ':' || c = '-') r1
  let (w2, r3) := pStar isWs r2
  let (g, _) := pStar (fun c => isLetterC c || isWs c) r3
  if !g.isEmpty || !w2.isEmpty || (sep.isEmpty && !w1.isEmpty) then
    some (stripWs g)
  else none

def hwSpaceGroupAt (alts : List (List String)) (_ : Option Char)
    (cs : List Char) : Option (List Char) :=
  alts.foldl (fun acc a =>
    match acc with
    | some g => some g
    | none =>
      match pSeqWsCI a cs with
      | some r => hwSpaceGroupSuffix r
      | none => none) none

/-- Address pattern (?:address|addr|residence)\s*[:\-]?\s*(.+): the group is
the rest of the line; a group reachable only through backtracked whitespace
strips to empty. -/
def hwAddrAt (_ : Option Char) (cs : List Char) : Option (List Char) :=
  ["address", "addr", "residence"].foldl (fun acc a =>
    match acc with
    | some g => some g
    | none =>
      match pLitCI a.toList cs with
      | some r =>
        let (w1, r1) := pStar isWs r
        let (sep, r2) := pOpt (fun c => c = ':' || c = '-') r1
        let (w2, r3) := pStar isWs r2
        if !r3.isEmpty || !w2.isEmpty || (sep.isEmpty && !w1.isEmpty) then
          some r3
        else none
      | none => none) none

/-- First run of six consecutive digits, r"(\d{6})". -/
def sixDigitsAt (_ : Option Char) (cs : List Char) : Option (List Char) :=
  (pCount isDigitC 6 cs).map Prod.fst

/-- Email pattern [\w\.-]+@[\w\.-]+\.\w+.  After the @, the greedy class run
backtracks to the last dot that is followed by a word character; the match
then extends over the following maximal word run. -/
def emailClassC (c : Char) : Bool := isWordC c || c = '.' || c = '-'

def lastDotSplit : List Char → Option (List Char × List Char)
  | [] => none
  | c :: rest =>
    match lastDotSplit rest with
    | some (pre, post) => some (c :: pre, post)
    | none =>
      if c = '.' then
        match rest with
        | d :: _ =>
          if isWordC d then some ([], rest.takeWhile isWordC) else none
        | [] => none
      else none

def emailAt (_ : Option Char) (cs : List Char) : Option (List Char) := do
  let (r1, rest1) := pStar emailClassC cs
  guard (!r1.isEmpty)
  let rest2 ← pLit ['@'] rest1
  let (r2, _) := pStar emailClassC rest2
  match lastDotSplit r2 with
  | some (pre, post) => pure (r1 ++ '@' :: pre ++ '.' :: post)
  | none => none

def hwAddrStop (nl : List Char) : Bool :=
  ["city", "state", "pin", "mobile", "phone", "email", "gender", "name",
   "dob"].any (fun p => containsSub (lowL nl) p.toList)

structure HwState where
  first : Option (List Char)
  middle : Option (List Char)
  sur : Option (List Char)
  full : Option (List Char)
  father : Option (List Char)
  mother : Option (List Char)
  dob : Option (List Char)
  age : Option (List Char)
  gender : Option (List Char)
  addrParts : List (List Char)
  city : Option (List Char)
  stateV : Option (List Char)
  pin : Option (List Char)
  mobile : Option (List Char)
  email : Option (List Char)
  occ : Option (List Char)

def hwEmpty : HwState :=
  ⟨none, none, none, none, none, none, none, none, none, [], none, none,
   none, none, none, none⟩

/-- The address-continuation scan of the handwritten extractor
(extractor.py lines 1190-1197). -/
def hwAddrCont (lines : List (List Char)) (i : Nat)
    (acc : List (List Char) × Bool) (j : Nat) : List (List Char) × Bool :=
  let (parts, stopped) := acc
  if stopped then acc
  else if i + j < lines.length then
    let nl := stripWs (lines.getD (i+j) [])
    if hwAddrStop nl then (parts, true)
    else if !nl.isEmpty && nl.length > 2 then (parts ++ [nl], false)
    else (parts, false)
  else acc

/-- The nonempty-name-part selector of the handwritten assembly
(extractor.py lines 1271-1283). -/
def optPart (X : Option (List Char)) : List (List Char) :=
  match X with
  | some v => if v.isEmpty then [] else [v]
  | none => []

/-- The shared shape of the first/middle/surname branches
(one iteration of the per-line elif chain, extractor.py lines 1018-1266). -/
def hwNameField (lines : List (List Char)) (i : Nat) (line : List Char)
    (alts : List (List String)) (cur : Option (List Char)) :
    Option (List Char) :=
  let v :=
    match scanP (hwWordExtractAt alts) none line with
    | some g =>
      let pot := stripWs g
      if !pot.isEmpty && pot.length > 1 then some (upL pot) else none
    | none => none
  match v with
  | some g => some g
  | none =>
    if !truthy cur && i + 1 < lines.length then
      let nl := stripWs (extractEnglishOnly (lines.getD (i+1) []))
      if !nl.isEmpty && nl.length > 1 && looks_like_name nl then
        some (upL nl)
      else cur
    else cur

/-- The full-name branch value (extractor.py lines 1080-1098). -/
def hwFullField (lines : List (List Char)) (i : Nat) (line : List Char)
    (cur : Option (List Char)) : Option (List Char) :=
  let v :=
    match scanPre hwFullNameAt [] line with
    | some g =>
      let pot := clean_name_from_numbers (stripWs g)
      if !pot.isEmpty && pot.length > 2 && looks_like_name pot then
        some (upL pot)
      else none
    | none => none
  match v with
  | some g => some g
  | none =>
    if !truthy cur && i + 1 < lines.length then
      let nl := clean_name_from_numbers
        (stripWs (extractEnglishOnly (lines.getD (i+1) [])))
      if !nl.isEmpty && nl.length > 2 && looks_like_name nl then
        some (upL nl)
      else cur
    else cur

/-- The father / mother branch value (extractor.py lines 1100-1135). -/
def hwParentField (word : String) (letter : Char) (lines : List (List Char))
    (i : Nat) (line : List Char) (cur : Option (List Char)) :
    Option (List Char) :=
  let v :=
    match scanP (hwParentExtractAt word letter) none line with
    | some g =>
      let pot := clean_name_from_numbers (stripWs g)
      if !pot.isEmpty && pot.length > 2 && looks_like_name pot then
        some (upL pot)
      else none
    | none => none
  match v with
  | some g => some g
  | none =>
    if !truthy cur && i + 1 < lines.length then
      let nl := clean_name_from_numbers
        (stripWs (extractEnglishOnly (lines.getD (i+1) [])))
      if !nl.isEmpty && nl.length > 2 && looks_like_name nl then
        some (upL nl)
      else cur
    else cur

/-- The DOB branch value. -/
def hwDobField (lines : List (List Char)) (i : Nat) (lineClean : List Char)
    (cur : Option (List Char)) : Option (List Char) :=
  match extract_date lineClean with
  | some d => some d
  | none =>
    if i + 1 < lines.length then
      match extract_date (cleanText (lines.getD (i+1) [])) with
      | some d => some d
      | none => cur
    else cur

/-- The age branch value. -/
def hwAgeField (lines : List (List Char)) (i : Nat) (line : List Char)
    (cur : Option (List Char)) : Option (List Char) :=
  match scanP hwAgeAt none line with
  | some d =>
    let v := digitsToNat d
    if 0 < v && v < 150 then some (natToStr v) else cur
  | none =>
    if i + 1 < lines.length then
      match hwAgeLine (stripWs (lines.getD (i+1) [])) with
      | some d =>
        let v := digitsToNat d
        if 0 < v && v < 150 then some (natToStr v) else cur
      | none => cur
    else cur

/-- The gender branch value. -/
def hwGenderField (lines : List (List Char)) (i : Nat) (ll : List Char)
    (cur : Option (List Char)) : Option (List Char) :=
  if wbSeqAnySearch [["female"]] ll then some "Female".toList
  else if wbSeqAnySearch [["male"]] ll then some "Male".toList
  else if wbSeqAnySearch [["other"]] ll then some "Other".toList
  else if i + 1 < lines.length then
    let nl := lowL (stripWs (lines.getD (i+1) []))
    if containsSub nl "female".toList then some "Female".toList
    else if containsSub nl "male".toList then some "Male".toList
    else if containsSub nl "other".toList then some "Other".toList
    else cur
  else cur

/-- The address branch value. -/
def hwAddrField (lines : List (List Char)) (i : Nat) (line : List Char)
    (addrParts : List (List Char)) : List (List Char) :=
  let addrParts :=
    match scanP hwAddrAt none line with
    | some g =>
      let at0 := stripWs g
      if !at0.isEmpty && at0.length > 2 then addrParts ++ [at0]
      else addrParts
    | none => addrParts
  ([1, 2, 3].foldl (hwAddrCont lines i) (addrParts, false)).1

/-- The city / state / occupation branch value. -/
def hwSpaceField (alts : List (List String)) (lines : List (List Char))
    (i : Nat) (line : List Char) (cur : Option (List Char)) :
    Option (List Char) :=
  match scanP (hwSpaceGroupAt alts) none line with
  | some pot =>
    if !pot.isEmpty && pot.length > 1 then some (upL pot) else cur
  | none =>
    if i + 1 < lines.length then
      let nl := stripWs (extractEnglishOnly (lines.getD (i+1) []))
      if !nl.isEmpty && nl.length > 1 then some (upL nl) else cur
    else cur

/-- The PIN branch value. -/
def hwPinField (lines : List (List Char)) (i : Nat) (line : List Char)
    (cur : Option (List Char)) : Option (List Char) :=
  match scanP sixDigitsAt none line with
  | some p => some p
  | none =>
    if i + 1 < lines.length then
      match scanP sixDigitsAt none (stripWs (lines.getD (i+1) [])) with
      | some p => some p
      | none => cur
    else cur

/-- The mobile branch value. -/
def hwMobileField (lines : List (List Char)) (i : Nat) (line : List Char)
    (cur : Option (List Char)) : Option (List Char) :=
  match mobileSearch line with
  | some m => some m
  | none =>
    if i + 1 < lines.length then
      match mobileSearch (stripWs (lines.getD (i+1) [])) with
      | some m => some m
      | none => cur
    else cur

/-- The email branch value. -/
def hwEmailField (lines : List (List Char)) (i : Nat) (line : List Char)
    (cur : Option (List Char)) : Option (List Char) :=
  match scanP emailAt none line with
  | some e => some (lowL e)
  | none =>
    if i + 1 < lines.length then
      match scanP emailAt none (stripWs (lines.getD (i+1) [])) with
      | some e => some (lowL e)
      | none => cur
    else cur

def hwStep (lines : List (List Char)) (st : HwState) (i : Nat) : HwState :=
  if wbSeqAnySearch [["first", "name"], ["fname"]]
      (lowL (stripWs (lines.getD i []))) then
    { st with first := hwNameField lines i (lines.getD i []) [["first", "name"], ["fname"]] st.first }
  else if wbSeqAnySearch [["middle", "name"], ["mname"]]
      (lowL (stripWs (lines.getD i []))) then
    { st with middle := hwNameField lines i (lines.getD i []) [["middle", "name"], ["mname"]] st.middle }
  else if wbSeqAnySearch
      [["surname"], ["sur", "name"], ["last", "name"], ["lname"],
       ["family", "name"]] (lowL (stripWs (lines.getD i []))) then
    { st with sur := hwNameField lines i (lines.getD i []) [["surname"], ["sur", "name"], ["last", "name"], ["lname"], ["family", "name"]] st.sur }
  else if wbSeqAnySearch [["full", "name"], ["name"], ["applicant", "name"]]
        (lowL (stripWs (lines.getD i [])))
      && !wbSeqAnySearch
        [["first"], ["middle"], ["last"], ["surname"], ["father"], ["mother"]]
        (lowL (stripWs (lines.getD i []))) then
    { st with full := hwFullField lines i (lines.getD i []) st.full }
  else if (scanP (hwParentDetectAt "father" 'f') none
        (lowL (stripWs (lines.getD i [])))).isSome
      && !containsSub (lowL (stripWs (lines.getD i []))) "grand".toList then
    { st with father :=
        hwParentField "father" 'f' lines i (lines.getD i []) st.father }
  else if (scanP (hwParentDetectAt "mother" 'm') none
      (lowL (stripWs (lines.getD i [])))).isSome then
    { st with mother :=
        hwParentField "mother" 'm' lines i (lines.getD i []) st.mother }
  else if (scanP hwDobDetectAt none
      (lowL (stripWs (lines.getD i [])))).isSome then
    { st with dob := hwDobField lines i (cleanText (lines.getD i [])) st.dob }
  else if wbSeqAnySearch [["age"]] (lowL (stripWs (lines.getD i []))) then
    { st with age := hwAgeField lines i (lines.getD i []) st.age }
  else if wbSeqAnySearch [["gender"], ["sex"]]
      (lowL (stripWs (lines.getD i []))) then
    { st with gender :=
        hwGenderField lines i (lowL (stripWs (lines.getD i []))) st.gender }
  else if wbSeqAnySearch [["address"], ["addr"], ["residence"]]
        (lowL (stripWs (lines.getD i [])))
      && !containsSub (lowL (stripWs (lines.getD i []))) "email".toList then
    { st with addrParts :=
        hwAddrField lines i (lines.getD i []) st.addrParts }
  else if wbSeqAnySearch [["city"], ["town"], ["village"]]
      (lowL (stripWs (lines.getD i []))) then
    { st with city := hwSpaceField [["city"], ["town"], ["village"]] lines i (lines.getD i []) st.city }
  else if wbSeqAnySearch [["state"]] (lowL (stripWs (lines.getD i [])))
      && !containsSub (lowL (stripWs (lines.getD i []))) "marital".toList then
    { st with stateV :=
        hwSpaceField [["state"]] lines i (lines.getD i []) st.stateV }
  else if wbSeqAnySearch
      [["pin", "code"], ["pincode"], ["postal", "code"], ["zip"]]
      (lowL (stripWs (lines.getD i []))) then
    { st with pin := hwPinField lines i (lines.getD i []) st.pin }
  else if wbSeqAnySearch [["mobile"], ["phone"], ["contact"], ["tel"]]
      (lowL (stripWs (lines.getD i []))) then
    { st with mobile := hwMobileField lines i (lines.getD i []) st.mobile }
  else if wbSeqAnySearch [["email"]] (lowL (stripWs (lines.getD i []))) then
    { st with email := hwEmailField lines i (lines.getD i []) st.email }
  else if wbSeqAnySearch [["occupation"], ["profession"], ["job"]]
      (lowL (stripWs (lines.getD i []))) then
    { st with occ := hwSpaceField [["occupation"], ["profession"], ["job"]] lines i (lines.getD i []) st.occ }
  else st

/-- Name assembly of the handwritten extractor (extractor.py lines 1271-1298),
starting from the empty mapping. -/
def hwNameInfo (st : HwState) : Info :=
  let info : Info := []
  if truthy st.first || truthy st.middle || truthy st.sur then
    let info := setOptNE info "first_name" st.first (fun v => v)
    let info := setOptNE info "middle_name" st.middle (fun v => v)
    let info := setOptNE info "surname" st.sur (fun v => v)
    let parts := optPart st.first ++ optPart st.middle ++ optPart st.sur
    if !parts.isEmpty then setF info "name" (joinSp parts) else info
  else
    match st.full with
    | some fn =>
      if fn.isEmpty then info
      else
        let info := setF info "name" fn
        let ws := wordsOf fn
        if ws.length ≥ 3 then
          setF (setF (setF info "first_name" (ws.headD []))
            "middle_name" (joinSp ((ws.drop 1).dropLast)))
            "surname" (ws.getLastD [])
        else if ws.length = 2 then
          setF (setF info "first_name" (ws.headD []))
            "surname" (ws.getLastD [])
        else if ws.length = 1 then
          setF info "first_name" (ws.headD [])
        else info
    | none => info

def extract_handwritten (text : List Char) (lines : List (List Char)) : Info :=
  -- text_lower and text_clean (lines 996-997) are computed but unused
  let _textLower := lowL text
  let _textClean := cleanText text
  let st := (List.range lines.length).foldl (hwStep lines) hwEmpty
  -- name assembly (lines 1271-1298)
  let info := hwNameInfo st
  let info := setOptNE info "father_name" st.father (fun v => v)
  let info := setOptNE info "mother_name" st.mother (fun v => v)
  let info := setOptNE info "date_of_birth" st.dob (fun v => v)
  let info := setOptNE info "age" st.age (fun v => v)
  let info := setOptNE info "gender" st.gender (fun v => v)
  let info :=
    if !st.addrParts.isEmpty then
      setF info "address" (joinCommaSp st.addrParts)
    else info
  let info := setOptNE info "city" st.city (fun v => v)
  let info := setOptNE info "state" st.stateV (fun v => v)
  let info := setOptNE info "pin_code" st.pin (fun v => v)
  let info := setOptNE info "mobile" st.mobile (fun v => v)
  let info := setOptNE info "email" st.email (fun v => v)
  let info := setOptNE info "occupation" st.occ (fun v => v)
  setF info "document_type" "Handwritten Form".toList

/-! ### Generic fallback extraction
(extractor.py extract_document_info lines 1371-1398, else branch) -/

def extract_generic (text : List Char) : Info :=
  let textClean := cleanText text
  let info : Info := []
  let info := setOpt info "document_id" (panSearch (upL text)) (fun g => g)
  let info := setOpt info "document_id" (scanP aadG none textClean)
    (fun pr => delSpaces pr.1)
  let info := setOpt info "document_id" (voterSearch (upL text)) (fun g => g)
  let info := setOpt info "document_id" (dlExtSearch (upL text)) delSpaces
  let info := setOpt info "date_of_birth" (extract_date textClean) (fun d => d)
  info

/-! ### Dispatch (extractor.py extract_document_info, lines 1346-1370) -/

/-- The non-empty stripped lines of the text. -/
def linesOf (t : List Char) : List (List Char) :=
  ((splitNl t).map stripWs).filter (fun l => !l.isEmpty)

def extract_document_info (text : String) (docType : String) : Info :=
  let t := text.toList
  let lines := linesOf t
  if docType = "AADHAAR" then extract_aadhaar t lines
  else if docType = "PAN" then extract_pan t lines
  else if docType = "VOTER_ID" then extract_voter_id t lines
  else if docType = "DRIVING_LICENSE" then extract_driving_license t lines
  else if docType = "HANDWRITTEN" then extract_handwritten t lines
  else extract_generic t

/-- Modelled from the claim wording of C7 (and equal in shape to extractor.py's
DRIVING_LICENSE_PATTERN): after upper-casing and removing internal spaces, a
word-bounded token of 2 letters, then 2 digits, then between 4 and 11 further
digits, i.e. a letter pair followed by a digit run of length 6..13 ending at a
word boundary. -/
def claimDlTokenAt (prev : Option Char) (cs : List Char) : Option Unit := do
  guard (bdyB prev)
  let (_, r1) ← pCount isUpperL 2 cs
  let (d, r2) := pStar isDigitC r1
  guard (6 ≤ d.length && d.length ≤ 13 && bdyA r2)
  pure ()

def claimDlToken (text : String) : Bool :=
  (scanP claimDlTokenAt none (delSpaces (upL text.toList))).isSome

/-- No adjacent duplicate words under case-insensitive comparison (the C6
property of a finished name). -/
def hasAdjDupCI : List (List Char) → Bool
  | [] => false
  | [_] => false
  | a :: b :: rest => (lowL a == lowL b) || hasAdjDupCI (b :: rest)

/-- A string with at least one non-whitespace character; such a string
survives stripping and splitting non-trivially. -/
def hasSolidB (cs : List Char) : Bool := cs.any (fun c => !isWs c)

/-! ### Theorems -/

theorem dropWhile_len_le (p : Char → Bool) (l : List Char) :
    (l.dropWhile p).length ≤ l.length := by
  induction l with
  | nil => simp [List.dropWhile]
  | cons c rest ih =>
    simp only [List.dropWhile]
    split
    · exact Nat.le_succ_of_le ih
    · simp

theorem scanP_spec {α : Type} {P : α → Prop}
    (f : Option Char → List Char → Option α)
    (h : ∀ prev cs a, f prev cs = some a → P a) :
    ∀ prev cs a, scanP f prev cs = some a → P a := by
  intro prev cs
  induction cs generalizing prev with
  | nil => intro a ha; exact h _ _ _ ha
  | cons c rest ih =>
    intro a ha
    unfold scanP at ha
    cases hf : f prev (c :: rest) with
    | some b =>
      rw [hf] at ha
      simp at ha
      subst ha
      exact h _ _ _ hf
    | none => rw [hf] at ha; exact ih _ _ ha

theorem pCount_len (p : Char → Bool) :
    ∀ n cs t r, pCount p n cs = some (t, r) → t.length = n := by
  intro n
  induction n with
  | zero =>
    intro cs t r h
    simp only [pCount, Option.some.injEq, Prod.mk.injEq] at h
    rw [← h.1]
    rfl
  | succ m ih =>
    intro cs t r h
    cases cs with
    | nil => exact absurd h (by simp [pCount])
    | cons c rest =>
      simp only [pCount] at h
      split at h
      · cases hm : pCount p m rest with
        | some pr =>
          rw [hm] at h
          obtain ⟨t2, r2⟩ := pr
          simp only [Option.some.injEq, Prod.mk.injEq] at h
          rw [← h.1]
          simp [ih rest t2 r2 hm]
        | none => rw [hm] at h; exact absurd h (by simp)
      · exact absurd h (by simp)

/-! ### Classifier score facts -/

theorem kwScore_nonneg (kws : List String) (t : List Char) : 0 ≤ kwScore kws t :=
  Int.natCast_nonneg _

theorem scoreAadhaar_nonneg (t : List Char) : 0 ≤ scoreAadhaar t := by
  unfold scoreAadhaar
  have := kwScore_nonneg AADHAAR_KEYWORDS (lowL t)
  split <;> omega

theorem scorePan_nonneg (t : List Char) : 0 ≤ scorePan t := by
  unfold scorePan
  have := kwScore_nonneg PAN_KEYWORDS (lowL t)
  split <;> omega

theorem scoreVoter_nonneg (t : List Char) : 0 ≤ scoreVoter t := by
  unfold scoreVoter
  have := kwScore_nonneg VOTER_ID_KEYWORDS (lowL t)
  split <;> omega

theorem scoreDl_nonneg (t : List Char) : 0 ≤ scoreDl t := by
  unfold scoreDl
  have := kwScore_nonneg DRIVING_LICENSE_KEYWORDS (lowL t)
  split <;> omega

/-- The handwritten score is nonnegative even after the -2 adjustment, since
the adjustment only applies when the keyword count is at least 3. -/
theorem scoreHand_nonneg (t : List Char) : 0 ≤ scoreHand t := by
  unfold scoreHand
  have := kwScore_nonneg HANDWRITTEN_KEYWORDS (lowL t)
  simp only
  split
  · split <;> omega
  · omega

theorem le_maxScore_aadhaar (t : List Char) : scoreAadhaar t ≤ maxScore t := by
  unfold maxScore
  exact le_max_of_le_left (le_max_of_le_left (le_max_of_le_left (le_max_left _ _)))

theorem le_maxScore_pan (t : List Char) : scorePan t ≤ maxScore t := by
  unfold maxScore
  exact le_max_of_le_left (le_max_of_le_left (le_max_of_le_left (le_max_right _ _)))

theorem le_maxScore_voter (t : List Char) : scoreVoter t ≤ maxScore t := by
  unfold maxScore
  exact le_max_of_le_left (le_max_of_le_left (le_max_right _ _))

theorem le_maxScore_dl (t : List Char) : scoreDl t ≤ maxScore t := by
  unfold maxScore
  exact le_max_of_le_left (le_max_right _ _)

theorem le_maxScore_hand (t : List Char) : scoreHand t ≤ maxScore t := by
  unfold maxScore
  exact le_max_right _ _

theorem maxScore_nonneg (t : List Char) : 0 ≤ maxScore t :=
  le_trans (scoreAadhaar_nonneg t) (le_maxScore_aadhaar t)

theorem maxScore_zero_iff (t : List Char) :
    maxScore t = 0 ↔
      scoreAadhaar t = 0 ∧ scorePan t = 0 ∧ scoreVoter t = 0 ∧
        scoreDl t = 0 ∧ scoreHand t = 0 := by
  constructor
  · intro h
    refine ⟨le_antisymm (h ▸ le_maxScore_aadhaar t) (scoreAadhaar_nonneg t),
      le_antisymm (h ▸ le_maxScore_pan t) (scorePan_nonneg t),
      le_antisymm (h ▸ le_maxScore_voter t) (scoreVoter_nonneg t),
      le_antisymm (h ▸ le_maxScore_dl t) (scoreDl_nonneg t),
      le_antisymm (h ▸ le_maxScore_hand t) (scoreHand_nonneg t)⟩
  · rintro ⟨h1, h2, h3, h4, h5⟩
    unfold maxScore
    rw [h1, h2, h3, h4, h5]
    simp

theorem winningType_ne_unknown (t : List Char) : winningType t ≠ "UNKNOWN" := by
  unfold winningType
  split_ifs <;> decide

theorem maxPossible_pos (dt : String) : 0 < maxPossible dt := by
  unfold maxPossible
  split_ifs <;> positivity

/-! ### Claim theorems for the classifier -/

/-- C1: classify returns type UNKNOWN exactly when all five raw scores
(keyword counts plus pattern bonuses plus the handwritten adjustment) are
zero, and in the all-zero case the result is exactly (UNKNOWN, 0.0); since
every adjusted score is nonnegative and the -2 adjustment leaves a positive
handwritten score, a nonzero score always prevents the UNKNOWN outcome. -/
theorem classify_unknown_iff_all_scores_zero (text : String) :
    ((classify_document text).1 = "UNKNOWN" ↔
      (scoreAadhaar text.toList = 0 ∧ scorePan text.toList = 0 ∧
       scoreVoter text.toList = 0 ∧ scoreDl text.toList = 0 ∧
       scoreHand text.toList = 0)) ∧
    ((scoreAadhaar text.toList = 0 ∧ scorePan text.toList = 0 ∧
      scoreVoter text.toList = 0 ∧ scoreDl text.toList = 0 ∧
      scoreHand text.toList = 0) → classify_document text = ("UNKNOWN", 0)) := by
  unfold classify_document
  simp only
  by_cases hm : maxScore text.toList = 0
  · rw [if_pos hm]
    constructor
    · simp only [true_iff]
      exact (maxScore_zero_iff text.toList).1 hm
    · intro _; rfl
  · rw [if_neg hm]
    constructor
    · constructor
      · intro h
        exact absurd h (winningType_ne_unknown text.toList)
      · intro h
        exact absurd ((maxScore_zero_iff text.toList).2 h) hm
    · intro h
      exact absurd ((maxScore_zero_iff text.toList).2 h) hm

/-- C1 witness: at the empty string all scores are zero and classify indeed
returns (UNKNOWN, 0.0). -/
theorem classify_unknown_iff_all_scores_zero_witness :
    classify_document "" = ("UNKNOWN", 0) :=
  (classify_unknown_iff_all_scores_zero "").2 (by decide)

/-- C2: the confidence of classify is always within [0, 1]: it is 0 in the
UNKNOWN case and min(max score / per-type maximum possible, 1) otherwise. -/
theorem classify_confidence_in_unit_interval (text : String) :
    0 ≤ (classify_document text).2 ∧ (classify_document text).2 ≤ 1 := by
  unfold classify_document
  simp only
  by_cases hm : maxScore text.toList = 0
  · rw [if_pos hm]
    norm_num
  · rw [if_neg hm]
    constructor
    · apply le_min
      · apply div_nonneg
        · exact_mod_cast maxScore_nonneg text.toList
        · exact le_of_lt (maxPossible_pos _)
      · norm_num
    · exact min_le_right _ _

/-- C7 counterexample: the text "AB12 3456" contains, after upper-casing and
space removal, a word-bounded token of 2 letters + 2 digits + 4 further
digits, yet the classifier adds no driving-license bonus: its
DRIVING_LICENSE score is 0 and classification is (UNKNOWN, 0.0), because the
classifier pattern requires 8 to 11 further digits. -/
theorem classifier_dl_four_digit_token_no_bonus :
    claimDlToken "AB12 3456" = true ∧
      scoreDl "AB12 3456".toList = 0 ∧
      classify_document "AB12 3456" = ("UNKNOWN", 0) := by
  refine ⟨by decide, by decide, by decide⟩

/-- C7 amended: whenever the classifier pattern
\b[A-Z]{2}\s*\d{2}\s*\d{8,11}\b matches the upper-cased, space-stripped text
(2 letters + 2 digits + 8 to 11 further digits), the DRIVING_LICENSE score is
the keyword count plus the +3 pattern bonus. -/
theorem classifier_dl_bonus_amended (text : String)
    (h : clDlSearch (delSpaces (upL text.toList)) = true) :
    scoreDl text.toList =
      kwScore DRIVING_LICENSE_KEYWORDS (lowL text.toList) + 3 := by
  unfold scoreDl
  rw [if_pos h]

/-- C7 amended witness: "AB12 34567890" (8 further digits) matches the
classifier pattern and earns exactly the +3 bonus on top of a zero keyword
count. -/
theorem classifier_dl_bonus_amended_witness :
    clDlSearch (delSpaces (upL "AB12 34567890".toList)) = true ∧
      scoreDl "AB12 34567890".toList =
        kwScore DRIVING_LICENSE_KEYWORDS (lowL "AB12 34567890".toList) + 3 :=
  ⟨by decide, classifier_dl_bonus_amended "AB12 34567890" (by decide)⟩

/-! ### Association-list (dict) lemmas -/

theorem lookupF_setF_eq (info : Info) (k : String) (v : List Char) :
    lookupF (setF info k v) k = some (String.mk v) := by
  simp [lookupF, setF, List.lookup]

theorem lookupF_setF_ne (info : Info) (k k2 : String) (v : List Char)
    (h : k ≠ k2) : lookupF (setF info k2 v) k = lookupF info k := by
  have hb : (k == k2) = false := by simp [h]
  simp [lookupF, setF, List.lookup, hb]

theorem mem_setF {p : String × String} (info : Info) (k : String)
    (v : List Char) (h : p ∈ setF info k v) :
    p = (k, String.mk v) ∨ p ∈ info := by
  simpa [setF] using h

/-! ### Claim theorems for the extractor -/

/-- C3: on the spec's e-Aadhaar sample text the labelled Aadhaar number is
extracted as document_id and the 16-digit VID as vid; the VID digits are not
selected as the Aadhaar number. -/
theorem aadhaar_label_number_and_vid_extraction :
    lookupF (extract_document_info
        "Your Aadhaar No. : 6713 3842 5045\nVID: 9120 3595 3405 8780"
        "AADHAAR") "document_id" = some "671338425045" ∧
    lookupF (extract_document_info
        "Your Aadhaar No. : 6713 3842 5045\nVID: 9120 3595 3405 8780"
        "AADHAAR") "vid" = some "9120359534058780" :=
  ⟨by decide, by decide⟩

/-- C4 is a code bug: the source computes the set of 16-digit VID tokens
(extractor.py line 170) but never uses it, so with no explicit label and a
16-digit token not preceded by "vid", the fallback returns the first 12
digits of that very token as the Aadhaar number.  Here "1234 5678 9012" is a
prefix of the text's single 16-digit token "1234 5678 9012 3456". -/
theorem aadhaar_fallback_takes_vid_prefix :
    lookupF (extract_document_info "Number 1234 5678 9012 3456" "AADHAAR")
        "document_id" = some "123456789012" ∧
    findAll16 (cleanText "Number 1234 5678 9012 3456".toList) =
      ["1234 5678 9012 3456".toList] ∧
    "123456789012".toList.isPrefixOf
      (delSpaces "1234 5678 9012 3456".toList) = true :=
  ⟨by decide, by decide, by decide⟩

/-- C5 counterexample: the text contains both a PAN-shaped and an
Aadhaar-shaped token, yet the generic fallback reports the Aadhaar token as
document_id, not the PAN token: each pattern's assignment overwrites the
previous one, so the last matching pattern wins. -/
theorem generic_fallback_pan_not_first :
    (panSearch (upL "ABCDE1234F 1234 5678 9123".toList)).isSome = true ∧
    (scanP aadG none (cleanText "ABCDE1234F 1234 5678 9123".toList)).isSome
      = true ∧
    lookupF (extract_document_info "ABCDE1234F 1234 5678 9123" "UNKNOWN")
      "document_id" = some "123456789123" ∧
    lookupF (extract_document_info "ABCDE1234F 1234 5678 9123" "UNKNOWN")
      "document_id" ≠ some "ABCDE1234F" :=
  ⟨by decide, by decide, by decide, by decide⟩

/-- C6 counterexample: the PAN extractor applies no adjacent-duplicate-word
collapse; "Name: JOHN JOHN" yields the name "JOHN JOHN" with an adjacent
case-insensitive duplicate. -/
theorem pan_name_keeps_adjacent_duplicate :
    lookupF (extract_document_info "Name: JOHN JOHN" "PAN") "name"
      = some "JOHN JOHN" ∧
    hasAdjDupCI (wordsOf "JOHN JOHN".toList) = true :=
  ⟨by decide, by decide⟩

/-- C8 counterexample: Devanagari digits are NOT converted before the
Voter-ID number pattern, which is searched on the raw upper-cased text: the
ASCII text yields a document_id while its Devanagari-digit counterpart (which
convert_hindi_numerals maps to exactly the ASCII text's digits) yields none. -/
theorem voter_pattern_not_numeral_converted :
    convert_hindi_numerals "ABC१२३४५६७".toList = "ABC1234567".toList ∧
    lookupF (extract_document_info "ABC1234567" "VOTER_ID") "document_id"
      = some "ABC1234567" ∧
    lookupF (extract_document_info "ABC१२३४५६७" "VOTER_ID") "document_id"
      = none :=
  ⟨by decide, by decide, by decide⟩

/-- C5 amended: in the generic fallback, each later pattern assignment
overwrites document_id, so the last match wins; whenever the Aadhaar pattern
matches the cleaned text and neither the Voter-ID nor the Driving-License
pattern matches the upper-cased text, document_id is the space-stripped
Aadhaar token — regardless of a PAN match, whose assignment was
overwritten. -/
theorem generic_fallback_last_match_wins (text : String) (g r : List Char)
    (ha : scanP aadG none (cleanText text.toList) = some (g, r))
    (hv : voterSearch (upL text.toList) = none)
    (hd : dlExtSearch (upL text.toList) = none) :
    lookupF (extract_document_info text "UNKNOWN") "document_id"
      = some (String.mk (delSpaces g)) := by
  have hgen : extract_document_info text "UNKNOWN" = extract_generic text.toList := rfl
  rw [hgen]
  unfold extract_generic
  simp only [ha, hv, hd]
  cases hp : panSearch (upL text.toList) <;>
    cases hdt : extract_date (cleanText text.toList) <;>
      simp [setOpt, lookupF_setF_eq, lookupF_setF_ne]

/-- C5 amended witness: on "ABCDE1234F 1234 5678 9123" the Aadhaar pattern
matches "1234 5678 9123", voter and DL patterns fail, and document_id is its
space-stripped form. -/
theorem generic_fallback_last_match_wins_witness :
    scanP aadG none (cleanText "ABCDE1234F 1234 5678 9123".toList)
        = some ("1234 5678 9123".toList, []) ∧
      lookupF (extract_document_info "ABCDE1234F 1234 5678 9123" "UNKNOWN")
        "document_id" = some (String.mk (delSpaces "1234 5678 9123".toList)) :=
  ⟨by decide, generic_fallback_last_match_wins "ABCDE1234F 1234 5678 9123"
    ("1234 5678 9123".toList) [] (by decide) (by decide) (by decide)⟩

/-- When the word-bounded "female" pattern matches, the ordered gender
pattern list answers Female immediately. -/
theorem aadGender_female (t : List Char) (h : femaleWB t = true) :
    aadGender t = some ("Female", "महिला") := by
  unfold aadGender aadGenderPick
  rw [h]
  simp

/-- C10 amended: in the Aadhaar extractor, which scans the whole text, the
female check precedes the male check and the Male branch additionally
requires that no word-bounded "female" occurs; hence whenever word-bounded
"female" (case-insensitively) occurs anywhere in the text, the extracted
gender is "Female". -/
theorem aadhaar_female_check_precedes_male (text : String)
    (h : femaleWB text.toList = true) :
    lookupF (extract_document_info text "AADHAAR") "gender" = some "Female" := by
  have hgen : extract_document_info text "AADHAAR"
      = extract_aadhaar text.toList (linesOf text.toList) := rfl
  rw [hgen]
  unfold extract_aadhaar
  simp only [aadGender_female _ h, setGender]
  rw [lookupF_setF_ne _ _ _ _ (by decide), lookupF_setF_eq]
  rfl

/-- C10 amended witness: the spec's example text "...female applicant, not
male..." resolves to Female for the Aadhaar extractor. -/
theorem aadhaar_female_check_precedes_male_witness :
    femaleWB "...female applicant, not male...".toList = true ∧
      lookupF (extract_document_info "...female applicant, not male..."
        "AADHAAR") "gender" = some "Female" :=
  ⟨by decide,
    aadhaar_female_check_precedes_male "...female applicant, not male..."
      (by decide)⟩

theorem h2a_idem (c : Char) : h2a (h2a c) = h2a c := by
  by_cases h0 : c = '०'
  · subst h0; rfl
  by_cases h1 : c = '१'
  · subst h1; rfl
  by_cases h2 : c = '२'
  · subst h2; rfl
  by_cases h3 : c = '३'
  · subst h3; rfl
  by_cases h4 : c = '४'
  · subst h4; rfl
  by_cases h5 : c = '५'
  · subst h5; rfl
  by_cases h6 : c = '६'
  · subst h6; rfl
  by_cases h7 : c = '७'
  · subst h7; rfl
  by_cases h8 : c = '८'
  · subst h8; rfl
  by_cases h9 : c = '९'
  · subst h9; rfl
  have hc : h2a c = c := by
    unfold h2a
    rw [if_neg h0, if_neg h1, if_neg h2, if_neg h3, if_neg h4, if_neg h5,
      if_neg h6, if_neg h7, if_neg h8, if_neg h9]
  rw [hc]
  exact hc

theorem convert_hindi_numerals_idem (cs : List Char) :
    convert_hindi_numerals (convert_hindi_numerals cs)
      = convert_hindi_numerals cs := by
  unfold convert_hindi_numerals
  rw [List.map_map]
  exact List.map_congr_left (fun c _ => h2a_idem c)

/-- C8 amended: the conversion of Devanagari digits happens before every
date-pattern evaluation (extract_date cleans its input, so a pre-converted
text scores identically) and before the Aadhaar-number pattern (the
Devanagari-digit Aadhaar sample extracts the converted number); but the
Voter-ID number pattern runs on the unconverted text, so a Devanagari-digit
voter number extracts nothing. -/
theorem numeral_conversion_scope_amended :
    (∀ cs : List Char,
      extract_date (convert_hindi_numerals cs) = extract_date cs) ∧
    lookupF (extract_document_info "१२३४ ५६७८ ९०१२" "AADHAAR") "document_id"
      = some "123456789012" ∧
    lookupF (extract_document_info "ABC१२३४५६७" "VOTER_ID") "document_id"
      = none := by
  refine ⟨fun cs => ?_, by decide, by decide⟩
  unfold extract_date cleanText
  rw [convert_hindi_numerals_idem]

/-! ### Word-list lemmas for the duplicate-collapse claim -/

theorem wordsGo_nil (acc : List Char) :
    wordsGo acc [] = if acc.isEmpty then [] else [acc.reverse] := rfl

theorem wordsGo_cons (acc : List Char) (a : Char) (rest : List Char) :
    wordsGo acc (a :: rest)
      = if isWs a then
          (if acc.isEmpty then wordsGo [] rest
           else acc.reverse :: wordsGo [] rest)
        else wordsGo (a :: acc) rest := rfl

/-- Every word produced by Python str.split is nonempty and free of
whitespace. -/
theorem wordsGo_mem (cs : List Char) : ∀ acc,
    (∀ c ∈ acc, isWs c = false) →
    ∀ w ∈ wordsGo acc cs, w ≠ [] ∧ ∀ c ∈ w, isWs c = false := by
  induction cs with
  | nil =>
    intro acc hacc w hw
    rw [wordsGo_nil] at hw
    by_cases hemp : acc.isEmpty
    · rw [if_pos hemp] at hw; simp at hw
    · rw [if_neg hemp] at hw
      simp at hw
      subst hw
      refine ⟨by simpa [List.isEmpty_iff] using hemp, ?_⟩
      intro c hc
      exact hacc c (by simpa using hc)
  | cons a rest ih =>
    intro acc hacc w hw
    rw [wordsGo_cons] at hw
    by_cases hws : isWs a
    · rw [if_pos hws] at hw
      by_cases hemp : acc.isEmpty
      · rw [if_pos hemp] at hw
        exact ih [] (by simp) w hw
      · rw [if_neg hemp] at hw
        rcases List.mem_cons.1 hw with h | h
        · subst h
          refine ⟨by simpa [List.isEmpty_iff] using hemp, ?_⟩
          intro c hc
          exact hacc c (by simpa using hc)
        · exact ih [] (by simp) w h
    · rw [if_neg hws] at hw
      refine ih (a :: acc) ?_ w hw
      intro c hc
      rcases List.mem_cons.1 hc with h | h
      · subst h; simpa using hws
      · exact hacc c h

theorem wordsOf_mem (cs : List Char) (w : List Char) (hw : w ∈ wordsOf cs) :
    w ≠ [] ∧ ∀ c ∈ w, isWs c = false :=
  wordsGo_mem cs [] (by simp) w hw

/-- Scanning a whitespace-free word accumulates it entirely. -/
theorem wordsGo_solid (w : List Char) : ∀ acc cs,
    (∀ c ∈ w, isWs c = false) →
    wordsGo acc (w ++ cs) = wordsGo (w.reverse ++ acc) cs := by
  induction w with
  | nil => intro acc cs _; simp
  | cons a w' ih =>
    intro acc cs hw
    have ha : isWs a = false := hw a (by simp)
    show wordsGo acc (a :: (w' ++ cs)) = _
    rw [wordsGo_cons, if_neg (by simp [ha])]
    rw [ih (a :: acc) cs (fun c hc => hw c (by simp [hc]))]
    simp

/-- ' '.join then split is the identity on lists of nonempty,
whitespace-free words. -/
theorem wordsOf_joinSp (l : List (List Char))
    (h : ∀ w ∈ l, w ≠ [] ∧ ∀ c ∈ w, isWs c = false) :
    wordsOf (joinSp l) = l := by
  induction l with
  | nil => rfl
  | cons w rest ih =>
    cases rest with
    | nil =>
      show wordsOf (joinSp [w]) = [w]
      have hw := h w (by simp)
      show wordsGo [] (joinSp [w]) = [w]
      have hjw : joinSp [w] = w ++ [] := by simp [joinSp]
      rw [hjw, wordsGo_solid w [] [] hw.2, wordsGo_nil,
        if_neg (by simpa [List.isEmpty_iff] using hw.1)]
      simp
    | cons w2 rest2 =>
      have hw := h w (by simp)
      show wordsOf (w ++ ' ' :: joinSp (w2 :: rest2)) = w :: w2 :: rest2
      show wordsGo [] (w ++ ' ' :: joinSp (w2 :: rest2)) = _
      rw [wordsGo_solid w [] (' ' :: joinSp (w2 :: rest2)) hw.2]
      rw [wordsGo_cons, if_pos (by decide),
        if_neg (by simpa [List.isEmpty_iff] using hw.1)]
      simp only [List.append_nil, List.reverse_reverse]
      rw [show wordsGo [] (joinSp (w2 :: rest2))
          = wordsOf (joinSp (w2 :: rest2)) from rfl]
      rw [ih (fun x hx => h x (by simp [hx]))]

/-- Elements of the collapsed list come from the original list. -/
theorem dedupCIGo_mem : ∀ (l : List (List Char)) (prev w : List Char),
    w ∈ dedupCIGo prev l → w ∈ l := by
  intro l
  induction l with
  | nil => intro prev w hw; simp [dedupCIGo] at hw
  | cons x xs ih =>
    intro prev w hw
    unfold dedupCIGo at hw
    split at hw
    · exact List.mem_cons_of_mem _ (ih prev w hw)
    · rcases List.mem_cons.1 hw with h | h
      · simp [h]
      · exact List.mem_cons_of_mem _ (ih x w h)

theorem dedupCI_mem (l : List (List Char)) (w : List Char)
    (hw : w ∈ dedupCI l) : w ∈ l := by
  cases l with
  | nil => simp [dedupCI] at hw
  | cons x xs =>
    unfold dedupCI at hw
    rcases List.mem_cons.1 hw with h | h
    · simp [h]
    · exact List.mem_cons_of_mem _ (dedupCIGo_mem xs x w h)

/-- The collapse removes every adjacent case-insensitive duplicate. -/
theorem dedupCIGo_noAdj : ∀ (l : List (List Char)) (prev : List Char),
    hasAdjDupCI (prev :: dedupCIGo prev l) = false := by
  intro l
  induction l with
  | nil => intro prev; rfl
  | cons w ws ih =>
    intro prev
    unfold dedupCIGo
    split
    · exact ih prev
    · show hasAdjDupCI (prev :: w :: dedupCIGo w ws) = false
      unfold hasAdjDupCI
      have hne : (lowL prev == lowL w) = false := by
        simp only [beq_eq_false_iff_ne, ne_eq]
        intro hh
        exact (by assumption : ¬lowL w = lowL prev) hh.symm
      rw [hne]
      simpa using ih w

theorem dedupCI_noAdj (l : List (List Char)) :
    hasAdjDupCI (dedupCI l) = false := by
  cases l with
  | nil => rfl
  | cons w ws => exact dedupCIGo_noAdj ws w

/-- Fold invariant preservation. -/
theorem foldl_preserve {σ α : Type} (P : σ → Prop) (f : σ → α → σ) :
    ∀ (l : List α) (init : σ), P init → (∀ s a, P s → P (f s a)) →
      P (l.foldl f init) := by
  intro l
  induction l with
  | nil => intro init h _; exact h
  | cons a rest ih =>
    intro init h hstep
    exact ih (f init a) (hstep init a h) hstep

/-- A conditional write under another key does not change a lookup. -/
theorem lookupF_setOpt_ne {α : Type} (info : Info) (k k2 : String)
    (X : Option α) (f : α → List Char) (h : k2 ≠ k) :
    lookupF (setOpt info k X f) k2 = lookupF info k2 := by
  cases X with
  | none => rfl
  | some a => exact lookupF_setF_ne _ _ _ _ h

/-- A truthiness-guarded write under another key does not change a lookup. -/
theorem lookupF_setOptNE_ne (info : Info) (k k2 : String)
    (X : Option (List Char)) (f : List Char → List Char) (h : k2 ≠ k) :
    lookupF (setOptNE info k X f) k2 = lookupF info k2 := by
  cases X with
  | none => rfl
  | some v =>
    unfold setOptNE
    by_cases hv : v.isEmpty <;> simp [hv, lookupF_setF_ne _ _ _ _ h]

/-- The voter second pass never writes the "name" key into the mapping. -/
theorem voterPass2_no_name (st : Option (List Char) × Option (List Char) × Info)
    (line : List Char) (h : lookupF st.2.2 "name" = none) :
    lookupF (voterPass2Step st line).2.2 "name" = none := by
  obtain ⟨name, father, info⟩ := st
  unfold voterPass2Step
  simp only
  split
  · exact h
  · split
    · exact h
    · split
      · exact h
      · split
        · simpa [lookupF_setOpt_ne _ _ _ _ _
            (by decide : "name" ≠ "date_of_birth")] using h
        · split
          · split
            · simpa [lookupF_setF_ne _ _ _ _
                  (by decide : "name" ≠ "gender_hindi"),
                lookupF_setF_ne _ _ _ _ (by decide : "name" ≠ "gender")]
                using h
            · split
              · simpa [lookupF_setF_ne _ _ _ _
                    (by decide : "name" ≠ "gender_hindi"),
                  lookupF_setF_ne _ _ _ _ (by decide : "name" ≠ "gender")]
                  using h
              · exact h
          · exact h

/-- C6 amended: every English name the Voter-ID extractor returns is free of
adjacent case-insensitive duplicate words, because the finished name is the
join of the duplicate-collapsed word list. -/
theorem voter_name_no_adjacent_duplicates (text : String) (v : String)
    (h : lookupF (extract_document_info text "VOTER_ID") "name" = some v) :
    hasAdjDupCI (wordsOf v.toList) = false := by
  have hgen : extract_document_info text "VOTER_ID"
      = extract_voter_id text.toList (linesOf text.toList) := rfl
  rw [hgen] at h
  unfold extract_voter_id at h
  simp only at h
  rcases hp1 : (linesOf text.toList).foldl voterPass1Step (none, none) with
    ⟨nameH, fatherH⟩
  rw [hp1] at h
  rcases hp2 : (linesOf text.toList).foldl voterPass2Step
      (none, none,
        setOpt2 ([] : Info) "document_id" "voter_id"
          (voterSearch (upL text.toList)) (fun g => g))
      with ⟨name, father, info1⟩
  rw [hp2] at h
  dsimp only at h
  -- the mapping after the loop has no "name" key
  have hno : lookupF info1 "name" = none := by
    have := foldl_preserve
      (fun st : Option (List Char) × Option (List Char) × Info =>
        lookupF st.2.2 "name" = none)
      voterPass2Step (linesOf text.toList)
      (none, none,
        setOpt2 ([] : Info) "document_id" "voter_id"
          (voterSearch (upL text.toList)) (fun g => g))
      (by
        cases hv : voterSearch (upL text.toList) <;>
          simp [hv, setOpt2, lookupF, setF, List.lookup])
      (fun s a hs => voterPass2_no_name s a hs)
    rw [hp2] at this
    exact this
  -- peel the three conditional writes under other keys from the outside in
  rw [lookupF_setOptNE_ne _ _ _ _ _ (by decide),
    lookupF_setOptNE_ne _ _ _ _ _ (by decide),
    lookupF_setOptNE_ne _ _ _ _ _ (by decide)] at h
  -- the remaining write is the collapsed name itself
  cases hn : name with
  | none => rw [hn] at h; dsimp only [setOptNE] at h; rw [hno] at h
            exact absurd h (by simp)
  | some n =>
    rw [hn] at h
    dsimp only [setOptNE] at h
    by_cases hne : n.isEmpty
    · rw [if_pos hne] at h; rw [hno] at h; exact absurd h (by simp)
    · rw [if_neg hne, lookupF_setF_eq] at h
      have hv : v = String.mk (joinSp (dedupCI (wordsOf n))) := by
        simpa using h.symm
      subst hv
      have hgood : ∀ w ∈ dedupCI (wordsOf n), w ≠ [] ∧
          ∀ c ∈ w, isWs c = false :=
        fun w hw => wordsOf_mem n w (dedupCI_mem _ w hw)
      show hasAdjDupCI (wordsOf (joinSp (dedupCI (wordsOf n)))) = false
      rw [wordsOf_joinSp _ hgood]
      exact dedupCI_noAdj _

/-- C6 amended witness: the spec's duplicated-trailing-word example collapses
and the collapsed name has no adjacent duplicates. -/
theorem voter_name_no_adjacent_duplicates_witness :
    lookupF (extract_document_info "Name: Abhishek Kumar Singh Singh"
        "VOTER_ID") "name" = some "Abhishek Kumar Singh" ∧
      hasAdjDupCI (wordsOf "Abhishek Kumar Singh".toList) = false :=
  ⟨by decide,
    voter_name_no_adjacent_duplicates "Name: Abhishek Kumar Singh Singh"
      "Abhishek Kumar Singh" (by decide)⟩

/-- C10 counterexample: with the substring "female" on one line and a gender
line reading "Gender: Male", the Voter-ID extractor reports Male — the
female-before-male check is applied per gender-labelled line, not to the
whole text. -/
theorem voter_gender_male_despite_female_substring :
    containsSub (lowL "she is female\nGender: Male".toList)
      "female".toList = true ∧
    containsSub (lowL "she is female\nGender: Male".toList)
      "male".toList = true ∧
    lookupF (extract_document_info "she is female\nGender: Male" "VOTER_ID")
      "gender" = some "Male" :=
  ⟨by decide, by decide, by decide⟩

/-! ### Character-class lemmas for the no-empty-value invariant -/

theorem char_toNat_ofNat (n : Nat) (h : n < 55296) : (Char.ofNat n).toNat = n := by
  unfold Char.ofNat Char.ofNatAux
  rw [dif_pos (Or.inl h)]
  rfl

theorem isWs_false_of_ge (c : Char) (h : 33 ≤ c.toNat) : isWs c = false := by
  simp only [isWs, Bool.or_eq_false_iff]
  refine ⟨⟨⟨⟨⟨?_, ?_⟩, ?_⟩, ?_⟩, ?_⟩, ?_⟩ <;>
    · simp only [decide_eq_false_iff_not]
      intro he
      subst he
      exact absurd h (by decide)

theorem isLowerL_bounds (c : Char) (h : isLowerL c = true) :
    97 ≤ c.toNat ∧ c.toNat ≤ 122 := by
  simp [isLowerL, Char.le_def] at h
  obtain ⟨h1, h2⟩ := h
  constructor <;> simpa [Char.toNat] using (by assumption : _)

theorem isUpperL_bounds (c : Char) (h : isUpperL c = true) :
    65 ≤ c.toNat ∧ c.toNat ≤ 90 := by
  simp [isUpperL, Char.le_def] at h
  obtain ⟨h1, h2⟩ := h
  constructor <;> simpa [Char.toNat] using (by assumption : _)

theorem isDigitC_bounds (c : Char) (h : isDigitC c = true) :
    48 ≤ c.toNat ∧ c.toNat ≤ 57 := by
  simp [isDigitC, Char.le_def] at h
  obtain ⟨h1, h2⟩ := h
  constructor <;> simpa [Char.toNat] using (by assumption : _)

theorem isWs_upC (c : Char) (h : isWs c = false) : isWs (upC c) = false := by
  unfold upC
  by_cases hl : isLowerL c
  · rw [if_pos hl]
    obtain ⟨hb1, hb2⟩ := isLowerL_bounds c hl
    apply isWs_false_of_ge
    rw [char_toNat_ofNat _ (by omega)]
    omega
  · rw [if_neg hl]; exact h

theorem isWs_lowC (c : Char) (h : isWs c = false) : isWs (lowC c) = false := by
  unfold lowC
  by_cases hl : isUpperL c
  · rw [if_pos hl]
    obtain ⟨hb1, hb2⟩ := isUpperL_bounds c hl
    apply isWs_false_of_ge
    rw [char_toNat_ofNat _ (by omega)]
    omega
  · rw [if_neg hl]; exact h

theorem isWs_of_letter (c : Char) (h : isLetterC c = true) : isWs c = false := by
  rcases Bool.or_eq_true_iff.1 (by simpa [isLetterC] using h) with hu | hl
  · exact isWs_false_of_ge c (le_trans (by omega) (isUpperL_bounds c hu).1)
  · exact isWs_false_of_ge c (le_trans (by omega) (isLowerL_bounds c hl).1)

theorem isWs_of_digit (c : Char) (h : isDigitC c = true) : isWs c = false :=
  isWs_false_of_ge c ((isDigitC_bounds c h).1.trans' (by omega))

theorem digit_ne_space (c : Char) (h : isDigitC c = true) : (c = ' ') = False := by
  have := isDigitC_bounds c h
  simp only [eq_iff_iff, iff_false]
  intro he
  subst he
  exact absurd this (by decide)

theorem upper_ne_space (c : Char) (h : isUpperL c = true) : (c = ' ') = False := by
  have := isUpperL_bounds c h
  simp only [eq_iff_iff, iff_false]
  intro he
  subst he
  exact absurd this (by decide)

/-! ### Nonemptiness infrastructure: solid characters survive the cleanup
pipeline -/

theorem hasSolidB_iff (cs : List Char) :
    hasSolidB cs = true ↔ ∃ c ∈ cs, isWs c = false := by
  simp [hasSolidB]

theorem ne_nil_of_solid {cs : List Char} (h : hasSolidB cs = true) : cs ≠ [] := by
  rcases (hasSolidB_iff cs).1 h with ⟨c, hc, _⟩
  intro h0
  subst h0
  exact absurd hc (by simp)

theorem mem_dropWhile_of_not {c : Char} (p : Char → Bool) :
    ∀ (l : List Char), c ∈ l → p c = false → c ∈ l.dropWhile p := by
  intro l
  induction l with
  | nil => intro h _; exact absurd h (by simp)
  | cons a rest ih =>
    intro hm hp
    rw [List.dropWhile_cons]
    by_cases ha : p a
    · rw [if_pos ha]
      rcases List.mem_cons.1 hm with h | h
      · subst h; exact absurd ha (by simp [hp])
      · exact ih h hp
    · rw [if_neg ha]; exact hm

theorem mem_stripWs {c : Char} {cs : List Char} (hm : c ∈ cs)
    (hc : isWs c = false) : c ∈ stripWs cs := by
  unfold stripWs
  rw [List.mem_reverse]
  apply mem_dropWhile_of_not _ _ _ hc
  rw [List.mem_reverse]
  exact mem_dropWhile_of_not _ _ hm hc

theorem stripWs_ne_of_solid {cs : List Char} (h : hasSolidB cs = true) :
    stripWs cs ≠ [] := by
  rcases (hasSolidB_iff cs).1 h with ⟨c, hc, hw⟩
  intro h0
  have := mem_stripWs hc hw
  rw [h0] at this
  exact absurd this (by simp)

theorem head_dropWhile_not (p : Char → Bool) :
    ∀ (l : List Char) (c : Char) (rest : List Char),
      l.dropWhile p = c :: rest → p c = false := by
  intro l
  induction l with
  | nil => intro c rest h; simp at h
  | cons a tl ih =>
    intro c rest h
    rw [List.dropWhile_cons] at h
    by_cases ha : p a
    · rw [if_pos ha] at h; exact ih c rest h
    · rw [if_neg ha] at h
      cases h
      simpa using ha

/-- A nonempty stripped string starts with a non-whitespace character, so it
is solid. -/
theorem solid_of_stripWs_ne {cs : List Char} (h : stripWs cs ≠ []) :
    hasSolidB (stripWs cs) = true := by
  unfold stripWs at h ⊢
  rcases hd : List.dropWhile isWs (List.dropWhile isWs cs).reverse
    with _ | ⟨c, rest⟩
  · rw [hd] at h; simp at h
  · have hc : isWs c = false := head_dropWhile_not isWs _ c rest hd
    apply (hasSolidB_iff _).2
    exact ⟨c, by simp, hc⟩

theorem hasSolidB_upL {cs : List Char} (h : hasSolidB cs = true) :
    hasSolidB (upL cs) = true := by
  rcases (hasSolidB_iff cs).1 h with ⟨c, hc, hw⟩
  exact (hasSolidB_iff _).2 ⟨upC c, List.mem_map_of_mem upC hc, isWs_upC c hw⟩

theorem hasSolidB_lowL {cs : List Char} (h : hasSolidB cs = true) :
    hasSolidB (lowL cs) = true := by
  rcases (hasSolidB_iff cs).1 h with ⟨c, hc, hw⟩
  exact (hasSolidB_iff _).2 ⟨lowC c, List.mem_map_of_mem lowC hc, isWs_lowC c hw⟩

theorem titleAux_solid : ∀ (cs : List Char) (b : Bool),
    hasSolidB cs = true → hasSolidB (titleAux b cs) = true := by
  intro cs
  induction cs with
  | nil => intro b h; simp [hasSolidB] at h
  | cons c rest ih =>
    intro b h
    unfold titleAux
    by_cases hl : isLetterC c
    · rw [if_pos hl]
      apply (hasSolidB_iff _).2
      refine ⟨if b then lowC c else upC c, by simp, ?_⟩
      have hcw : isWs c = false := isWs_of_letter c hl
      by_cases hb : b
      · simpa [hb] using isWs_lowC c hcw
      · simpa [hb] using isWs_upC c hcw
    · rw [if_neg hl]
      by_cases hcw : isWs c
      · have : hasSolidB rest = true := by
          rcases (hasSolidB_iff _).1 h with ⟨d, hd, hdw⟩
          rcases List.mem_cons.1 hd with he | he
          · subst he; simp [hcw] at hdw
          · exact (hasSolidB_iff _).2 ⟨d, he, hdw⟩
        rcases (hasSolidB_iff _).1 (ih false this) with ⟨d, hd, hdw⟩
        exact (hasSolidB_iff _).2 ⟨d, by simp [hd], hdw⟩
      · exact (hasSolidB_iff _).2 ⟨c, by simp, by simpa using hcw⟩

theorem hasSolidB_titleL {cs : List Char} (h : hasSolidB cs = true) :
    hasSolidB (titleL cs) = true := titleAux_solid cs false h

theorem collapseGo_mem_solid {c : Char} (hc : isWs c = false) :
    ∀ (cs : List Char) (b : Bool), c ∈ cs → c ∈ collapseGo b cs := by
  intro cs
  induction cs with
  | nil => intro b h; exact absurd h (by simp)
  | cons a rest ih =>
    intro b h
    unfold collapseGo
    by_cases ha : isWs a
    · rw [if_pos ha]
      have hm : c ∈ rest := by
        rcases List.mem_cons.1 h with he | he
        · subst he; simp [ha] at hc
        · exact he
      by_cases hb : b
      · simpa [hb] using ih true hm
      · simp only [hb, if_false]
        exact List.mem_cons_of_mem _ (ih true hm)
    · rw [if_neg ha]
      rcases List.mem_cons.1 h with he | he
      · subst he; simp
      · exact List.mem_cons_of_mem _ (ih false he)

theorem hasSolidB_collapseWs {cs : List Char} (h : hasSolidB cs = true) :
    hasSolidB (collapseWs cs) = true := by
  rcases (hasSolidB_iff cs).1 h with ⟨c, hc, hw⟩
  exact (hasSolidB_iff _).2 ⟨c, collapseGo_mem_solid hw cs false hc, hw⟩

/-- The full collapse-and-strip normalisation keeps a solid string
nonempty. -/
theorem stripWs_collapseWs_ne {cs : List Char} (h : hasSolidB cs = true) :
    stripWs (collapseWs cs) ≠ [] :=
  stripWs_ne_of_solid (hasSolidB_collapseWs h)

/-! ### Splitting and joining keep solid strings nonempty -/

theorem wordsGo_ne_of_acc : ∀ (cs acc : List Char), acc ≠ [] →
    wordsGo acc cs ≠ [] := by
  intro cs
  induction cs with
  | nil =>
    intro acc ha
    rw [wordsGo_nil, if_neg (by simpa [List.isEmpty_iff] using ha)]
    simp
  | cons c rest ih =>
    intro acc ha
    rw [wordsGo_cons]
    by_cases hw : isWs c
    · rw [if_pos hw, if_neg (by simpa [List.isEmpty_iff] using ha)]
      simp
    · rw [if_neg hw]
      exact ih (c :: acc) (by simp)

theorem wordsGo_ne_of_solid : ∀ (cs acc : List Char), hasSolidB cs = true →
    wordsGo acc cs ≠ [] := by
  intro cs
  induction cs with
  | nil => intro acc h; simp [hasSolidB] at h
  | cons c rest ih =>
    intro acc h
    rw [wordsGo_cons]
    by_cases hw : isWs c
    · have hr : hasSolidB rest = true := by
        rcases (hasSolidB_iff _).1 h with ⟨d, hd, hdw⟩
        rcases List.mem_cons.1 hd with he | he
        · subst he; simp [hw] at hdw
        · exact (hasSolidB_iff _).2 ⟨d, he, hdw⟩
      rw [if_pos hw]
      by_cases hemp : acc.isEmpty
      · rw [if_pos hemp]; exact ih [] hr
      · rw [if_neg hemp]; simp
    · rw [if_neg hw]
      exact wordsGo_ne_of_acc rest (c :: acc) (by simp)

theorem wordsOf_ne_of_solid {cs : List Char} (h : hasSolidB cs = true) :
    wordsOf cs ≠ [] := wordsGo_ne_of_solid cs [] h

theorem joinSp_ne {l : List (List Char)} (hl : l ≠ [])
    (h : ∀ w ∈ l, w ≠ []) : joinSp l ≠ [] := by
  cases l with
  | nil => exact absurd rfl hl
  | cons w rest =>
    cases rest with
    | nil => simpa [joinSp] using h w (by simp)
    | cons w2 r2 =>
      show w ++ ' ' :: joinSp (w2 :: r2) ≠ []
      simp

theorem joinCommaSp_ne {l : List (List Char)} (hl : l ≠ [])
    (h : ∀ w ∈ l, w ≠ []) : joinCommaSp l ≠ [] := by
  cases l with
  | nil => exact absurd rfl hl
  | cons w rest =>
    cases rest with
    | nil => simpa [joinCommaSp] using h w (by simp)
    | cons w2 r2 =>
      show w ++ ',' :: ' ' :: joinCommaSp (w2 :: r2) ≠ []
      simp

theorem joinCommaSp_ne_of_len {l : List (List Char)} (h : 1 < l.length) :
    joinCommaSp l ≠ [] := by
  cases l with
  | nil => simp at h
  | cons w rest =>
    cases rest with
    | nil => simp at h
    | cons w2 r2 =>
      show w ++ ',' :: ' ' :: joinCommaSp (w2 :: r2) ≠ []
      simp

theorem mem_joinSp {c : Char} {w : List Char} : ∀ {l : List (List Char)},
    c ∈ w → w ∈ l → c ∈ joinSp l := by
  intro l
  induction l with
  | nil => intro _ hw; exact absurd hw (by simp)
  | cons x rest ih =>
    intro hc hw
    cases rest with
    | nil =>
      rcases List.mem_cons.1 hw with he | he
      · subst he; simpa [joinSp] using hc
      · exact absurd he (by simp)
    | cons x2 r2 =>
      show c ∈ x ++ ' ' :: joinSp (x2 :: r2)
      rcases List.mem_cons.1 hw with he | he
      · subst he; exact List.mem_append_left _ hc
      · exact List.mem_append_right _ (List.mem_cons_of_mem _ (ih hc he))

theorem joinSp_solid {l : List (List Char)} (hl : l ≠ [])
    (h : ∀ w ∈ l, w ≠ [] ∧ ∀ c ∈ w, isWs c = false) :
    hasSolidB (joinSp l) = true := by
  cases l with
  | nil => exact absurd rfl hl
  | cons w rest =>
    have hw := h w (by simp)
    cases hww : w with
    | nil => exact absurd hww hw.1
    | cons c cr =>
      apply (hasSolidB_iff _).2
      refine ⟨c, mem_joinSp (w := c :: cr) (by simp) (List.mem_cons_self _ rest), ?_⟩
      exact hw.2 c (by simp [hww])

/-- A nonempty english-only (or hindi-only) projection has a solid
character: it is a space-join of nonempty whitespace-free words. -/
theorem joinSp_wordsOf_solid {cs : List Char}
    (h : joinSp (wordsOf cs) ≠ []) : hasSolidB (joinSp (wordsOf cs)) = true := by
  rcases hl : wordsOf cs with _ | ⟨w, rest⟩
  · rw [hl] at h; simp [joinSp] at h
  · rw [← hl]
    apply joinSp_solid (by simp [hl])
    intro x hx
    exact wordsOf_mem cs x hx

theorem extractEnglishOnly_solid {cs : List Char}
    (h : extractEnglishOnly cs ≠ []) :
    hasSolidB (extractEnglishOnly cs) = true := by
  unfold extractEnglishOnly at h ⊢
  exact joinSp_wordsOf_solid h

theorem extractHindiOnly_solid {cs : List Char}
    (h : extractHindiOnly cs ≠ []) :
    hasSolidB (extractHindiOnly cs) = true := by
  unfold extractHindiOnly at h ⊢
  exact joinSp_wordsOf_solid h

theorem clean_name_solid {cs : List Char}
    (h : clean_name_from_numbers cs ≠ []) :
    hasSolidB (clean_name_from_numbers cs) = true := by
  unfold clean_name_from_numbers at h ⊢
  exact solid_of_stripWs_ne h

theorem filterWords_solid {skip : List String} {cs : List Char}
    (h : filterWords skip cs ≠ []) :
    hasSolidB (filterWords skip cs) = true := by
  unfold filterWords at h ⊢
  rcases hl : (wordsOf cs).filter
      (fun w => !(skip.any (fun s => s.toList = w))) with _ | ⟨w, rest⟩
  · rw [hl] at h; simp [joinSp] at h
  · apply joinSp_solid (by simp)
    intro x hx
    rw [← hl] at hx
    exact wordsOf_mem cs x (List.mem_of_mem_filter hx)

theorem dedupCI_ne {l : List (List Char)} (h : l ≠ []) : dedupCI l ≠ [] := by
  cases l with
  | nil => exact absurd rfl h
  | cons w rest => simp [dedupCI]

theorem dedupEqGo_mem : ∀ (l : List (List Char)) (prev w : List Char),
    w ∈ dedupEqGo prev l → w ∈ l := by
  intro l
  induction l with
  | nil => intro prev w hw; simp [dedupEqGo] at hw
  | cons x xs ih =>
    intro prev w hw
    unfold dedupEqGo at hw
    split at hw
    · exact List.mem_cons_of_mem _ (ih prev w hw)
    · rcases List.mem_cons.1 hw with h | h
      · simp [h]
      · exact List.mem_cons_of_mem _ (ih x w h)

theorem dedupEq_mem (l : List (List Char)) (w : List Char)
    (hw : w ∈ dedupEq l) : w ∈ l := by
  cases l with
  | nil => simp [dedupEq] at hw
  | cons x xs =>
    unfold dedupEq at hw
    rcases List.mem_cons.1 hw with h | h
    · simp [h]
    · exact List.mem_cons_of_mem _ (dedupEqGo_mem xs x w h)

theorem dedupEq_ne {l : List (List Char)} (h : l ≠ []) : dedupEq l ≠ [] := by
  cases l with
  | nil => exact absurd rfl h
  | cons w rest => simp [dedupEq]

/-- The finished name writes of the Voter-ID extractor: a solid name string
yields a nonempty dedup-join under the case-insensitive collapse. -/
theorem joinSp_dedupCI_ne {n : List Char} (h : hasSolidB n = true) :
    joinSp (dedupCI (wordsOf n)) ≠ [] := by
  apply joinSp_ne (dedupCI_ne (wordsOf_ne_of_solid h))
  intro w hw
  exact (wordsOf_mem n w (dedupCI_mem _ w hw)).1

/-- The same for the exact-comparison collapse used on Hindi names. -/
theorem joinSp_dedupEq_ne {n : List Char} (h : hasSolidB n = true) :
    joinSp (dedupEq (wordsOf n)) ≠ [] := by
  apply joinSp_ne (dedupEq_ne (wordsOf_ne_of_solid h))
  intro w hw
  exact (wordsOf_mem n w (dedupEq_mem _ w hw)).1


/-! ### Matcher-group nonemptiness lemmas -/

theorem pCount_mem (p : Char → Bool) :
    ∀ n cs t r, pCount p n cs = some (t, r) → ∀ c ∈ t, p c = true := by
  intro n
  induction n with
  | zero =>
    intro cs t r h c hc
    simp only [pCount, Option.some.injEq, Prod.mk.injEq] at h
    rw [← h.1] at hc
    simp at hc
  | succ m ih =>
    intro cs t r h c hc
    cases cs with
    | nil => simp [pCount] at h
    | cons a rest =>
      unfold pCount at h
      by_cases ha : p a
      · rw [if_pos ha] at h
        cases hm : pCount p m rest with
        | none => rw [hm] at h; simp at h
        | some pr =>
          rw [hm] at h
          obtain ⟨t2, r2⟩ := pr
          simp only [Option.some.injEq, Prod.mk.injEq] at h
          rw [← h.1] at hc
          rcases List.mem_cons.1 hc with he | he
          · subst he; exact ha
          · exact ih rest t2 r2 hm c he
      · rw [if_neg ha] at h; simp at h

theorem orElse_some {α : Type} {a : Option α} {b : Unit → Option α} {v : α}
    (h : a.orElse b = some v) : a = some v ∨ b () = some v := by
  cases a with
  | none => right; simpa [Option.orElse] using h
  | some x => left; simpa [Option.orElse] using h

theorem delSpaces_ne_of_mem {c : Char} {g : List Char} (hc : c ∈ g)
    (hne : ¬(c = ' ')) : delSpaces g ≠ [] := by
  intro h0
  have : c ∈ delSpaces g := by
    simp only [delSpaces, List.mem_filter]
    exact ⟨hc, by simpa using hne⟩
  rw [h0] at this
  exact absurd this (by simp)

theorem upL_ne {cs : List Char} (h : cs ≠ []) : upL cs ≠ [] := by
  simpa [upL] using h

theorem voterG_ne (prev : Option Char) (cs : List Char) (g : List Char)
    (h : voterG prev cs = some g) : g ≠ [] := by
  unfold voterG at h
  simp only [bind, Option.bind_eq_some, guard, Option.some.injEq, pure] at h
  obtain ⟨u1, hu1, ⟨t1, r1⟩, h1, ⟨t2, r2⟩, h2, u2, hu2, hg⟩ := h
  have hl := pCount_len isUpperL 3 cs t1 r1 h1
  intro h0
  rw [← hg] at h0
  simp only [List.append_eq_nil] at h0
  rw [h0.1] at hl
  simp at hl

theorem pinG_ne (prev : Option Char) (cs : List Char) (g : List Char)
    (h : pinG prev cs = some g) : g ≠ [] := by
  unfold pinG at h
  simp only [bind, Option.bind_eq_some, guard, Option.some.injEq, pure] at h
  obtain ⟨u1, hu1, ⟨t1, r1⟩, h1, u2, hu2, hg⟩ := h
  have hl := pCount_len isDigitC 6 cs t1 r1 h1
  intro h0
  rw [← hg] at h0
  have h02 : t1 = [] := h0
  rw [h02] at hl
  simp at hl

theorem mobileG_ne (prev : Option Char) (cs : List Char)
    (pr : List Char × List Char) (h : mobileG prev cs = some pr) :
    pr.1 ≠ [] := by
  unfold mobileG at h
  simp only [bind, Option.bind_eq_some, guard, Option.some.injEq, pure] at h
  obtain ⟨u1, hu1, ⟨t1, r1⟩, h1, ⟨t2, r2⟩, h2, u2, hu2, hg⟩ := h
  have hl := pCount_len _ 1 cs t1 r1 h1
  intro h0
  rw [← hg] at h0
  simp only [List.append_eq_nil] at h0
  rw [h0.1] at hl
  simp at hl

theorem pAad12_delSpaces_ne (cs : List Char) (pr : List Char × List Char)
    (h : pAad12 cs = some pr) : delSpaces pr.1 ≠ [] := by
  unfold pAad12 at h
  simp only [bind, Option.bind_eq_some, Option.some.injEq, pure] at h
  obtain ⟨⟨t1, r1⟩, h1, ⟨t2, r2⟩, h2, ⟨t3, r3⟩, h3, hg⟩ := h
  have hl := pCount_len isDigitC 4 cs t1 r1 h1
  cases hc : t1 with
  | nil => rw [hc] at hl; simp at hl
  | cons c cr =>
    have hd : isDigitC c = true := pCount_mem isDigitC 4 cs t1 r1 h1 c (by simp [hc])
    apply delSpaces_ne_of_mem (c := c) _ (by simpa using (digit_ne_space c hd).mp)
    rw [← hg]
    simp [hc]

theorem pVid16_delSpaces_ne (cs : List Char) (pr : List Char × List Char)
    (h : pVid16 cs = some pr) : delSpaces pr.1 ≠ [] := by
  unfold pVid16 at h
  simp only [bind, Option.bind_eq_some, Option.some.injEq, pure] at h
  obtain ⟨⟨t1, r1⟩, h1, ⟨t2, r2⟩, h2, ⟨t3, r3⟩, h3, ⟨t4, r4⟩, h4, hg⟩ := h
  have hl := pCount_len isDigitC 4 cs t1 r1 h1
  cases hc : t1 with
  | nil => rw [hc] at hl; simp at hl
  | cons c cr =>
    have hd : isDigitC c = true := pCount_mem isDigitC 4 cs t1 r1 h1 c (by simp [hc])
    apply delSpaces_ne_of_mem (c := c) _ (by simpa using (digit_ne_space c hd).mp)
    rw [← hg]
    simp [hc]

theorem panG_ne (prev : Option Char) (cs : List Char) (g : List Char)
    (h : panG prev cs = some g) : g ≠ [] := by
  unfold panG at h
  simp only [bind, Option.bind_eq_some, guard, Option.some.injEq, pure] at h
  obtain ⟨u1, hu1, ⟨t1, r1⟩, h1, ⟨t2, r2⟩, h2, ⟨t3, r3⟩, h3, u2, hu2, hg⟩ := h
  have hl := pCount_len isUpperL 5 cs t1 r1 h1
  intro h0
  rw [← hg] at h0
  simp only [List.append_eq_nil] at h0
  rw [h0.1.1] at hl
  simp at hl

theorem extract_date_ne (cs : List Char) (d : List Char)
    (h : extract_date cs = some d) : d ≠ [] := by
  unfold extract_date at h
  cases hs : scanP dateAt none (cleanText cs) with
  | none => rw [hs] at h; simp at h
  | some g =>
    rw [hs] at h
    obtain ⟨d1, d2, y⟩ := g
    simp only [Option.some.injEq] at h
    rw [← h]
    simp

theorem pEnroll_ne (cs : List Char) (pr : List Char × List Char)
    (h : pEnroll cs = some pr) : pr.1 ≠ [] := by
  unfold pEnroll at h
  simp only [bind, Option.bind_eq_some, Option.some.injEq, pure] at h
  obtain ⟨⟨t1, r1⟩, h1, r2, h2, ⟨t3, r3⟩, h3, r4, h4, ⟨t5, r5⟩, h5, hg⟩ := h
  intro h0
  rw [← hg] at h0
  simp at h0

theorem enrollTail_ne (r : List Char) (g : List Char)
    (h : enrollTail r = some g) : g ≠ [] := by
  unfold enrollTail at h
  simp only [bind, Option.bind_eq_some, guard, Option.some.injEq, pure,
    Option.map_eq_some', pStar] at h
  obtain ⟨u1, hu1, r3, h3, ⟨t, rr⟩, ht, hg⟩ := h
  rw [← hg]
  exact pEnroll_ne _ _ ht

theorem enrollLbl1At_ne (p : Option Char) (cs : List Char) (g : List Char)
    (h : enrollLbl1At p cs = some g) : g ≠ [] := by
  unfold enrollLbl1At at h
  simp only [bind, Option.bind_eq_some] at h
  obtain ⟨r1, h1, h2⟩ := h
  cases hm : pLitCI "ment".toList r1 with
  | none => rw [hm] at h2; exact enrollTail_ne _ _ h2
  | some rm =>
    rw [hm] at h2
    rcases orElse_some h2 with h3 | h3
    · exact enrollTail_ne _ _ h3
    · exact enrollTail_ne _ _ h3

theorem enrollLbl2At_ne (p : Option Char) (cs : List Char) (g : List Char)
    (h : enrollLbl2At p cs = some g) : g ≠ [] := by
  unfold enrollLbl2At at h
  simp only [bind, Option.bind_eq_some, guard, Option.some.injEq, pure,
    Option.map_eq_some', pStar] at h
  obtain ⟨r1, h1, u1, hu1, r3, h3, ⟨t, rr⟩, ht, hg⟩ := h
  rw [← hg]
  exact pEnroll_ne _ _ ht

theorem vidLblAt_ne (p : Option Char) (cs : List Char) (g : List Char)
    (h : vidLblAt p cs = some g) : delSpaces g ≠ [] := by
  unfold vidLblAt at h
  simp only [bind, Option.bind_eq_some, Option.some.injEq, pure,
    Option.map_eq_some', pStar, pOpt] at h
  obtain ⟨r1, h1, ⟨t, rr⟩, ht, hg⟩ := h
  rw [← hg]
  exact pVid16_delSpaces_ne _ _ ht

theorem aadG_delSpaces_ne (prev : Option Char) (cs : List Char)
    (pr : List Char × List Char) (h : aadG prev cs = some pr) :
    delSpaces pr.1 ≠ [] := by
  unfold aadG at h
  simp only [bind, Option.bind_eq_some, guard, Option.some.injEq, pure] at h
  obtain ⟨u1, hu1, ⟨t, r⟩, ht, u2, hu2, hg⟩ := h
  have := pAad12_delSpaces_ne cs (t, r) ht
  rw [← hg]
  exact this

theorem dlGrpNoBdy_ne (cs : List Char) (g : List Char)
    (h : dlGrpNoBdy cs = some g) : delSpaces g ≠ [] := by
  unfold dlGrpNoBdy at h
  simp only [bind, Option.bind_eq_some, Option.some.injEq, pure, pStar] at h
  obtain ⟨⟨t1, r1⟩, h1, ⟨t2, r2⟩, h2, ⟨t3, r3⟩, h3, hg⟩ := h
  have hl := pCount_len isUpperL 2 cs t1 r1 h1
  cases hc : t1 with
  | nil => rw [hc] at hl; simp at hl
  | cons c cr =>
    have hu : isUpperL c = true := pCount_mem isUpperL 2 cs t1 r1 h1 c (by simp [hc])
    apply delSpaces_ne_of_mem (c := c) _ (by simpa using (upper_ne_space c hu).mp)
    rw [← hg]
    simp [hc]

theorem dlXP1At_ne (p : Option Char) (cs : List Char) (g : List Char)
    (h : dlXP1At p cs = some g) : delSpaces g ≠ [] := by
  unfold dlXP1At at h
  simp only [bind, Option.bind_eq_some, pStar] at h
  obtain ⟨r1, h1, r3, h3, hg⟩ := h
  exact dlGrpNoBdy_ne _ _ hg

theorem dlXP2At_ne (p : Option Char) (cs : List Char) (g : List Char)
    (h : dlXP2At p cs = some g) : delSpaces g ≠ [] := by
  unfold dlXP2At at h
  rcases orElse_some h with h | h
  · simp only [bind, Option.bind_eq_some] at h
    obtain ⟨a, ha, b, hb, h⟩ := h
    split at h
    · rcases orElse_some h with h | h <;> exact dlGrpNoBdy_ne _ _ h
    · exact dlGrpNoBdy_ne _ _ h
  · simp only [bind, Option.bind_eq_some] at h
    obtain ⟨a, ha, h⟩ := h
    split at h
    · rcases orElse_some h with h | h <;> exact dlGrpNoBdy_ne _ _ h
    · exact dlGrpNoBdy_ne _ _ h

theorem dlXP3At_ne (p : Option Char) (cs : List Char) (g : List Char)
    (h : dlXP3At p cs = some g) : delSpaces g ≠ [] := by
  unfold dlXP3At at h
  simp only [bind, Option.bind_eq_some, guard, Option.some.injEq, pure, pStar] at h
  obtain ⟨u1, hu1, ⟨t1, r1⟩, h1, t, ht, hg⟩ := h
  have hl := pCount_len isUpperL 2 cs t1 r1 h1
  cases hc : t1 with
  | nil => rw [hc] at hl; simp at hl
  | cons c cr =>
    have hu : isUpperL c = true := pCount_mem isUpperL 2 cs t1 r1 h1 c (by simp [hc])
    apply delSpaces_ne_of_mem (c := c) _ (by simpa using (upper_ne_space c hu).mp)
    rw [← hg]
    simp [hc]

theorem dlStateAt_ne (st : String) (p : Option Char) (cs : List Char)
    (g : List Char) (hst : delSpaces st.toList ≠ [])
    (h : dlStateAt st p cs = some g) : delSpaces g ≠ [] := by
  unfold dlStateAt at h
  simp only [bind, Option.bind_eq_some, guard, Option.some.injEq, pure] at h
  obtain ⟨u1, hu1, r1, h1, t, ht, hg⟩ := h
  intro h0
  rw [← hg] at h0
  unfold delSpaces at h0
  rw [List.filter_append] at h0
  simp only [List.append_eq_nil] at h0
  exact hst h0.1

theorem dlNumberOf_ne (t : List Char) (v : List Char)
    (h : dlNumberOf t = some v) : v ≠ [] := by
  unfold dlNumberOf at h
  rw [Option.map_eq_some'] at h
  obtain ⟨g, hg, hv⟩ := h
  rw [← hv]
  rcases orElse_some hg with h | hg
  · exact scanP_spec dlXP1At (fun p c a ha => dlXP1At_ne p c a ha) none t g h
  rcases orElse_some hg with h | hg
  · exact scanP_spec dlXP2At (fun p c a ha => dlXP2At_ne p c a ha) none t g h
  rcases orElse_some hg with h | hg
  · exact scanP_spec dlXP3At (fun p c a ha => dlXP3At_ne p c a ha) none t g h
  rcases orElse_some hg with h | hg
  · exact scanP_spec (dlStateAt "MH")
      (fun p c a ha => dlStateAt_ne "MH" p c a (by decide) ha) none t g h
  rcases orElse_some hg with h | hg
  · exact scanP_spec (dlStateAt "KA")
      (fun p c a ha => dlStateAt_ne "KA" p c a (by decide) ha) none t g h
  · exact scanP_spec (dlStateAt "DL")
      (fun p c a ha => dlStateAt_ne "DL" p c a (by decide) ha) none t g hg

theorem dlExtG_ne (p : Option Char) (cs : List Char) (g : List Char)
    (h : dlExtG p cs = some g) : delSpaces g ≠ [] := by
  unfold dlExtG at h
  simp only [bind, Option.bind_eq_some, guard, Option.some.injEq, pure, pStar] at h
  obtain ⟨u1, hu1, ⟨t1, r1⟩, h1, h⟩ := h
  have hl := pCount_len isUpperL 2 cs t1 r1 h1
  cases hc : t1 with
  | nil => rw [hc] at hl; simp at hl
  | cons c cr =>
    have hu : isUpperL c = true := pCount_mem isUpperL 2 cs t1 r1 h1 c (by simp [hc])
    split at h <;>
    · simp only [bind, Option.bind_eq_some, Option.some.injEq] at h
      obtain ⟨u2, hu2, hg⟩ := h
      apply delSpaces_ne_of_mem (c := c) _ (by simpa using (upper_ne_space c hu).mp)
      rw [← hg]
      simp [hc]

theorem sixDigitsAt_ne (p : Option Char) (cs : List Char) (g : List Char)
    (h : sixDigitsAt p cs = some g) : g ≠ [] := by
  unfold sixDigitsAt at h
  rw [Option.map_eq_some'] at h
  obtain ⟨⟨t, r⟩, ht, hv⟩ := h
  have hl := pCount_len isDigitC 6 cs t r ht
  rw [← hv]
  intro h0
  have h02 : t = [] := h0
  rw [h02] at hl
  simp at hl

theorem emailAt_ne (p : Option Char) (cs : List Char) (g : List Char)
    (h : emailAt p cs = some g) : g ≠ [] := by
  unfold emailAt at h
  simp only [bind, Option.bind_eq_some, guard, Option.some.injEq, pure, pStar] at h
  obtain ⟨u1, hu1, r2, h2, h⟩ := h
  split at h
  · simp only [Option.some.injEq] at h
    rw [← h]
    simp
  · simp at h

theorem natToStr_ne (n : Nat) : natToStr n ≠ [] := by
  unfold natToStr
  split
  · simp
  · split <;> simp

theorem guard_some_cond {P : Prop} [Decidable P] {u : Unit}
    (h : (if P then (pure () : Option Unit) else failure) = some u) : P := by
  by_cases hp : P
  · exact hp
  · rw [if_neg hp] at h
    exact Option.noConfusion h

theorem upL_stripWs_letters_ne {g : List Char} (hne : g ≠ [])
    (hall : ∀ c ∈ g, isLetterC c = true) : upL (stripWs g) ≠ [] := by
  apply upL_ne
  apply stripWs_ne_of_solid
  cases g with
  | nil => exact absurd rfl hne
  | cons c cr =>
    exact (hasSolidB_iff _).2 ⟨c, by simp, isWs_of_letter c (hall c (by simp))⟩

theorem guardB_some_cond {b : Bool} {u : Unit}
    (h : guard (b = true) = some u) : b = true := by
  by_cases hb : b = true
  · exact hb
  · unfold guard at h
    rw [if_neg hb] at h
    exact Option.noConfusion h

theorem dlTalExtractAt_val (p : Option Char) (cs : List Char) (g : List Char)
    (h : dlTalExtractAt p cs = some g) : upL (stripWs g) ≠ [] := by
  unfold dlTalExtractAt at h
  simp only [bind, Option.bind_eq_some] at h
  obtain ⟨r1, h1, u1, hu1, u2, hu2, hg⟩ := h
  have hcond := guardB_some_cond hu2
  simp only [pure, Option.some.injEq] at hg
  rw [← hg]
  apply upL_stripWs_letters_ne
  · simpa [List.isEmpty_iff, pStar] using hcond
  · intro c hc
    exact List.mem_takeWhile_imp (by simpa [pStar] using hc)

theorem dlDistExtractAt_val (p : Option Char) (cs : List Char) (g : List Char)
    (h : dlDistExtractAt p cs = some g) : upL (stripWs g) ≠ [] := by
  unfold dlDistExtractAt at h
  simp only [bind, Option.bind_eq_some] at h
  obtain ⟨r1, h1, h⟩ := h
  have hfin : ∀ (r0 : List Char),
      (do
        let (w, r2) := pStar (fun c => c = ':' || isWs c) r0
        guard (!w.isEmpty)
        let (g0, _) := pStar isLetterC r2
        guard (!g0.isEmpty)
        pure g0 : Option (List Char)) = some g → upL (stripWs g) ≠ [] := by
    intro r0 hh
    simp only [bind, Option.bind_eq_some] at hh
    obtain ⟨u1, hu1, u2, hu2, hg⟩ := hh
    have hcond := guardB_some_cond hu2
    simp only [pure, Option.some.injEq] at hg
    rw [← hg]
    apply upL_stripWs_letters_ne
    · simpa [List.isEmpty_iff, pStar] using hcond
    · intro c hc
      exact List.mem_takeWhile_imp (by simpa [pStar] using hc)
  split at h
  · rcases orElse_some h with h | h
    · exact hfin _ h
    · split at h
      · rcases orElse_some h with h | h
        · exact hfin _ h
        · exact hfin _ h
      · exact hfin _ h
  · exact hfin _ h

theorem aadGenderPick_mem (t : List Char) :
    ∀ (l : List ((List Char → Bool) × String × String)) (p : String × String),
      aadGenderPick t l = some p → p ∈ l.map Prod.snd := by
  intro l
  induction l with
  | nil => intro p hp; simp [aadGenderPick] at hp
  | cons x xs ih =>
    intro p hp
    unfold aadGenderPick at hp
    split at hp
    · split at hp
      · split at hp
        · simp only [Option.some.injEq] at hp
          simp [← hp]
        · simpa using Or.inr (by simpa using ih p hp)
      · simp only [Option.some.injEq] at hp
        simp [← hp]
    · simpa using Or.inr (by simpa using ih p hp)

theorem aadGender_ne (t : List Char) (p : String × String)
    (h : aadGender t = some p) : p.1.toList ≠ [] ∧ p.2.toList ≠ [] := by
  have hm := aadGenderPick_mem t _ p h
  simp only [List.map_cons, List.map_nil, List.mem_cons] at hm
  rcases hm with h | h | h | h | h | h | h
  · rw [h]; exact ⟨by decide, by decide⟩
  · rw [h]; exact ⟨by decide, by decide⟩
  · rw [h]; exact ⟨by decide, by decide⟩
  · rw [h]; exact ⟨by decide, by decide⟩
  · rw [h]; exact ⟨by decide, by decide⟩
  · rw [h]; exact ⟨by decide, by decide⟩
  · exact absurd h (by simp)

theorem voterSearch_ne (cs : List Char) (g : List Char)
    (h : voterSearch cs = some g) : g ≠ [] :=
  scanP_spec voterG (fun p c a ha => voterG_ne p c a ha) none cs g h

theorem panSearch_ne (cs : List Char) (g : List Char)
    (h : panSearch cs = some g) : g ≠ [] :=
  scanP_spec panG (fun p c a ha => panG_ne p c a ha) none cs g h

theorem pinSearch_ne (cs : List Char) (g : List Char)
    (h : pinSearch cs = some g) : g ≠ [] :=
  scanP_spec pinG (fun p c a ha => pinG_ne p c a ha) none cs g h

theorem mobileSearch_ne (cs : List Char) (g : List Char)
    (h : mobileSearch cs = some g) : g ≠ [] := by
  unfold mobileSearch at h
  rw [Option.map_eq_some'] at h
  obtain ⟨pr, hpr, hv⟩ := h
  rw [← hv]
  exact scanP_spec mobileG (fun p c a ha => mobileG_ne p c a ha) none cs pr hpr

theorem dlExtSearch_ne (cs : List Char) (g : List Char)
    (h : dlExtSearch cs = some g) : delSpaces g ≠ [] :=
  scanP_spec dlExtG (fun p c a ha => dlExtG_ne p c a ha) none cs g h

theorem vidLblSearch_ne (cs : List Char) (g : List Char)
    (h : scanP vidLblAt none cs = some g) : delSpaces g ≠ [] :=
  scanP_spec vidLblAt (fun p c a ha => vidLblAt_ne p c a ha) none cs g h

theorem enrollSearch_ne (cs : List Char) (g : List Char)
    (h : ((scanP enrollLbl1At none cs).orElse
        (fun _ => scanP enrollLbl2At none cs)) = some g) : g ≠ [] := by
  rcases orElse_some h with h | h
  · exact scanP_spec enrollLbl1At (fun p c a ha => enrollLbl1At_ne p c a ha) none cs g h
  · exact scanP_spec enrollLbl2At (fun p c a ha => enrollLbl2At_ne p c a ha) none cs g h

theorem aadGSearch_ne (cs : List Char) (pr : List Char × List Char)
    (h : scanP aadG none cs = some pr) : delSpaces pr.1 ≠ [] :=
  scanP_spec aadG (fun p c a ha => aadG_delSpaces_ne p c a ha) none cs pr h

theorem sixDigitsSearch_ne (cs : List Char) (g : List Char)
    (h : scanP sixDigitsAt none cs = some g) : g ≠ [] :=
  scanP_spec sixDigitsAt (fun p c a ha => sixDigitsAt_ne p c a ha) none cs g h

theorem emailSearch_ne (cs : List Char) (g : List Char)
    (h : scanP emailAt none cs = some g) : lowL g ≠ [] := by
  have := scanP_spec emailAt (fun p c a ha => emailAt_ne p c a ha) none cs g h
  simpa [lowL] using this

theorem dlTalSearch_val (cs : List Char) (g : List Char)
    (h : scanP dlTalExtractAt none cs = some g) : upL (stripWs g) ≠ [] :=
  scanP_spec dlTalExtractAt (fun p c a ha => dlTalExtractAt_val p c a ha) none cs g h

theorem dlDistSearch_val (cs : List Char) (g : List Char)
    (h : scanP dlDistExtractAt none cs = some g) : upL (stripWs g) ≠ [] :=
  scanP_spec dlDistExtractAt (fun p c a ha => dlDistExtractAt_val p c a ha) none cs g h


/-! ### Per-extractor no-empty-value lemmas -/

theorem stringMk_ne {d : List Char} (h : d ≠ []) : String.mk d ≠ "" := by
  intro he
  exact h (congrArg String.data he)

/-- Peeling a conditional write: either the entry is the fresh field, whose
value is nonempty by the hypothesis on the matcher, or it was already
present. -/
theorem mem_setOpt {α : Type} {info : Info} {k : String} {X : Option α}
    {f : α → List Char} {p : String × String}
    (hinfo : p ∈ info → p.2 ≠ "")
    (hf : ∀ a, X = some a → f a ≠ [])
    (hp : p ∈ setOpt info k X f) : p.2 ≠ "" := by
  unfold setOpt at hp
  cases X with
  | some a =>
    rcases mem_setF _ _ _ hp with he | hm
    · rw [he]; exact stringMk_ne (hf a rfl)
    · exact hinfo hm
  | none => exact hinfo hp

theorem mem_setOpt2 {α : Type} {info : Info} {k1 k2 : String} {X : Option α}
    {f : α → List Char} {p : String × String}
    (hinfo : p ∈ info → p.2 ≠ "")
    (hf : ∀ a, X = some a → f a ≠ [])
    (hp : p ∈ setOpt2 info k1 k2 X f) : p.2 ≠ "" := by
  unfold setOpt2 at hp
  cases X with
  | some a =>
    rcases mem_setF _ _ _ hp with he | hm
    · rw [he]; exact stringMk_ne (hf a rfl)
    · rcases mem_setF _ _ _ hm with he | hm
      · rw [he]; exact stringMk_ne (hf a rfl)
      · exact hinfo hm
  | none => exact hinfo hp

theorem mem_setOptNE {info : Info} {k : String} {X : Option (List Char)}
    {f : List Char → List Char} {p : String × String}
    (hinfo : p ∈ info → p.2 ≠ "")
    (hf : ∀ v, X = some v → v ≠ [] → f v ≠ [])
    (hp : p ∈ setOptNE info k X f) : p.2 ≠ "" := by
  unfold setOptNE at hp
  cases X with
  | some v =>
    dsimp only at hp
    by_cases hv : v.isEmpty
    · rw [if_pos hv] at hp; exact hinfo hp
    · rw [if_neg hv] at hp
      rcases mem_setF _ _ _ hp with he | hm
      · rw [he]
        exact stringMk_ne (hf v rfl (by simpa [List.isEmpty_iff] using hv))
      · exact hinfo hm
  | none => exact hinfo hp

theorem mem_setOpt2NE {info : Info} {k1 k2 : String} {X : Option (List Char)}
    {p : String × String}
    (hinfo : p ∈ info → p.2 ≠ "")
    (hp : p ∈ setOpt2NE info k1 k2 X) : p.2 ≠ "" := by
  unfold setOpt2NE at hp
  cases X with
  | some v =>
    dsimp only at hp
    by_cases hv : v.isEmpty
    · rw [if_pos hv] at hp; exact hinfo hp
    · rw [if_neg hv] at hp
      have hvne : v ≠ [] := by simpa [List.isEmpty_iff] using hv
      rcases mem_setF _ _ _ hp with he | hm
      · rw [he]; exact stringMk_ne hvne
      · rcases mem_setF _ _ _ hm with he | hm
        · rw [he]; exact stringMk_ne hvne
        · exact hinfo hm
  | none => exact hinfo hp

theorem mem_setOptOK {info : Info} {k : String} {X : Option (List Char)}
    {f : List Char → List Char} {ok : List Char → Bool} {p : String × String}
    (hinfo : p ∈ info → p.2 ≠ "")
    (hf : ∀ g, ok (f g) = true → f g ≠ [])
    (hp : p ∈ setOptOK info k X f ok) : p.2 ≠ "" := by
  unfold setOptOK at hp
  cases X with
  | some g =>
    dsimp only at hp
    by_cases hok : ok (f g) = true
    · rw [if_pos hok] at hp
      rcases mem_setF _ _ _ hp with he | hm
      · rw [he]; exact stringMk_ne (hf g hok)
      · exact hinfo hm
    · rw [if_neg hok] at hp; exact hinfo hp
  | none => exact hinfo hp

theorem mem_ite_info {c : Prop} [Decidable c] {info1 info2 : Info}
    {p : String × String}
    (h1 : c → p ∈ info1 → p.2 ≠ "") (h2 : p ∈ info2 → p.2 ≠ "")
    (hp : p ∈ (if c then info1 else info2)) : p.2 ≠ "" := by
  split at hp
  · exact h1 (by assumption) hp
  · exact h2 hp

/-- The generic fallback never stores an empty value. -/
theorem extract_generic_mem (t : List Char) (p : String × String)
    (hp : p ∈ extract_generic t) : p.2 ≠ "" := by
  unfold extract_generic at hp
  apply mem_setOpt ?hin5 (fun d hd => extract_date_ne _ _ hd) hp
  intro hp
  apply mem_setOpt ?hin4 (fun g hg => dlExtSearch_ne _ _ hg) hp
  intro hp
  apply mem_setOpt ?hin3 (fun g hg => voterSearch_ne _ _ hg) hp
  intro hp
  apply mem_setOpt ?hin2 (fun pr hpr => aadGSearch_ne _ _ hpr) hp
  intro hp
  apply mem_setOpt ?hin1 (fun g hg => panSearch_ne _ _ hg) hp
  intro hp
  exact absurd hp (by simp)

/-- A conditional write guarded by a label test: the write happens only when
the label matched, otherwise the mapping is unchanged. -/
theorem mem_ite_setOpt {c : Prop} [Decidable c] {α : Type} {info : Info}
    {k : String} {X : Option α} {f : α → List Char} {p : String × String}
    (hf : ∀ a, X = some a → f a ≠ [])
    (hinfo : p ∈ info → p.2 ≠ "")
    (hp : p ∈ (if c then setOpt info k X f else info)) : p.2 ≠ "" := by
  split at hp
  · exact mem_setOpt hinfo hf hp
  · exact hinfo hp

theorem mem_ite_setOptOK {c : Prop} [Decidable c] {info : Info}
    {k : String} {X : Option (List Char)} {f : List Char → List Char}
    {ok : List Char → Bool} {p : String × String}
    (hf : ∀ g, ok (f g) = true → f g ≠ [])
    (hinfo : p ∈ info → p.2 ≠ "")
    (hp : p ∈ (if c then setOptOK info k X f ok else info)) : p.2 ≠ "" := by
  split at hp
  · exact mem_setOptOK hinfo hf hp
  · exact hinfo hp

theorem dlInfoStep_mem (line ll : List Char) (info : Info)
    (p : String × String) (hinfo : p ∈ info → p.2 ≠ "")
    (hp : p ∈ dlInfoStep line ll info) : p.2 ≠ "" := by
  unfold dlInfoStep at hp
  apply mem_ite_setOpt (fun d hd => extract_date_ne _ _ hd) ?_ hp
  intro hp
  apply mem_ite_setOpt (fun d hd => extract_date_ne _ _ hd) ?_ hp
  intro hp
  apply mem_ite_setOpt (fun d hd => extract_date_ne _ _ hd) ?_ hp
  intro hp
  apply mem_ite_setOpt (fun g hg => dlDistSearch_val _ _ hg) ?_ hp
  intro hp
  apply mem_ite_setOpt (fun g hg => dlTalSearch_val _ _ hg) ?_ hp
  intro hp
  apply mem_ite_setOptOK ?okv ?_ hp
  case okv =>
    intro g hok
    have hne : ¬(extractEnglishOnly (stripWs g)).isEmpty = true := by
      intro hemp
      rw [hemp] at hok
      simp at hok
    simpa [List.isEmpty_iff] using hne
  intro hp
  exact hinfo hp

theorem dlStep_info_mem (lines : List (List Char)) (st : DlState) (i : Nat)
    (p : String × String) (hinfo : p ∈ st.info → p.2 ≠ "")
    (hp : p ∈ (dlStep lines st i).info) : p.2 ≠ "" := by
  unfold dlStep at hp
  dsimp only at hp
  split at hp
  · exact hinfo hp
  · split at hp
    · exact hinfo hp
    · exact dlInfoStep_mem _ _ _ _ hinfo hp

theorem extract_driving_license_mem (t : List Char) (lines : List (List Char))
    (p : String × String) (hp : p ∈ extract_driving_license t lines) :
    p.2 ≠ "" := by
  unfold extract_driving_license at hp
  dsimp only at hp
  have hst : ∀ q : String × String,
      q ∈ ((List.range lines.length).foldl (dlStep lines)
        ⟨none, none, setOpt2 ([] : Info) "document_id" "dl_number"
          (dlNumberOf (upL t)) (fun v => v)⟩ : DlState).info → q.2 ≠ "" := by
    have := foldl_preserve
      (fun st : DlState => ∀ q : String × String, q ∈ st.info → q.2 ≠ "")
      (dlStep lines) (List.range lines.length)
      ⟨none, none, setOpt2 ([] : Info) "document_id" "dl_number"
        (dlNumberOf (upL t)) (fun v => v)⟩
      (by
        intro q hq
        apply mem_setOpt2 (fun hq0 => absurd hq0 (by simp))
          (fun a ha => dlNumberOf_ne _ _ ha) hq)
      (fun s a hs q hq => dlStep_info_mem lines s a q (hs q) hq)
    exact this
  apply mem_ite_info ?hfull ?hrest hp
  case hfull =>
    intro hlen hp
    rcases mem_setF _ _ _ hp with he | hm
    · rw [he]
      exact stringMk_ne (joinCommaSp_ne_of_len hlen)
    · exact ?hrest hm
  case hrest =>
    intro hp
    apply mem_setOptNE ?f2 (fun v _ hv => hv) hp
    case f2 =>
      intro hp
      apply mem_setOptNE ?f1 (fun v _ hv => hv) hp
      case f1 =>
        intro hp
        exact hst p hp

theorem upL_solid_of_ne {cs : List Char}
    (h : clean_name_from_numbers cs ≠ []) :
    hasSolidB (upL (clean_name_from_numbers cs)) = true :=
  hasSolidB_upL (clean_name_solid h)

theorem panFatherNextLines_parts (lines : List (List Char)) (i : Nat)
    (fh0 : Option (List Char)) :
    ∀ w ∈ (panFatherNextLines lines i fh0).1, w ≠ [] ∧ hasSolidB w = true := by
  unfold panFatherNextLines
  dsimp only
  apply foldl_preserve
    (fun st : List (List Char) × Option (List Char) × Bool =>
      ∀ w ∈ st.1, w ≠ [] ∧ hasSolidB w = true)
  · intro w hw; exact absurd hw (by simp)
  · intro s a hs
    dsimp only
    split
    · exact hs
    · split
      · exact hs
      · split
        · exact hs
        · dsimp only
          split
          · rename_i hcond
            intro w hw
            rcases List.mem_append.1 hw with hw | hw
            · exact hs w hw
            · have he : w = upL (clean_name_from_numbers
                  (extractEnglishOnly (stripWs (lines.getD (i + a) [])))) := by
                simpa using hw
              rw [he]
              constructor
              · apply upL_ne
                intro h0
                rw [h0] at hcond
                simp at hcond
              · apply upL_solid_of_ne
                intro h0
                rw [h0] at hcond
                simp at hcond
          · exact hs

theorem joinSp_solid_of_mem {l : List (List Char)} {w : List Char}
    (hw : w ∈ l) (hsol : hasSolidB w = true) : hasSolidB (joinSp l) = true := by
  rcases (hasSolidB_iff w).1 hsol with ⟨c, hc, hcw⟩
  exact (hasSolidB_iff _).2 ⟨c, mem_joinSp hc hw, hcw⟩

theorem clean_name_or (x : List Char) :
    clean_name_from_numbers x = [] ∨ hasSolidB (clean_name_from_numbers x) = true := by
  by_cases h : clean_name_from_numbers x = []
  · exact Or.inl h
  · exact Or.inr (clean_name_solid h)

theorem joinSp_panParts_solid (lines : List (List Char)) (i : Nat)
    (fh : Option (List Char))
    (hne : (panFatherNextLines lines i fh).1 ≠ []) :
    hasSolidB (joinSp (panFatherNextLines lines i fh).1) = true := by
  rcases hl : (panFatherNextLines lines i fh).1 with _ | ⟨w, rest⟩
  · exact absurd hl hne
  · have hmem := panFatherNextLines_parts lines i fh w (by rw [hl]; simp)
    exact joinSp_solid_of_mem (List.mem_cons_self w rest) hmem.2

theorem panTryName_shape (line : List Char)
    (pat : Option Char → List Char → Option (List Char))
    (cur : Option (List Char))
    (hc : ∀ n, cur = some n → n = [] ∨ hasSolidB n = true) :
    ∀ n, panTryName line pat cur = some n → n = [] ∨ hasSolidB n = true := by
  intro n hEq
  unfold panTryName at hEq
  split at hEq
  · exact hc n hEq
  · split at hEq
    · dsimp only at hEq
      split at hEq
      · injection hEq with hv
        rw [← hv]
        exact clean_name_or _
      · exact absurd hEq (by simp)
    · exact absurd hEq (by simp)

theorem panTryFather_shape (line : List Char)
    (pat : Option Char → List Char → Option (List Char))
    (cur : Option (List Char))
    (hc : ∀ n, cur = some n → n = [] ∨ hasSolidB n = true) :
    ∀ n, panTryFather line pat cur = some n → n = [] ∨ hasSolidB n = true := by
  intro n hEq
  unfold panTryFather at hEq
  split at hEq
  · exact hc n hEq
  · split at hEq
    · dsimp only at hEq
      split at hEq
      · rename_i hcond
        injection hEq with hv
        rw [← hv]
        right
        apply hasSolidB_upL
        apply clean_name_solid
        intro h0
        rw [h0] at hcond
        simp at hcond
      · exact absurd hEq (by simp)
    · exact absurd hEq (by simp)

theorem panNameUpdate_fst (lines : List (List Char)) (i : Nat)
    (line : List Char) (name0 nameH0 : Option (List Char))
    (hn0 : ∀ n, name0 = some n → n = [] ∨ hasSolidB n = true) :
    ∀ n, (panNameUpdate lines i line name0 nameH0).1 = some n →
      n = [] ∨ hasSolidB n = true := by
  intro n hEq
  unfold panNameUpdate at hEq
  dsimp only at hEq
  have hname : ∀ m, (match panTryName line panNameP2At
        (panTryName line panNameP1At none) with
      | some v => some v
      | none => name0) = some m → m = [] ∨ hasSolidB m = true := by
    intro m hm
    split at hm
    · rename_i v hv
      injection hm with hm2
      rw [← hm2]
      exact panTryName_shape line panNameP2At _
        (panTryName_shape line panNameP1At none (by intro x hx; cases hx)) v hv
    · exact hn0 m hm
  split at hEq
  · split at hEq
    · rename_i hcond
      injection hEq with hv
      right
      rw [← hv]
      apply hasSolidB_upL
      apply clean_name_solid
      intro h0
      rw [h0] at hcond
      simp at hcond
    · exact hname n hEq
  · exact hname n hEq

theorem panFatherUpdate_fst (lines : List (List Char)) (i : Nat)
    (line : List Char) (father0 fatherH0 : Option (List Char))
    (hf0 : ∀ n, father0 = some n → n = [] ∨ hasSolidB n = true) :
    ∀ n, (panFatherUpdate lines i line father0 fatherH0).1 = some n →
      n = [] ∨ hasSolidB n = true := by
  intro n hEq
  unfold panFatherUpdate at hEq
  dsimp only at hEq
  have hfa : ∀ m, (match panTryFather line panFatherP2At
        (panTryFather line panFatherP1At none) with
      | some v => some v
      | none => father0) = some m → m = [] ∨ hasSolidB m = true := by
    intro m hm
    split at hm
    · rename_i v hv
      injection hm with hm2
      rw [← hm2]
      exact panTryFather_shape line panFatherP2At _
        (panTryFather_shape line panFatherP1At none (by intro x hx; cases hx)) v hv
    · exact hf0 m hm
  split at hEq
  · dsimp only at hEq
    repeat' split at hEq
    all_goals
      first
      | exact hfa n hEq
      | exact hf0 n hEq
      | (rename_i hparts
         injection hEq with hv
         right
         rw [← hv]
         apply joinSp_panParts_solid
         intro h0
         rw [h0] at hparts
         simp at hparts)
      | (rename_i v hv
         injection hEq with h2
         rw [← h2]
         exact panTryFather_shape line panFatherP2At _
           (panTryFather_shape line panFatherP1At none
             (by intro x hx; cases hx)) v hv)
  · exact hfa n hEq

theorem panStep_inv (lines : List (List Char)) (st : PanState) (i : Nat)
    (hn : ∀ n, st.name = some n → n = [] ∨ hasSolidB n = true)
    (hf : ∀ n, st.father = some n → n = [] ∨ hasSolidB n = true) :
    (∀ n, (panStep lines st i).name = some n → n = [] ∨ hasSolidB n = true) ∧
    (∀ n, (panStep lines st i).father = some n → n = [] ∨ hasSolidB n = true) := by
  unfold panStep
  dsimp only
  split
  · exact ⟨hn, hf⟩
  split
  · exact ⟨panNameUpdate_fst lines i _ st.name st.nameH hn, hf⟩
  split
  · exact ⟨hn, panFatherUpdate_fst lines i _ st.father st.fatherH hf⟩
  split
  · constructor <;> intro n hEq <;> (repeat' split at hEq) <;>
      first
        | exact hn n hEq
        | exact hf n hEq
  · exact ⟨hn, hf⟩

theorem extract_pan_mem (t : List Char) (lines : List (List Char))
    (p : String × String) (hp : p ∈ extract_pan t lines) : p.2 ≠ "" := by
  unfold extract_pan at hp
  dsimp only at hp
  have hst := foldl_preserve
    (fun st : PanState =>
      (∀ n, st.name = some n → n = [] ∨ hasSolidB n = true) ∧
      (∀ n, st.father = some n → n = [] ∨ hasSolidB n = true))
    (panStep lines) (List.range lines.length)
    ⟨none, none, none, none, none⟩
    (by
      constructor
      · intro n hn2; cases hn2
      · intro n hn2; cases hn2)
    (fun s a hs => panStep_inv lines s a hs.1 hs.2)
  apply mem_setOptNE ?k5 (fun v _ hv => hv) hp
  case k5 =>
    intro hp
    apply mem_setOptNE ?k4 (fun v _ hv => hv) hp
    case k4 =>
      intro hp
      apply mem_setOptNE ?k3 ?vf hp
      case vf =>
        intro v hsome hne
        rcases hst.2 v hsome with h0 | hsol
        · exact absurd h0 hne
        · exact stripWs_collapseWs_ne hsol
      case k3 =>
        intro hp
        apply mem_setOptNE ?k2 (fun v _ hv => hv) hp
        case k2 =>
          intro hp
          apply mem_setOptNE ?k1 ?vn hp
          case vn =>
            intro v hsome hne
            rcases hst.1 v hsome with h0 | hsol
            · exact absurd h0 hne
            · exact stripWs_collapseWs_ne hsol
          case k1 =>
            intro hp
            apply mem_setOpt2 ?k0 (fun a ha => panSearch_ne _ _ ha) hp
            case k0 =>
              intro hp
              exact absurd hp (by simp)


theorem voterPass1_inv (st : Option (List Char) × Option (List Char))
    (line : List Char)
    (h1 : ∀ n, st.1 = some n → hasSolidB n = true)
    (h2 : ∀ n, st.2 = some n → hasSolidB n = true) :
    (∀ n, (voterPass1Step st line).1 = some n → hasSolidB n = true) ∧
    (∀ n, (voterPass1Step st line).2 = some n → hasSolidB n = true) := by
  obtain ⟨nameH, fatherH⟩ := st
  unfold voterPass1Step
  dsimp only at h1 h2 ⊢
  split
  · exact ⟨h1, h2⟩
  · constructor
    · intro n hEq
      dsimp only at hEq
      repeat' split at hEq
      all_goals
        first
        | exact h1 n hEq
        | (rename_i hcond
           injection hEq with hv
           rw [← hv]
           apply extractHindiOnly_solid
           intro h0
           rw [h0] at hcond
           simp at hcond)
    · intro n hEq
      dsimp only at hEq
      repeat' split at hEq
      all_goals
        first
        | exact h2 n hEq
        | (rename_i hcond
           injection hEq with hv
           rw [← hv]
           apply extractHindiOnly_solid
           intro h0
           rw [h0] at hcond
           simp at hcond)

theorem voterPass2_inv (st : Option (List Char) × Option (List Char) × Info)
    (line : List Char)
    (h1 : ∀ n, st.1 = some n → hasSolidB n = true)
    (h2 : ∀ n, st.2.1 = some n → hasSolidB n = true)
    (h3 : ∀ q : String × String, q ∈ st.2.2 → q.2 ≠ "") :
    (∀ n, (voterPass2Step st line).1 = some n → hasSolidB n = true) ∧
    (∀ n, (voterPass2Step st line).2.1 = some n → hasSolidB n = true) ∧
    (∀ q : String × String, q ∈ (voterPass2Step st line).2.2 → q.2 ≠ "") := by
  obtain ⟨name, father, info⟩ := st
  unfold voterPass2Step
  dsimp only at h1 h2 h3 ⊢
  split
  · exact ⟨h1, h2, h3⟩
  · split
    · refine ⟨?_, h2, h3⟩
      intro n hEq
      dsimp only at hEq
      repeat' split at hEq
      all_goals
        first
        | exact h1 n hEq
        | (rename_i hcond
           injection hEq with hv
           rw [← hv]
           apply hasSolidB_titleL
           apply extractEnglishOnly_solid
           intro h0
           rw [h0] at hcond
           simp at hcond)
    · split
      · refine ⟨h1, ?_, h3⟩
        intro n hEq
        dsimp only at hEq
        repeat' split at hEq
        all_goals
          first
          | exact h2 n hEq
          | (rename_i hcond
             injection hEq with hv
             rw [← hv]
             apply hasSolidB_titleL
             apply extractEnglishOnly_solid
             intro h0
             rw [h0] at hcond
             simp at hcond)
      · split
        · refine ⟨h1, h2, ?_⟩
          intro q hq
          exact mem_setOpt (h3 q) (fun d hd => extract_date_ne _ _ hd) hq
        · split
          · split
            · refine ⟨h1, h2, ?_⟩
              intro q hq
              rcases mem_setF _ _ _ hq with he | hq
              · rw [he]; exact stringMk_ne (by decide)
              · rcases mem_setF _ _ _ hq with he | hq
                · rw [he]; exact stringMk_ne (by decide)
                · exact h3 q hq
            · split
              · refine ⟨h1, h2, ?_⟩
                intro q hq
                rcases mem_setF _ _ _ hq with he | hq
                · rw [he]; exact stringMk_ne (by decide)
                · rcases mem_setF _ _ _ hq with he | hq
                  · rw [he]; exact stringMk_ne (by decide)
                  · exact h3 q hq
              · exact ⟨h1, h2, h3⟩
          · exact ⟨h1, h2, h3⟩

theorem extract_voter_id_mem (t : List Char) (lines : List (List Char))
    (p : String × String) (hp : p ∈ extract_voter_id t lines) : p.2 ≠ "" := by
  unfold extract_voter_id at hp
  dsimp only at hp
  rcases hp2 : lines.foldl voterPass2Step
      (none, none,
        setOpt2 ([] : Info) "document_id" "voter_id" (voterSearch (upL t))
          (fun g => g)) with ⟨name, father, info1⟩
  rw [hp2] at hp
  dsimp only at hp
  have hinv := foldl_preserve
    (fun st : Option (List Char) × Option (List Char) × Info =>
      (∀ n, st.1 = some n → hasSolidB n = true) ∧
      (∀ n, st.2.1 = some n → hasSolidB n = true) ∧
      (∀ q : String × String, q ∈ st.2.2 → q.2 ≠ ""))
    voterPass2Step lines
    (none, none,
      setOpt2 ([] : Info) "document_id" "voter_id" (voterSearch (upL t))
        (fun g => g))
    (by
      refine ⟨?_, ?_, ?_⟩
      · intro n hn2; cases hn2
      · intro n hn2; cases hn2
      · intro q hq
        exact mem_setOpt2 (fun h0 => absurd h0 (by simp))
          (fun a ha => voterSearch_ne _ _ ha) hq)
    (fun s a hs => voterPass2_inv s a hs.1 hs.2.1 hs.2.2)
  rw [hp2] at hinv
  have hinv1 := foldl_preserve
    (fun st : Option (List Char) × Option (List Char) =>
      (∀ n, st.1 = some n → hasSolidB n = true) ∧
      (∀ n, st.2 = some n → hasSolidB n = true))
    voterPass1Step lines (none, none)
    (by
      constructor
      · intro n hn2; cases hn2
      · intro n hn2; cases hn2)
    (fun s a hs => voterPass1_inv s a hs.1 hs.2)
  rcases hp1 : lines.foldl voterPass1Step (none, none) with ⟨nameH, fatherH⟩
  rw [hp1] at hp hinv1
  dsimp only at hp hinv1
  apply mem_setOptNE ?k4 ?f4 hp
  case f4 =>
    intro v hsome hne
    exact joinSp_dedupEq_ne (hinv1.2 v hsome)
  case k4 =>
    intro hp
    apply mem_setOptNE ?k3 ?f3 hp
    case f3 =>
      intro v hsome hne
      exact joinSp_dedupCI_ne (hinv.2.1 v hsome)
    case k3 =>
      intro hp
      apply mem_setOptNE ?k2 ?f2 hp
      case f2 =>
        intro v hsome hne
        exact joinSp_dedupEq_ne (hinv1.1 v hsome)
      case k2 =>
        intro hp
        apply mem_setOptNE ?k1 ?f1 hp
        case f1 =>
          intro v hsome hne
          exact joinSp_dedupCI_ne (hinv.1 v hsome)
        case k1 =>
          intro hp
          exact hinv.2.2 p hp

theorem aadAddrStep_inv (sn : List Char) (nh : Option (List Char))
    (st : AadAddrState) (line : List Char)
    (hE : ∀ w ∈ st.addrE, w ≠ []) (hH : ∀ w ∈ st.addrH, w ≠ []) :
    (∀ w ∈ (aadAddrStep sn nh st line).addrE, w ≠ []) ∧
    (∀ w ∈ (aadAddrStep sn nh st line).addrH, w ≠ []) := by
  unfold aadAddrStep
  dsimp only
  split
  · exact ⟨hE, hH⟩
  split
  · exact ⟨hE, hH⟩
  split
  · exact ⟨hE, hH⟩
  split
  · split
    · exact ⟨hE, hH⟩
    · split
      · exact ⟨hE, hH⟩
      · dsimp only
        constructor
        · intro w hw
          split at hw
          · rename_i hcond
            rcases List.mem_append.1 hw with hw | hw
            · exact hE w hw
            · have he : w = stripSpComma
                  (mobileSub ((stripWs (extractEnglishOnly line)).length + 1)
                    none (stripWs (extractEnglishOnly line))) := by
                simpa using hw
              rw [he]
              intro h0
              rw [h0] at hcond
              simp at hcond
          · exact hE w hw
        · intro w hw
          split at hw
          · rename_i hcond
            rcases List.mem_append.1 hw with hw | hw
            · exact hH w hw
            · have he : w = stripWs (extractHindiOnly line) := by simpa using hw
              rw [he]
              intro h0
              rw [h0] at hcond
              simp at hcond
          · exact hH w hw
  · exact ⟨hE, hH⟩

theorem aadDobStep_ne (st : Option (List Char)) (line : List Char)
    (hst : ∀ d, st = some d → d ≠ []) :
    ∀ d, aadDobStep st line = some d → d ≠ [] := by
  intro d hEq
  unfold aadDobStep at hEq
  split at hEq
  · exact hst d hEq
  · dsimp only at hEq
    split at hEq
    · exact extract_date_ne _ _ hEq
    · exact absurd hEq (by simp)

theorem mem_setGender {info : Info} {X : Option (String × String)}
    {p : String × String}
    (hinfo : p ∈ info → p.2 ≠ "")
    (hX : ∀ pr, X = some pr → pr.1.toList ≠ [] ∧ pr.2.toList ≠ [])
    (hp : p ∈ setGender info X) : p.2 ≠ "" := by
  unfold setGender at hp
  cases X with
  | some pr =>
    obtain ⟨g, gh⟩ := pr
    dsimp only at hp
    rcases mem_setF _ _ _ hp with he | hp
    · rw [he]; exact stringMk_ne (hX (g, gh) rfl).2
    rcases mem_setF _ _ _ hp with he | hp
    · rw [he]; exact stringMk_ne (hX (g, gh) rfl).1
    exact hinfo hp
  | none => exact hinfo hp

theorem extract_aadhaar_mem (t : List Char) (lines : List (List Char))
    (p : String × String) (hp : p ∈ extract_aadhaar t lines) : p.2 ≠ "" := by
  unfold extract_aadhaar at hp
  dsimp only at hp
  have haddr : ∀ (sn : List Char) (nh : Option (List Char)),
      (∀ w ∈ (lines.foldl (aadAddrStep sn nh)
        ⟨false, [], [], false⟩ : AadAddrState).addrE, w ≠ []) ∧
      (∀ w ∈ (lines.foldl (aadAddrStep sn nh)
        ⟨false, [], [], false⟩ : AadAddrState).addrH, w ≠ []) := by
    intro sn nh
    exact foldl_preserve
      (fun st : AadAddrState =>
        (∀ w ∈ st.addrE, w ≠ []) ∧ (∀ w ∈ st.addrH, w ≠ []))
      (aadAddrStep sn nh) lines ⟨false, [], [], false⟩
      ⟨fun w hw => absurd hw (by simp), fun w hw => absurd hw (by simp)⟩
      (fun s a hs => aadAddrStep_inv sn nh s a hs.1 hs.2)
  have hdob : ∀ d, lines.foldl aadDobStep none = some d → d ≠ [] :=
    foldl_preserve (fun X : Option (List Char) => ∀ d, X = some d → d ≠ [])
      aadDobStep lines none (fun d hd => by cases hd)
      (fun s a hs => aadDobStep_ne s a hs)
  -- outermost: the gender write
  refine mem_setGender ?_ (fun pr hpr => aadGender_ne t pr hpr) hp
  intro hp
  refine mem_setOpt ?_ (fun d hd => hdob d hd) hp
  intro hp
  refine mem_ite_info ?_ ?_ hp
  · intro _ hp
    refine mem_ite_info ?_ ?_ hp
    · intro hcond hp
      rcases mem_setF _ _ _ hp with he | hp
      · rw [he]
        refine stringMk_ne (joinCommaSp_ne ?_ ((haddr _ _).2))
        simpa [List.isEmpty_iff] using hcond
      · refine mem_ite_info ?_ ?_ hp
        · intro hcond2 hp
          rcases mem_setF _ _ _ hp with he | hp
          · rw [he]
            refine stringMk_ne (joinCommaSp_ne ?_ ((haddr _ _).1))
            simpa [List.isEmpty_iff] using hcond2
          · refine mem_setOpt ?_ (fun g2 hg2 => pinSearch_ne _ _ hg2) hp
            intro hp
            refine mem_setOptNE ?_ (fun v _ hv => hv) hp
            intro hp
            refine mem_setOptNE ?_ (fun v _ hv => hv) hp
            intro hp
            refine mem_setOptNE ?_ (fun v _ hv => hv) hp
            intro hp
            refine mem_setOpt ?_ (fun g2 hg2 => enrollSearch_ne _ _ hg2) hp
            intro hp
            refine mem_setOpt ?_ (fun g2 hg2 => vidLblSearch_ne _ _ hg2) hp
            intro hp
            refine mem_setOpt2NE ?_ hp
            intro hp
            exact absurd hp (by simp)
        · intro hp
          refine mem_setOptNE ?_ (fun v _ hv => hv) hp
          intro hp
          refine mem_setOptNE ?_ (fun v _ hv => hv) hp
          intro hp
          refine mem_setOptNE ?_ (fun v _ hv => hv) hp
          intro hp
          refine mem_setOpt ?_ (fun g2 hg2 => enrollSearch_ne _ _ hg2) hp
          intro hp
          refine mem_setOpt ?_ (fun g2 hg2 => vidLblSearch_ne _ _ hg2) hp
          intro hp
          refine mem_setOpt2NE ?_ hp
          intro hp
          exact absurd hp (by simp)
    · intro hp
      refine mem_ite_info ?_ ?_ hp
      · intro hcond2 hp
        rcases mem_setF _ _ _ hp with he | hp
        · rw [he]
          refine stringMk_ne (joinCommaSp_ne ?_ ((haddr _ _).1))
          simpa [List.isEmpty_iff] using hcond2
        · refine mem_setOpt ?_ (fun g2 hg2 => pinSearch_ne _ _ hg2) hp
          intro hp
          refine mem_setOptNE ?_ (fun v _ hv => hv) hp
          intro hp
          refine mem_setOptNE ?_ (fun v _ hv => hv) hp
          intro hp
          refine mem_setOptNE ?_ (fun v _ hv => hv) hp
          intro hp
          refine mem_setOpt ?_ (fun g2 hg2 => enrollSearch_ne _ _ hg2) hp
          intro hp
          refine mem_setOpt ?_ (fun g2 hg2 => vidLblSearch_ne _ _ hg2) hp
          intro hp
          refine mem_setOpt2NE ?_ hp
          intro hp
          exact absurd hp (by simp)
      · intro hp
        refine mem_setOptNE ?_ (fun v _ hv => hv) hp
        intro hp
        refine mem_setOptNE ?_ (fun v _ hv => hv) hp
        intro hp
        refine mem_setOptNE ?_ (fun v _ hv => hv) hp
        intro hp
        refine mem_setOpt ?_ (fun g2 hg2 => enrollSearch_ne _ _ hg2) hp
        intro hp
        refine mem_setOpt ?_ (fun g2 hg2 => vidLblSearch_ne _ _ hg2) hp
        intro hp
        refine mem_setOpt2NE ?_ hp
        intro hp
        exact absurd hp (by simp)
  · intro hp
    refine mem_setOptNE ?_ (fun v _ hv => hv) hp
    intro hp
    refine mem_setOptNE ?_ (fun v _ hv => hv) hp
    intro hp
    refine mem_setOptNE ?_ (fun v _ hv => hv) hp
    intro hp
    refine mem_setOpt ?_ (fun g2 hg2 => enrollSearch_ne _ _ hg2) hp
    intro hp
    refine mem_setOpt ?_ (fun g2 hg2 => vidLblSearch_ne _ _ hg2) hp
    intro hp
    refine mem_setOpt2NE ?_ hp
    intro hp
    exact absurd hp (by simp)


theorem optPart_ne (X : Option (List Char)) : ∀ w ∈ optPart X, w ≠ [] := by
  intro w hw
  unfold optPart at hw
  split at hw
  · split at hw
    · exact absurd hw (by simp)
    · rename_i v hvE
      have he : w = v := by simpa using hw
      rw [he]
      simpa [List.isEmpty_iff] using hvE
  · exact absurd hw (by simp)

theorem hwAddrCont_inv (lines : List (List Char)) (i : Nat)
    (acc : List (List Char) × Bool) (j : Nat)
    (h : ∀ w ∈ acc.1, w ≠ []) :
    ∀ w ∈ (hwAddrCont lines i acc j).1, w ≠ [] := by
  obtain ⟨parts, stopped⟩ := acc
  unfold hwAddrCont
  dsimp only at h ⊢
  split
  · exact h
  · split
    · split
      · exact h
      · split
        · rename_i hcond
          intro w hw
          rcases List.mem_append.1 hw with hw | hw
          · exact h w hw
          · have he : w = stripWs (lines.getD (i + j) []) := by simpa using hw
            rw [he]
            intro h0
            rw [h0] at hcond
            simp at hcond
        · exact h
    · exact h

theorem hwAddrField_inv (lines : List (List Char)) (i : Nat) (line : List Char)
    (ap : List (List Char)) (hA : ∀ w ∈ ap, w ≠ []) :
    ∀ w ∈ hwAddrField lines i line ap, w ≠ [] := by
  unfold hwAddrField
  dsimp only
  intro w hw
  refine foldl_preserve
    (fun acc : List (List Char) × Bool => ∀ x ∈ acc.1, x ≠ [])
    (hwAddrCont lines i) [1, 2, 3] _ ?_
    (fun s a hs => hwAddrCont_inv lines i s a hs) w hw
  dsimp only
  split
  · rename_i g hg
    split
    · rename_i hcond
      intro x hx
      rcases List.mem_append.1 hx with hx | hx
      · exact hA x hx
      · have he : x = stripWs g := by simpa using hx
        rw [he]
        intro h0
        rw [h0] at hcond
        simp at hcond
    · exact hA
  · exact hA

theorem hwStep_addr (lines : List (List Char)) (st : HwState) (i : Nat)
    (hA : ∀ w ∈ st.addrParts, w ≠ []) :
    ∀ w ∈ (hwStep lines st i).addrParts, w ≠ [] := by
  intro w hw
  unfold hwStep at hw
  by_cases h1 : wbSeqAnySearch [["first", "name"], ["fname"]] (lowL (stripWs (lines.getD i []))) = true
  · rw [if_pos h1] at hw
    exact hA w hw
  rw [if_neg h1] at hw
  by_cases h2 : wbSeqAnySearch [["middle", "name"], ["mname"]] (lowL (stripWs (lines.getD i []))) = true
  · rw [if_pos h2] at hw
    exact hA w hw
  rw [if_neg h2] at hw
  by_cases h3 : wbSeqAnySearch [["surname"], ["sur", "name"], ["last", "name"], ["lname"], ["family", "name"]] (lowL (stripWs (lines.getD i []))) = true
  · rw [if_pos h3] at hw
    exact hA w hw
  rw [if_neg h3] at hw
  by_cases h4 : (wbSeqAnySearch [["full", "name"], ["name"], ["applicant", "name"]] (lowL (stripWs (lines.getD i []))) && !wbSeqAnySearch [["first"], ["middle"], ["last"], ["surname"], ["father"], ["mother"]] (lowL (stripWs (lines.getD i [])))) = true
  · rw [if_pos h4] at hw
    exact hA w hw
  rw [if_neg h4] at hw
  by_cases h5 : ((scanP (hwParentDetectAt "father" 'f') none (lowL (stripWs (lines.getD i [])))).isSome && !containsSub (lowL (stripWs (lines.getD i []))) "grand".toList) = true
  · rw [if_pos h5] at hw
    exact hA w hw
  rw [if_neg h5] at hw
  by_cases h6 : (scanP (hwParentDetectAt "mother" 'm') none (lowL (stripWs (lines.getD i [])))).isSome = true
  · rw [if_pos h6] at hw
    exact hA w hw
  rw [if_neg h6] at hw
  by_cases h7 : (scanP hwDobDetectAt none (lowL (stripWs (lines.getD i [])))).isSome = true
  · rw [if_pos h7] at hw
    exact hA w hw
  rw [if_neg h7] at hw
  by_cases h8 : wbSeqAnySearch [["age"]] (lowL (stripWs (lines.getD i []))) = true
  · rw [if_pos h8] at hw
    exact hA w hw
  rw [if_neg h8] at hw
  by_cases h9 : wbSeqAnySearch [["gender"], ["sex"]] (lowL (stripWs (lines.getD i []))) = true
  · rw [if_pos h9] at hw
    exact hA w hw
  rw [if_neg h9] at hw
  by_cases h10 : (wbSeqAnySearch [["address"], ["addr"], ["residence"]] (lowL (stripWs (lines.getD i []))) && !containsSub (lowL (stripWs (lines.getD i []))) "email".toList) = true
  · rw [if_pos h10] at hw
    exact hwAddrField_inv lines i _ _ hA w hw
  rw [if_neg h10] at hw
  by_cases h11 : wbSeqAnySearch [["city"], ["town"], ["village"]] (lowL (stripWs (lines.getD i []))) = true
  · rw [if_pos h11] at hw
    exact hA w hw
  rw [if_neg h11] at hw
  by_cases h12 : (wbSeqAnySearch [["state"]] (lowL (stripWs (lines.getD i []))) && !containsSub (lowL (stripWs (lines.getD i []))) "marital".toList) = true
  · rw [if_pos h12] at hw
    exact hA w hw
  rw [if_neg h12] at hw
  by_cases h13 : wbSeqAnySearch [["pin", "code"], ["pincode"], ["postal", "code"], ["zip"]] (lowL (stripWs (lines.getD i []))) = true
  · rw [if_pos h13] at hw
    exact hA w hw
  rw [if_neg h13] at hw
  by_cases h14 : wbSeqAnySearch [["mobile"], ["phone"], ["contact"], ["tel"]] (lowL (stripWs (lines.getD i []))) = true
  · rw [if_pos h14] at hw
    exact hA w hw
  rw [if_neg h14] at hw
  by_cases h15 : wbSeqAnySearch [["email"]] (lowL (stripWs (lines.getD i []))) = true
  · rw [if_pos h15] at hw
    exact hA w hw
  rw [if_neg h15] at hw
  by_cases h16 : wbSeqAnySearch [["occupation"], ["profession"], ["job"]] (lowL (stripWs (lines.getD i []))) = true
  · rw [if_pos h16] at hw
    exact hA w hw
  rw [if_neg h16] at hw
  exact hA w hw

theorem mem_ite_info2 {c : Prop} [Decidable c] {info1 info2 : Info}
    {p : String × String}
    (h1 : c → p ∈ info1 → p.2 ≠ "") (h2 : ¬c → p ∈ info2 → p.2 ≠ "")
    (hp : p ∈ (if c then info1 else info2)) : p.2 ≠ "" := by
  split at hp
  · exact h1 (by assumption) hp
  · exact h2 (by assumption) hp

theorem headD_mem {l : List (List Char)} (h : l ≠ []) (d : List Char) :
    l.headD d ∈ l := by
  cases l with
  | nil => exact absurd rfl h
  | cons a rest => simp

theorem getLastD_mem {l : List (List Char)} (h : l ≠ []) (d : List Char) :
    l.getLastD d ∈ l := by
  cases l with
  | nil => exact absurd rfl h
  | cons a rest =>
    rw [List.getLastD_eq_getLast?, List.getLast?_eq_getLast (a :: rest) (by simp)]
    exact List.getLast_mem _

theorem mids_ne {ws : List (List Char)} (h : ws.length ≥ 3) :
    (ws.drop 1).dropLast ≠ [] := by
  have hlen : ((ws.drop 1).dropLast).length = ws.length - 1 - 1 := by
    rw [List.length_dropLast, List.length_drop]
  intro h0
  rw [h0] at hlen
  simp at hlen
  omega

theorem mids_subset {ws : List (List Char)} {x : List Char}
    (hx : x ∈ (ws.drop 1).dropLast) : x ∈ ws :=
  List.drop_subset 1 ws (List.dropLast_subset _ hx)

theorem hwNameInfo_mem (st : HwState) (p : String × String)
    (hp : p ∈ hwNameInfo st) : p.2 ≠ "" := by
  unfold hwNameInfo at hp
  dsimp only at hp
  refine mem_ite_info ?_ ?_ hp
  · intro _ hp
    refine mem_ite_info ?_ ?_ hp
    · intro hpc hp
      rcases mem_setF _ _ _ hp with he | hp
      · rw [he]
        refine stringMk_ne (joinSp_ne ?_ ?_)
        · intro h0
          rw [h0] at hpc
          simp at hpc
        · intro w hw
          rcases List.mem_append.1 hw with hw1 | hw1
          · rcases List.mem_append.1 hw1 with hw2 | hw2
            · exact optPart_ne _ w hw2
            · exact optPart_ne _ w hw2
          · exact optPart_ne _ w hw1
      · refine mem_setOptNE ?_ (fun v _ hv => hv) hp
        intro hp
        refine mem_setOptNE ?_ (fun v _ hv => hv) hp
        intro hp
        refine mem_setOptNE ?_ (fun v _ hv => hv) hp
        intro hp
        exact absurd hp (by simp)
    · intro hp
      refine mem_setOptNE ?_ (fun v _ hv => hv) hp
      intro hp
      refine mem_setOptNE ?_ (fun v _ hv => hv) hp
      intro hp
      refine mem_setOptNE ?_ (fun v _ hv => hv) hp
      intro hp
      exact absurd hp (by simp)
  · intro hp
    cases hfull : st.full with
    | none =>
      rw [hfull] at hp
      exact absurd hp (by simp)
    | some fn =>
      rw [hfull] at hp
      dsimp only at hp
      refine mem_ite_info2 ?_ ?_ hp
      · intro _ hp
        exact absurd hp (by simp)
      · intro hfE hp
        have hfn : fn ≠ [] := by
          simpa [List.isEmpty_iff] using hfE
      
        refine mem_ite_info ?_ ?_ hp
        · intro hlen hp
          have hwsne : wordsOf fn ≠ [] := by
            intro h0
            rw [h0] at hlen
            simp at hlen
          rcases mem_setF _ _ _ hp with he | hp
          · rw [he]
            exact stringMk_ne (wordsOf_mem fn _ (getLastD_mem hwsne [])).1
          rcases mem_setF _ _ _ hp with he | hp
          · rw [he]
            refine stringMk_ne (joinSp_ne (mids_ne hlen) ?_)
            intro w hw
            exact (wordsOf_mem fn w (mids_subset hw)).1
          rcases mem_setF _ _ _ hp with he | hp
          · rw [he]
            exact stringMk_ne (wordsOf_mem fn _ (headD_mem hwsne [])).1
          rcases mem_setF _ _ _ hp with he | hp
          · rw [he]
            exact stringMk_ne hfn
          exact absurd hp (by simp)
        · intro hp
          refine mem_ite_info ?_ ?_ hp
          · intro hlen2 hp
            have hwsne : wordsOf fn ≠ [] := by
              intro h0
              rw [h0] at hlen2
              simp at hlen2
            rcases mem_setF _ _ _ hp with he | hp
            · rw [he]
              exact stringMk_ne (wordsOf_mem fn _ (getLastD_mem hwsne [])).1
            rcases mem_setF _ _ _ hp with he | hp
            · rw [he]
              exact stringMk_ne (wordsOf_mem fn _ (headD_mem hwsne [])).1
            rcases mem_setF _ _ _ hp with he | hp
            · rw [he]
              exact stringMk_ne hfn
            exact absurd hp (by simp)
          · intro hp
            refine mem_ite_info ?_ ?_ hp
            · intro hlen1 hp
              have hwsne : wordsOf fn ≠ [] := by
                intro h0
                rw [h0] at hlen1
                simp at hlen1
              rcases mem_setF _ _ _ hp with he | hp
              · rw [he]
                exact stringMk_ne (wordsOf_mem fn _ (headD_mem hwsne [])).1
              rcases mem_setF _ _ _ hp with he | hp
              · rw [he]
                exact stringMk_ne hfn
              exact absurd hp (by simp)
            · intro hp
              rcases mem_setF _ _ _ hp with he | hp
              · rw [he]
                exact stringMk_ne hfn
              exact absurd hp (by simp)

theorem hwTail (st : HwState) (p : String × String)
    (hp : p ∈ setOptNE (setOptNE (setOptNE (setOptNE (setOptNE
        (hwNameInfo st)
        "father_name" st.father (fun v => v))
        "mother_name" st.mother (fun v => v))
        "date_of_birth" st.dob (fun v => v))
        "age" st.age (fun v => v))
        "gender" st.gender (fun v => v)) : p.2 ≠ "" := by
  refine mem_setOptNE ?_ (fun v _ hv => hv) hp
  intro hp
  refine mem_setOptNE ?_ (fun v _ hv => hv) hp
  intro hp
  refine mem_setOptNE ?_ (fun v _ hv => hv) hp
  intro hp
  refine mem_setOptNE ?_ (fun v _ hv => hv) hp
  intro hp
  refine mem_setOptNE ?_ (fun v _ hv => hv) hp
  intro hp
  exact hwNameInfo_mem st p hp

theorem extract_handwritten_mem (t : List Char) (lines : List (List Char))
    (p : String × String) (hp : p ∈ extract_handwritten t lines) : p.2 ≠ "" := by
  have hall : ∀ w ∈ ((List.range lines.length).foldl (hwStep lines)
      hwEmpty).addrParts, w ≠ [] :=
    foldl_preserve (fun st : HwState => ∀ w ∈ st.addrParts, w ≠ [])
      (hwStep lines) (List.range lines.length) hwEmpty
      (fun w hw => absurd hw (by simp [hwEmpty]))
      (fun s a hs => hwStep_addr lines s a hs)
  unfold extract_handwritten at hp
  revert hp hall
  generalize (List.range lines.length).foldl (hwStep lines) hwEmpty = st0
  intro hp hall
  rcases mem_setF _ _ _ hp with he | hp
  · rw [he]; exact stringMk_ne (by decide)
  refine mem_setOptNE ?_ (fun v _ hv => hv) hp
  intro hp
  refine mem_setOptNE ?_ (fun v _ hv => hv) hp
  intro hp
  refine mem_setOptNE ?_ (fun v _ hv => hv) hp
  intro hp
  refine mem_setOptNE ?_ (fun v _ hv => hv) hp
  intro hp
  refine mem_setOptNE ?_ (fun v _ hv => hv) hp
  intro hp
  refine mem_setOptNE ?_ (fun v _ hv => hv) hp
  intro hp
  refine mem_ite_info ?_ ?_ hp
  · intro hc hp
    rcases mem_setF _ _ _ hp with he | hp
    · rw [he]
      refine stringMk_ne (joinCommaSp_ne ?_ hall)
      intro h0
      rw [h0] at hc
      simp at hc
    · exact hwTail st0 p hp
  · intro hp
    exact hwTail st0 p hp

theorem mem_of_lookupF : ∀ {info : Info} {k v : String},
    lookupF info k = some v → (k, v) ∈ info := by
  intro info
  induction info with
  | nil => intro k v h; simp [lookupF, List.lookup] at h
  | cons a rest ih =>
    obtain ⟨k1, v1⟩ := a
    intro k v h
    rw [lookupF, List.lookup] at h
    by_cases hk : k = k1
    · subst hk
      simp only [beq_self_eq_true, if_pos, Option.some.injEq] at h
      subst h
      exact List.mem_cons_self _ _
    · have hb : (k == k1) = false := beq_eq_false_iff_ne.mpr hk
      rw [hb] at h
      simp only [Bool.false_eq_true, if_false] at h
      exact List.mem_cons_of_mem _ (ih h)

/-- C9: every value present in the mapping returned by extract_document_info,
for any input text and any document type, is a nonempty string: each of the
six extractors only stores guarded or structurally nonempty values. -/
theorem extract_values_never_empty (text docType : String) (k v : String)
    (h : lookupF (extract_document_info text docType) k = some v) : v ≠ "" := by
  have hm : (k, v) ∈ extract_document_info text docType := mem_of_lookupF h
  unfold extract_document_info at hm
  split at hm
  · exact extract_aadhaar_mem _ _ (k, v) hm
  split at hm
  · exact extract_pan_mem _ _ (k, v) hm
  split at hm
  · exact extract_voter_id_mem _ _ (k, v) hm
  split at hm
  · exact extract_driving_license_mem _ _ (k, v) hm
  split at hm
  · exact extract_handwritten_mem _ _ (k, v) hm
  · exact extract_generic_mem _ (k, v) hm

theorem extract_values_never_empty_witness :
    lookupF (extract_document_info "Pin Code: 411001" "HANDWRITTEN") "pin_code"
        = some "411001" ∧
    "411001" ≠ "" :=
  ⟨by decide,
   extract_values_never_empty "Pin Code: 411001" "HANDWRITTEN" "pin_code"
     "411001" (by decide)⟩

end FormAssist
